import Mathlib

/-!
# Simd: merged 16-bit convolution engines (Base)

A shallow embedding of `src/Simd/SimdBaseSynetMergedConvolution16b.cpp`:
the topology predicates, the tiling planner `SetSize` of the Cdc, Cd and Dc
engines, the weight, bias and activation-parameter packers, the scratch buffer and
the calls made by the `Forward` functions with the rounds of their row and
channel-tile loops, the reads of the source tensor by the reference convolutions
`DirectBf16` and `DepthwiseBf16`, and the factory `SynetMergedConvolution16bInit`;
and of `Preferable`, `SetAlgParam`, `SetWeight` and `Forward` from
`src/Simd/SimdBaseSynetConvolution16bNchwGemm.cpp`.

Conventions of the embedding.

* `size_t` quantities (channel counts, heights, buffer sizes, indices) are natural
  numbers; they are sizes of objects that live in memory and the arithmetic on them
  is modelled without wrap-around. The subtractions that the source lets wrap (the
  padding in `yStart[1]` and in the padding tests) are modelled modulo `2^64`
  (`SizeSub`, `WrapSub`).
* A buffer filled through `*(dst++) = v` is the list of the values written, in
  write order; cell `k` of the buffer is element `k` of the list.
* Source arrays are functions from the index to the stored bit pattern
  (`src k` is the bit pattern of `src[k]`); the bit pattern `0` is the number zero.
* Pointers are byte offsets from the pointer `Forward` received for the tensor; a
  `Forward` function returns, per batch item, the calls it makes, and `none` when one
  of its loops does not terminate.
* Helpers declared in headers that are not part of the sources at hand
  (`Is1x1`, the conversion `cvt` of the dense packers, cache sizes, `SIMD_ALIGN`, the
  constructor and `Valid` of `MergConvParam`) are parameters of the definitions that
  use them; small helpers (`AlignHi`, `AlignLo`, `DivHi`, `Allocate`, ...) and the
  conversion `Float32ToBFloat16` of the rounding theorem are modelled and marked.
* Quotients are those of the naturals, with `x / 0 = 0`; the divisors of the
  source (`L3 / 2`, `microD`, `macroK`, `dstW`) are positive for the arguments the
  engines are set up with.
-/

namespace Simd
namespace Base

/-! ## Descriptors -/

/-- The activation tag of a convolution stage (`SimdConvolutionActivationType`). -/
inductive SimdConvolutionActivationType where
  | Identity | Relu | LeakyRelu | RestrictRange | Prelu | Elu
  | Hswish | Mish | HardSigmoid | Swish | Gelu
  deriving DecidableEq

/-- The fields of `ConvParam` read by the code embedded here. -/
structure ConvParam where
  srcC : Nat
  srcH : Nat
  srcW : Nat
  dstC : Nat
  dstH : Nat
  dstW : Nat
  kernelY : Nat
  kernelX : Nat
  strideY : Nat
  strideX : Nat
  padY : Nat
  padX : Nat
  group : Nat
  activation : SimdConvolutionActivationType
  batch : Nat := 1
  trans : Nat := 0
  deriving DecidableEq

/-- The fields of `MergConvParam` read by the code embedded here: the stage array
`conv[3]`, the stage count and the residual flag. -/
structure MergConvParam where
  conv0 : ConvParam
  conv1 : ConvParam
  conv2 : ConvParam
  count : Nat
  add : Bool
  deriving DecidableEq

/-- Array access `p.conv[i]` for `i < 3`. -/
def MergConvParam.conv (p : MergConvParam) (i : Nat) : ConvParam :=
  match i with
  | 0 => p.conv0
  | 1 => p.conv1
  | _ => p.conv2

/-- Modelled from the spec: `Is1x1` is declared in a header that is not among the
sources; the glossary defines a pointwise / 1×1 convolution as one whose kernel spans
only the channel dimension (`kernelY = kernelX = 1`). The predicates below take the
test as a parameter; this instance is used for concrete evaluation. -/
def Is1x1 (p : ConvParam) : Bool :=
  p.kernelY == 1 && p.kernelX == 1

/-! ## Topology predicates -/

/-- Source `SynetMergedConvolution16bCdc::Preferable`:
`return p.count == 3 && Is1x1(p.conv[0]);` -/
def SynetMergedConvolution16bCdc.Preferable (is1x1 : ConvParam → Bool)
    (p : MergConvParam) : Bool :=
  p.count == 3 && is1x1 (p.conv 0)

/-- Source `SynetMergedConvolution16bCd::Preferable`:
`return p.count == 2 && p.conv[0].group == 1 && Is1x1(p.conv[0]);` -/
def SynetMergedConvolution16bCd.Preferable (is1x1 : ConvParam → Bool)
    (p : MergConvParam) : Bool :=
  p.count == 2 && (p.conv 0).group == 1 && is1x1 (p.conv 0)

/-- Source `SynetMergedConvolution16bDc::Preferable`:
`return p.count == 2 && p.conv[1].group == 1;` -/
def SynetMergedConvolution16bDc.Preferable (p : MergConvParam) : Bool :=
  p.count == 2 && (p.conv 1).group == 1

/-- A pointwise stage with the given channel counts and group (8×8 image, identity
activation), used to build concrete descriptors. -/
def pointwiseStage (srcC dstC group : Nat) : ConvParam :=
  { srcC := srcC, srcH := 8, srcW := 8, dstC := dstC, dstH := 8, dstW := 8,
    kernelY := 1, kernelX := 1, strideY := 1, strideX := 1, padY := 0, padX := 0,
    group := group, activation := SimdConvolutionActivationType.Identity }

/-- A three-stage descriptor whose stage 0 is a 1×1 convolution (unit kernel, unit
stride, no padding) with `group == 2`. -/
def groupedHeadDescriptor : MergConvParam :=
  { conv0 := pointwiseStage 4 4 2, conv1 := pointwiseStage 4 4 4,
    conv2 := pointwiseStage 4 4 1, count := 3, add := false }

/-- A two-stage descriptor whose stages are both 1×1 convolutions (unit kernel, unit
stride, no padding) with `group == 1`. -/
def densePairDescriptor : MergConvParam :=
  { conv0 := pointwiseStage 4 4 1, conv1 := pointwiseStage 4 4 1,
    conv2 := pointwiseStage 4 4 1, count := 2, add := false }


/-! ## Arithmetic helpers -/

/-- Modelled from the spec: `DivHi` is declared in a header that is not among the
sources; it is the quotient rounded up, `ceil(value / divider)`, computed as
`(value + divider - 1) / divider`. -/
def DivHi (value divider : Nat) : Nat :=
  (value + divider - 1) / divider

/-- Modelled from the spec: `AlignHiAny` is declared in a header that is not among the
sources; it rounds `size` up to a multiple of an arbitrary `align`,
`(size + align - 1) / align * align`. -/
def AlignHiAny (size align : Nat) : Nat :=
  (size + align - 1) / align * align

/-- Modelled from the spec: `AlignHi` is declared in a header that is not among the
sources; the spec describes it as rounding up to a multiple of the alignment. The
library does this with a bit mask, `(size + align - 1) & ~(align - 1)`: the bits of
`align - 1` are cleared in `size + align - 1`. Clearing the bits of `m` in `x` is
`x - (x &&& m)`. For `align == 0` the mask `~(0 - 1)` is zero and so is the result. -/
def AlignHi (size align : Nat) : Nat :=
  if align = 0 then 0
  else (size + align - 1) - ((size + align - 1) &&& (align - 1))

/-- The loop of `Pow2Hi`: `for (; pow2 < value; pow2 *= 2);`, with a bound on the
number of iterations. -/
def Pow2HiLoop : Nat → Nat → Nat → Nat
  | 0, pow2, _ => pow2
  | fuel + 1, pow2, value =>
    if pow2 < value then Pow2HiLoop fuel (pow2 * 2) value else pow2

/-- Modelled from the spec: `Pow2Hi` is declared in a header that is not among the
sources; it is the power-of-two rounding of a row-buffer height, the least power of two
that is not below `value`, computed by doubling from 1. `value` iterations are enough
for the loop to stop (`Pow2Hi_ge`); the doubling is done on naturals, as it is in 64 bits
for every `value` up to `2^63`. -/
def Pow2Hi (value : Nat) : Nat :=
  Pow2HiLoop value 1 value

/-- Subtraction of `size_t` values: the difference when it is not negative, and the
wrapped value `a + 2^64 - b` otherwise. -/
def SizeSub (a b : Nat) : Nat :=
  if b ≤ a then a - b else a + 2 ^ 64 - b

/-! ## Engine state and the tiling planner -/

/-- The fields of `SynetMergedConvolution16b::AlgParam`; `yStep[i]`, `yStart[i]`,
`bufH[i]`, `dp[i]` and `dw[i]` are spelled `yStep0`, `yStep1`, ... -/
structure AlgParam where
  miC : Nat
  miK : Nat
  maC : Nat
  yStep0 : Nat
  yStep1 : Nat
  yStep2 : Nat
  yStart0 : Nat
  yStart1 : Nat
  yStart2 : Nat
  bufH0 : Nat
  bufH1 : Nat
  bufH2 : Nat
  dp0 : Nat
  dp1 : Nat
  dw0 : Nat
  dw1 : Nat
  dw2 : Nat
  deriving DecidableEq

/-- The part of the engine object that `SetSize` and `ExternalBufferSize` read and
write: `_param`, `_alg` and `_sizeB[3]`. -/
structure SynetMergedConvolution16b where
  param : MergConvParam
  alg : AlgParam
  sizeB0 : Nat
  sizeB1 : Nat
  sizeB2 : Nat
  deriving DecidableEq

/-- The constructor `SynetMergedConvolution16b::SynetMergedConvolution16b`:
`memset(&_alg, 0, sizeof(_alg))` and the initial `_sizeB`. -/
def SynetMergedConvolution16b.create (p : MergConvParam) : SynetMergedConvolution16b :=
  { param := p
    alg := { miC := 0, miK := 0, maC := 0, yStep0 := 0, yStep1 := 0, yStep2 := 0,
             yStart0 := 0, yStart1 := 0, yStart2 := 0, bufH0 := 0, bufH1 := 0, bufH2 := 0,
             dp0 := 0, dp1 := 0, dw0 := 0, dw1 := 0, dw2 := 0 }
    sizeB0 := (p.conv 1).srcH * (p.conv 1).srcW * (p.conv 1).srcC
    sizeB1 := if p.count = 3 then (p.conv 1).dstH * (p.conv 1).dstW * (p.conv 1).dstC else 0
    sizeB2 := 0 }

/-- The body of the weight-footprint loop of `SetSize`: the bytes added for stage `c`. -/
def StageWeightSize (miC miK : Nat) (c : ConvParam) : Nat :=
  if c.group = 1 then AlignHi c.srcC miK * AlignHi c.dstC (miC * 2) * 2
  else c.kernelY * c.kernelX * c.srcC * 4

/-- The weight-footprint loop of `SetSize`:
`size = 0; for (i = 0; i < n; ++i) size += ...` over `p.conv[i]`. -/
def WeightSize (miC miK : Nat) (p : MergConvParam) (n : Nat) : Nat :=
  (List.range n).foldl (fun size i => size + StageWeightSize miC miK (p.conv i)) 0

/-- The row-window search loop shared by the three `SetSize` functions:
`for (size_t yStep = H; yStep >= 1; yStep--) { row(yStep); if (fits) break; }`.
The first argument is the current value of `yStep`; the loop ends when it reaches 0. -/
def RowSearch {σ : Type} (row : σ → Nat → σ) (fits : σ → Bool) : Nat → σ → σ
  | 0, s => s
  | yStep + 1, s =>
    if fits (row s (yStep + 1)) then row s (yStep + 1)
    else RowSearch row fits yStep (row s (yStep + 1))

/-- The `(yStep, yStart, bufH)` triples and `_sizeB` of an engine, in the order
`yStep[0..2]`, `yStart[0..2]`, `bufH[0..2]`, `_sizeB[0..2]`. -/
def SynetMergedConvolution16b.window (s : SynetMergedConvolution16b) : List Nat :=
  [s.alg.yStep0, s.alg.yStep1, s.alg.yStep2, s.alg.yStart0, s.alg.yStart1, s.alg.yStart2,
   s.alg.bufH0, s.alg.bufH1, s.alg.bufH2, s.sizeB0, s.sizeB1, s.sizeB2]

/-- The value `c.activation == SimdConvolutionActivationPrelu ? 1 : 0`. -/
def PreluStride (c : ConvParam) : Nat :=
  if c.activation = SimdConvolutionActivationType.Prelu then 1 else 0

namespace SynetMergedConvolution16bCdc

/-- Cdc `SetSize`, up to the row loop: `a.miC`, `a.miK`, the weight footprint `size`,
the split factor `count` and `a.maC`. -/
def SetSizeHead (miC miK L3 : Nat) (s : SynetMergedConvolution16b) :
    SynetMergedConvolution16b :=
  let size := WeightSize miC miK s.param 3
  let count := size / (L3 / 2) + 1
  { s with alg := { s.alg with
      miC := miC, miK := miK,
      maC := AlignHi (AlignHi ((s.param.conv 0).srcC / count) (2 * miC)) miK } }

/-- Cdc `SetSize`, the body of the row loop before the budget test, for the loop
variable `yStep`. -/
def SetSizeRow (s : SynetMergedConvolution16b) (yStep : Nat) : SynetMergedConvolution16b :=
  let c0 := s.param.conv 0
  let c1 := s.param.conv 1
  let yStep2 := max 1 yStep
  let yStart2 := yStep2
  let bufH2 := Pow2Hi yStep2
  let yStep1 := yStep2 * c1.strideY
  let yStart1 := min (SizeSub ((yStart2 - 1) * c1.strideY + c1.kernelY) c1.padY) c1.srcH
  let bufH1 := Pow2Hi (max ((yStep2 - 1) * c1.strideY + c1.kernelY) yStart1)
  let yStep0 := yStep1
  let yStart0 := min yStart1 c0.srcH
  let bufH0 := Pow2Hi (max yStep1 yStart0)
  { s with
    alg := { s.alg with
      yStep0 := yStep0, yStep1 := yStep1, yStep2 := yStep2,
      yStart0 := yStart0, yStart1 := yStart1, yStart2 := yStart2,
      bufH0 := bufH0, bufH1 := bufH1, bufH2 := bufH2 }
    sizeB0 := bufH0 * (s.param.conv 0).srcW * AlignHi (s.param.conv 0).srcC s.alg.miK
    sizeB1 := bufH1 * (s.param.conv 1).srcW * s.alg.maC
    sizeB2 := bufH2 * (s.param.conv 1).dstW * s.alg.maC }

/-- The footprint tested by the Cdc row loop: `_sizeB[0] * 2 + _sizeB[1] * 4 + _sizeB[2] * 2`. -/
def Footprint (s : SynetMergedConvolution16b) : Nat :=
  s.sizeB0 * 2 + s.sizeB1 * 4 + s.sizeB2 * 2

/-- Cdc `SetSize`, after the row loop: the strides `dp` and `dw`. The final writes to the
tensor types `dstT`/`srcT` of the stages touch no field modelled here. -/
def SetSizeTail (s : SynetMergedConvolution16b) : SynetMergedConvolution16b :=
  { s with alg := { s.alg with
      dp0 := PreluStride (s.param.conv 0)
      dp1 := PreluStride (s.param.conv 1)
      dw0 := AlignHi (s.param.conv 0).srcC s.alg.miK
      dw1 := (s.param.conv 1).kernelY * (s.param.conv 1).kernelX
      dw2 := AlignHi (s.param.conv 2).dstC (2 * s.alg.miC) } }

/-- Source `SynetMergedConvolution16bCdc::SetSize(miC, miK)`, with the cache sizes
`L2 = AlgCacheL2()` and `L3 = AlgCacheL3()` as arguments. -/
def SetSize (miC miK L2 L3 : Nat) (s : SynetMergedConvolution16b) :
    SynetMergedConvolution16b :=
  let s0 := SetSizeHead miC miK L3 s
  SetSizeTail (RowSearch SetSizeRow (fun t => decide (Footprint t ≤ L2))
    (s0.param.conv 1).dstH s0)

end SynetMergedConvolution16bCdc

namespace SynetMergedConvolution16bCd

/-- Cd `SetSize`, up to the row loop. -/
def SetSizeHead (miC miK L3 : Nat) (s : SynetMergedConvolution16b) :
    SynetMergedConvolution16b :=
  let size := WeightSize miC miK s.param 2
  let count := size / (L3 / 2) + 1
  { s with alg := { s.alg with
      miC := miC, miK := miK,
      maC := AlignHiAny ((s.param.conv 0).dstC / count) (2 * miC) } }

/-- Cd `SetSize`, the body of the row loop before the budget test. -/
def SetSizeRow (s : SynetMergedConvolution16b) (yStep : Nat) : SynetMergedConvolution16b :=
  let c0 := s.param.conv 0
  let c1 := s.param.conv 1
  let yStep2 := max 1 yStep
  let yStart2 := yStep2
  let yStep1 := yStep2 * c1.strideY
  let yStart1 := min (SizeSub ((yStart2 - 1) * c1.strideY + c1.kernelY) c1.padY) c1.srcH
  let bufH1 := Pow2Hi (max ((yStep2 - 1) * c1.strideY + c1.kernelY) yStart1)
  let yStep0 := yStep1
  let yStart0 := min yStart1 c0.srcH
  let bufH0 := Pow2Hi (max yStep1 yStart0)
  { s with
    alg := { s.alg with
      yStep0 := yStep0, yStep1 := yStep1, yStep2 := yStep2,
      yStart0 := yStart0, yStart1 := yStart1, yStart2 := yStart2,
      bufH0 := bufH0, bufH1 := bufH1 }
    sizeB0 := bufH0 * (s.param.conv 0).srcW * AlignHi (s.param.conv 0).srcC s.alg.miK
    sizeB1 := bufH1 * (s.param.conv 1).srcW * s.alg.maC }

/-- The footprint tested by the Cd row loop: `_sizeB[0] * 2 + _sizeB[1] * 4`. -/
def Footprint (s : SynetMergedConvolution16b) : Nat :=
  s.sizeB0 * 2 + s.sizeB1 * 4

/-- Cd `SetSize`, after the row loop. -/
def SetSizeTail (s : SynetMergedConvolution16b) : SynetMergedConvolution16b :=
  { s with
    alg := { s.alg with
      dp0 := PreluStride (s.param.conv 0)
      dp1 := PreluStride (s.param.conv 1)
      dw0 := AlignHi (s.param.conv 0).srcC s.alg.miK
      dw1 := (s.param.conv 1).kernelY * (s.param.conv 1).kernelX
      dw2 := 0
      bufH2 := 0 }
    sizeB2 := 0 }

/-- Source `SynetMergedConvolution16bCd::SetSize(miC, miK)`. -/
def SetSize (miC miK L2 L3 : Nat) (s : SynetMergedConvolution16b) :
    SynetMergedConvolution16b :=
  let s0 := SetSizeHead miC miK L3 s
  SetSizeTail (RowSearch SetSizeRow (fun t => decide (Footprint t ≤ L2))
    (s0.param.conv 1).dstH s0)

end SynetMergedConvolution16bCd

namespace SynetMergedConvolution16bDc

/-- Dc `SetSize`, up to the row loop. -/
def SetSizeHead (miC miK L3 : Nat) (s : SynetMergedConvolution16b) :
    SynetMergedConvolution16b :=
  let size := WeightSize miC miK s.param 2
  let count := size / (L3 / 2) + 1
  { s with alg := { s.alg with
      miC := miC, miK := miK,
      maC := AlignHi (AlignHi ((s.param.conv 0).srcC / count) (2 * miC)) miK } }

/-- Dc `SetSize`, the body of the row loop before the budget test. -/
def SetSizeRow (s : SynetMergedConvolution16b) (yStep : Nat) : SynetMergedConvolution16b :=
  let c0 := s.param.conv 0
  let yStep2 := max 1 yStep
  let yStart2 := yStep2
  let bufH2 := Pow2Hi yStep2
  let yStep1 := yStep2 * c0.strideY
  let yStart1 := min (SizeSub ((yStart2 - 1) * c0.strideY + c0.kernelY) c0.padY) c0.srcH
  { s with
    alg := { s.alg with
      yStep1 := yStep1, yStep2 := yStep2,
      yStart1 := yStart1, yStart2 := yStart2,
      bufH2 := bufH2 }
    sizeB2 := bufH2 * (s.param.conv 1).srcW * s.alg.maC }

/-- The footprint tested by the Dc row loop: `_sizeB[2] * 2`. -/
def Footprint (s : SynetMergedConvolution16b) : Nat :=
  s.sizeB2 * 2

/-- Dc `SetSize`, after the row loop. -/
def SetSizeTail (s : SynetMergedConvolution16b) : SynetMergedConvolution16b :=
  { s with
    alg := { s.alg with
      bufH0 := 0
      bufH1 := 0
      dp0 := PreluStride (s.param.conv 0)
      dp1 := PreluStride (s.param.conv 1)
      dw0 := (s.param.conv 0).kernelY * (s.param.conv 0).kernelX
      dw1 := AlignHi (s.param.conv 1).dstC (2 * s.alg.miC) }
    sizeB0 := 0
    sizeB1 := 0 }

/-- Source `SynetMergedConvolution16bDc::SetSize(miC, miK)`; its row loop starts at
`c0.dstH`. -/
def SetSize (miC miK L2 L3 : Nat) (s : SynetMergedConvolution16b) :
    SynetMergedConvolution16b :=
  let s0 := SetSizeHead miC miK L3 s
  SetSizeTail (RowSearch SetSizeRow (fun t => decide (Footprint t ≤ L2))
    (s0.param.conv 0).dstH s0)

end SynetMergedConvolution16bDc


/-- A stage of a merged descriptor: `kernel`×`kernel` with the given stride and pad on a
`srcH`×`srcW` image whose output is `dstH`×`srcW`. -/
def stage (srcC dstC group kernel stride pad srcH dstH width : Nat) : ConvParam :=
  { srcC := srcC, srcH := srcH, srcW := width, dstC := dstC, dstH := dstH, dstW := width,
    kernelY := kernel, kernelX := kernel, strideY := stride, strideX := stride,
    padY := pad, padX := pad, group := group,
    activation := SimdConvolutionActivationType.Identity }

/-- The expand / depthwise 3×3 / project chain `16 → 32 → 32 → 16` on an 8×8 image. -/
def bottleneckDescriptor : MergConvParam :=
  { conv0 := stage 16 32 1 1 1 0 8 8 8, conv1 := stage 32 32 32 3 1 1 8 8 8,
    conv2 := stage 32 16 1 1 1 0 8 8 8, count := 3, add := true }

/-- The expand / depthwise 3×3 / project chain `64 → 256 → 256 → 64` on an image of 2
rows of 2048 pixels. -/
def wideDescriptor : MergConvParam :=
  { conv0 := stage 64 256 1 1 1 0 2 2 2048, conv1 := stage 256 256 256 3 1 1 2 2 2048,
    conv2 := stage 256 64 1 1 1 0 2 2 2048, count := 3, add := false }

/-! ## Weight packers -/

/-- The values taken by `x` in `for (x = 0; x < stop; x += step)`, for `step > 0`:
`0, step, 2*step, ...` below `stop` (`mem_StepRange`). -/
def StepRange (stop step : Nat) : List Nat :=
  (List.range (DivHi stop step)).map (fun j => j * step)

/-- The offset of the read pointer `ps` from `src` in the dense packers after `f` rounds
of the `f` loop: `ps` starts at `base` and is incremented at the end of a round only when
the source pair is not entirely padding (`if (c < p.srcC) ps++;`). -/
def PsOffset (base : Nat) (inSrc : Bool) (f : Nat) : Nat :=
  base + (if inSrc then f else 0)

/-- Source `SynetMergedConvolution16b::SetInputWeight`: the contents of `_weightI`.
`cvt` is `Float32ToBFloat16` on bit patterns and `src k` the bit pattern of `src[k]`.
The `assert`s on the stage shape are debug checks and are not part of the result. -/
def SetInputWeight (cvt : Nat → Nat) (a : AlgParam) (src : Nat → Nat) (p : ConvParam) :
    List Nat :=
  if a.miC ≠ 0 then
    let F := a.miC * 2
    let C := AlignHi p.srcC a.miK
    let D := DivHi p.dstC F
    (List.range D).flatMap fun d =>
      (StepRange C 2).flatMap fun c =>
        (List.range F).flatMap fun f =>
          (List.range 2).map fun i =>
            if d * F + f < p.dstC ∧ c + i < p.srcC then
              cvt (src (PsOffset (c * p.dstC + d * F) (decide (c < p.srcC)) f + i * p.dstC))
            else 0
  else
    (List.range (p.kernelY * p.kernelX * p.srcC * p.dstC)).map fun j => cvt (src j)

/-- Source `SynetMergedConvolution16b::SetDepthwiseWeight`: the contents of `_weightD`;
the weights stay float32 bit patterns. -/
def SetDepthwiseWeight (a : AlgParam) (src : Nat → Nat) (p : ConvParam) : List Nat :=
  if a.miC ≠ 0 then
    let D := p.dstC
    let K := p.kernelY * p.kernelX
    let F := a.miC
    (StepRange D F).flatMap fun d =>
      let n := min F (D - d)
      (List.range K).flatMap fun k =>
        (List.range n).map (fun i => src (k * D + d + i)) ++ List.replicate (F - n) 0
  else
    (List.range (p.kernelY * p.kernelX * p.srcC * p.dstC / p.group)).map src

/-- Source `SynetMergedConvolution16b::SetOutputWeight`: the contents of `_weightO`. -/
def SetOutputWeight (cvt : Nat → Nat) (a : AlgParam) (src : Nat → Nat) (p : ConvParam) :
    List Nat :=
  if a.miC ≠ 0 then
    let F := a.miC * 2
    let C := DivHi (AlignHi p.srcC a.miK) 2
    let D := DivHi p.dstC F
    let M := DivHi a.maC 2
    (StepRange C M).flatMap fun cB =>
      let cE := min C (cB + M)
      (List.range D).flatMap fun d =>
        (List.range' cB (cE - cB)).flatMap fun c =>
          (List.range F).flatMap fun f =>
            (List.range 2).map fun i =>
              if d * F + f < p.dstC ∧ c * 2 + i < p.srcC then
                cvt (src (PsOffset (c * 2 * p.dstC + d * F) (decide (c * 2 < p.srcC)) f +
                  i * p.dstC))
              else 0
  else
    (List.range (p.kernelY * p.kernelX * p.srcC * p.dstC)).map fun j => cvt (src j)

/-- The value of the packed cell of a dense packer that belongs to source-channel pair `c`,
destination tile `d`, lane `f` and pair member `i`: the converted weight
`src[(2c+i)*dstC + d*F + f]` when both channels are in range, and 0 otherwise. -/
def DenseCell (cvt : Nat → Nat) (a : AlgParam) (src : Nat → Nat) (p : ConvParam)
    (c d f i : Nat) : Nat :=
  if d * (a.miC * 2) + f < p.dstC ∧ 2 * c + i < p.srcC then
    cvt (src ((2 * c + i) * p.dstC + d * (a.miC * 2) + f))
  else 0

/-- The index in `_weightI` of the cell of pair `c`, tile `d`, lane `f`, member `i` in the
layout `[D][C/2][F][2]`. -/
def InputWeightIndex (a : AlgParam) (p : ConvParam) (c d f i : Nat) : Nat :=
  ((d * (AlignHi p.srcC a.miK / 2) + c) * (a.miC * 2) + f) * 2 + i

/-- The index in `_weightO` of the cell of pair `c`, tile `d`, lane `f`, member `i`: the
pairs are grouped in macro blocks of `M = DivHi(maC, 2)` pairs, the block of `c` starts at
pair `cB = c / M * M` and holds `cE - cB` pairs, and inside a block the layout is
`[D][cE - cB][F][2]`. -/
def OutputWeightIndex (a : AlgParam) (p : ConvParam) (c d f i : Nat) : Nat :=
  let F := a.miC * 2
  let C := DivHi (AlignHi p.srcC a.miK) 2
  let D := DivHi p.dstC F
  let M := DivHi a.maC 2
  let cB := c / M * M
  let cE := min C (cB + M)
  cB * (D * F * 2) + ((d * (cE - cB) + (c - cB)) * F + f) * 2 + i

/-- The upper 16 bits of a 32-bit pattern: the bfloat16 pattern that every rounding of
float32 to bfloat16 gives for a pattern whose lower 16 bits are zero. -/
def UpperHalf (bits : Nat) : Nat :=
  bits / 65536

/-- A weight array whose element `j` has the bit pattern `(j + 1) * 2^16`; its elements
are pairwise distinct and have zero lower halves. -/
def rampWeights (j : Nat) : Nat :=
  (j + 1) * 65536

/-- The chain `16 → 32 → 32 → 32` on an 8×8 image: the output stage has two destination
tiles of 16 channels. -/
def squareTailDescriptor : MergConvParam :=
  { conv0 := stage 16 32 1 1 1 0 8 8 8, conv1 := stage 32 32 32 3 1 1 8 8 8,
    conv2 := stage 32 32 1 1 1 0 8 8 8, count := 3, add := false }

/-- The placement map of the input packer: the index in `_weightI` at which weight
`(sc, dc)` of the `[srcC][dstC]` tensor is stored. -/
def InputWeightPlace (a : AlgParam) (p : ConvParam) (sc dc : Nat) : Nat :=
  InputWeightIndex a p (sc / 2) (dc / (a.miC * 2)) (dc % (a.miC * 2)) (sc % 2)

/-- The placement map of the output packer: the index in `_weightO` at which weight
`(sc, dc)` of the `[srcC][dstC]` tensor is stored. -/
def OutputWeightPlace (a : AlgParam) (p : ConvParam) (sc dc : Nat) : Nat :=
  OutputWeightIndex a p (sc / 2) (dc / (a.miC * 2)) (dc % (a.miC * 2)) (sc % 2)

/-- The tiling parameters computed by Cdc `SetSize` for `squareTailDescriptor` with
`miC = 8`, `miK = 2`, a 4 KiB L2 and a 1 MiB L3; `maC` is 16. -/
def squareTailAlg : AlgParam :=
  (SynetMergedConvolution16bCdc.SetSize 8 2 4096 1048576
    (SynetMergedConvolution16b.create squareTailDescriptor)).alg

/-! ## Scratch buffer -/

/-- Modelled from the spec: `Simd::RestrictRange(value, min, max)` is declared in a
header that is not among the sources; it clamps `value` to its bounds,
`Max(min, Min(max, value))`. -/
def RestrictRange (value lo hi : Nat) : Nat :=
  max lo (min hi value)

/-- Modelled from the spec: `Allocate<T>(buf, size)` is declared in a header that is not
among the sources; it hands out the current position of the scratch pointer and advances
the pointer by the byte size of the region rounded up to `SIMD_ALIGN`. Positions are byte
offsets from the start of the scratch buffer; `elem` is `sizeof(T)`. The result is the
region's start and the new position. -/
def Allocate (align elem buffer size : Nat) : Nat × Nat :=
  (buffer, buffer + AlignHi (size * elem) align)

/-- Modelled from the spec: `SetGap(buf)` is declared in a header that is not among the
sources; it skips the fixed alignment gap of `SIMD_ALIGN` bytes. -/
def SetGap (align buffer : Nat) : Nat :=
  buffer + align

/-- Source `SynetMergedConvolution16b::ExternalBufferSize`, with the constant
`SIMD_ALIGN` as the argument `align`. -/
def SynetMergedConvolution16b.ExternalBufferSize (align : Nat)
    (s : SynetMergedConvolution16b) : Nat :=
  if s.alg.miC ≠ 0 then s.sizeB1 * 4 + (s.sizeB0 + s.sizeB2) * 2 + align
  else (s.sizeB1 + s.sizeB0) * 4

/-- The scratch regions of Cdc `Forward`, as byte offsets of `buf0`, `buf1`, `buf2`:
`buf0 = Allocate<uint16_t>(buf, _sizeB[0]); SetGap(buf);`
`buf1 = Allocate<float>(buf, _sizeB[1]); buf2 = Allocate<uint16_t>(buf, _sizeB[2]);`
`SetGap(buf);` -/
def SynetMergedConvolution16bCdc.Buffers (align : Nat) (s : SynetMergedConvolution16b) :
    Nat × Nat × Nat :=
  let r0 := Allocate align 2 0 s.sizeB0
  let g0 := SetGap align r0.2
  let r1 := Allocate align 4 g0 s.sizeB1
  let r2 := Allocate align 2 r1.2 s.sizeB2
  (r0.1, r1.1, r2.1)

/-- The scratch regions of Cd `Forward`, as byte offsets of `buf0`, `buf1`:
`buf0 = Allocate<uint16_t>(buf, _sizeB[0]); SetGap(buf);`
`buf1 = Allocate<float>(buf, _sizeB[1]);` -/
def SynetMergedConvolution16bCd.Buffers (align : Nat) (s : SynetMergedConvolution16b) :
    Nat × Nat :=
  let r0 := Allocate align 2 0 s.sizeB0
  let g0 := SetGap align r0.2
  let r1 := Allocate align 4 g0 s.sizeB1
  (r0.1, r1.1)

/-- The scratch region of Dc `Forward`, as the byte offset of `buf2`:
`buf2 = Allocate<uint16_t>(buf, _sizeB[2]); SetGap(buf);` -/
def SynetMergedConvolution16bDc.Buffers (align : Nat) (s : SynetMergedConvolution16b) :
    Nat :=
  (Allocate align 2 0 s.sizeB2).1

/-- The chain `6 → 12 → 12 → 6` (1×1, depthwise 3×3 with pad 1, 1×1) on a 7×7 image. -/
def narrowDescriptor : MergConvParam :=
  { conv0 := stage 6 12 1 1 1 0 7 7 7, conv1 := stage 12 12 12 3 1 1 7 7 7,
    conv2 := stage 12 6 1 1 1 0 7 7 7, count := 3, add := false }

/-- The Cdc engine of `narrowDescriptor` after `SetSize(16, 2)` with a 1 MiB L2 and a
2 MiB L3. -/
def narrowCdc : SynetMergedConvolution16b :=
  SynetMergedConvolution16bCdc.SetSize 16 2 1048576 2097152
    (SynetMergedConvolution16b.create narrowDescriptor)

/-- The Cd engine of the first two stages of `narrowDescriptor` after `SetSize(16, 2)`
with a 1 MiB L2 and a 2 MiB L3. -/
def narrowCd : SynetMergedConvolution16b :=
  SynetMergedConvolution16bCd.SetSize 16 2 1048576 2097152
    (SynetMergedConvolution16b.create { narrowDescriptor with count := 2 })

/-- The Cdc engine of `bottleneckDescriptor` after `SetSize(8, 2)` with a 4 KiB L2 and a
1 MiB L3; its row window is 2 rows. -/
def bottleneckCdc : SynetMergedConvolution16b :=
  SynetMergedConvolution16bCdc.SetSize 8 2 4096 1048576
    (SynetMergedConvolution16b.create bottleneckDescriptor)

/-! ## Forward -/

/-- The tensor a pointer argument points into: the source tensor, the destination tensor
or the scratch buffer. -/
inductive Region where
  | src | dst | buf
  deriving DecidableEq

/-- A pointer argument: the tensor it points into and the byte offset from the pointer
that `Forward` received for that tensor. -/
structure Address where
  region : Region
  offset : Nat
  deriving DecidableEq

/-- The calls `Forward` makes. `input`, `depthwise` and `output` are the calls through
`_input`, `_depthwise` and `_output[index]`, with the pointer read (`rd`), the pointer
written (`wr`), the arguments `maC, yBeg, yEnd` and the element offsets added to the
weight, bias and parameter arrays (`clear` is the last argument, `zero`, of `_output`);
`memcpy (wr) (rd) (bytes)` is the residual copy. -/
inductive ForwardCall where
  | input (rd wr : Address) (maC yBeg yEnd weight bias params : Nat)
  | depthwise (rd wr : Address) (maC yBeg yEnd weight bias params : Nat)
  | output (index : Nat) (rd wr : Address) (maC yBeg yEnd weight clear : Nat)
  | memcpy (wr rd : Address) (bytes : Nat)
  deriving DecidableEq

/-- Whether a call is a call of the output (stage-2) primitive. -/
def ForwardCall.isOutput : ForwardCall → Bool
  | .output _ _ _ _ _ _ _ _ => true
  | _ => false

/-- Whether a call is the residual copy. -/
def ForwardCall.isMemcpy : ForwardCall → Bool
  | .memcpy _ _ _ => true
  | _ => false

/-- One round of the batch loop of `Forward`: the byte offsets of `src` and `dst` from
the pointers passed to `Forward` at the start of the round, and the calls of the round. -/
structure ForwardItem where
  src : Nat
  dst : Nat
  calls : List ForwardCall
  deriving DecidableEq

/-- The size `_sizeS` set by the constructor: `beg.srcH * beg.srcW * beg.srcC` with
`beg = p.conv[0]`. -/
def SynetMergedConvolution16b.sizeS (s : SynetMergedConvolution16b) : Nat :=
  (s.param.conv 0).srcH * (s.param.conv 0).srcW * (s.param.conv 0).srcC

/-- The size `_sizeD` set by the constructor: `end.dstH * end.dstW * end.dstC` with
`end = p.conv[p.count - 1]`. -/
def SynetMergedConvolution16b.sizeD (s : SynetMergedConvolution16b) : Nat :=
  (s.param.conv (s.param.count - 1)).dstH * (s.param.conv (s.param.count - 1)).dstW *
    (s.param.conv (s.param.count - 1)).dstC

/-- The calls of a sequence of loop rounds, one after the other; `none` when a round does
not terminate. -/
def SeqCalls : List (Option (List ForwardCall)) → Option (List ForwardCall)
  | [] => some []
  | r :: rest =>
    match r, SeqCalls rest with
    | some x, some y => some (x ++ y)
    | _, _ => none

/-- The batch loop of the `Forward` functions:
`for (b = 0; b < batch; ++b) { item; src += _sizeS; dst += _sizeD; }`. The first argument
counts the rounds left, `src` and `dst` are the current byte offsets of the two
`uint8_t` pointers. -/
def BatchLoop (item : Nat → Nat → Option (List ForwardCall)) (sizeS sizeD : Nat) :
    Nat → Nat → Nat → Option (List ForwardItem)
  | 0, _, _ => some []
  | n + 1, src, dst =>
    match item src dst, BatchLoop item sizeS sizeD n (src + sizeS) (dst + sizeD) with
    | some calls, some rest => some ({ src := src, dst := dst, calls := calls } :: rest)
    | _, _ => none

/-- The channel-tile loop of the tiled `Forward` functions:
`for (c = 0; c < C; c += a.maC) { maC = Min(C, c + a.maC) - c; tile }`. With `a.maC == 0`
and `C > 0` the loop does not terminate. -/
def ChannelLoop (C maC : Nat) (tile : Nat → Nat → Option (List ForwardCall)) :
    Option (List ForwardCall) :=
  if maC = 0 ∧ 0 < C then none
  else SeqCalls ((StepRange C maC).map fun c => tile c (min C (c + maC) - c))

/-- The row loop of Cdc and Cd `Forward`:
`for (yBeg2 = 0, yBeg1 = 0, yBeg0 = 0; yBeg2 < H;) { yEnd2 = RestrictRange(yBeg2 +`
`a.yStep[2], a.yStart[2], H); yEnd1 = ...; yEnd0 = ...; band; yBeg2 = yEnd2; ... }` with
`H = c1.dstH`, `srcH1 = c1.srcH`, `srcH0 = c0.srcH`. The first argument bounds the number
of rounds; `none` is returned when it is used up, which happens only when the loop does
not terminate (every round that advances `yBeg2` advances it by at least one row). -/
def RowLoop (a : AlgParam) (H srcH1 srcH0 : Nat)
    (band : Nat → Nat → Nat → Nat → Nat → Nat → List ForwardCall) :
    Nat → Nat → Nat → Nat → Option (List ForwardCall)
  | 0, yBeg2, _, _ => if yBeg2 < H then none else some []
  | fuel + 1, yBeg2, yBeg1, yBeg0 =>
    if yBeg2 < H then
      let yEnd2 := RestrictRange (yBeg2 + a.yStep2) a.yStart2 H
      let yEnd1 := RestrictRange (yBeg1 + a.yStep1) a.yStart1 srcH1
      let yEnd0 := RestrictRange (yBeg0 + a.yStep0) a.yStart0 srcH0
      (RowLoop a H srcH1 srcH0 band fuel yEnd2 yEnd1 yEnd0).map
        (fun rest => band yBeg2 yEnd2 yBeg1 yEnd1 yBeg0 yEnd0 ++ rest)
    else some []

/-- The row loop of Dc `Forward`:
`for (yBeg2 = 0, yBeg1 = 0, yBeg0 = 0; yBeg2 < c1.dstH;) { yEnd2 = RestrictRange(yBeg2 +`
`a.yStep[2], a.yStart[2], c0.dstH); yEnd1 = RestrictRange(yBeg1 + a.yStep[1],`
`a.yStart[1], c0.srcH); yBeg2 = yEnd2; yBeg1 = yEnd1; }`; its body makes no call. -/
def SynetMergedConvolution16bDc.RowLoop (a : AlgParam) (H dstH0 srcH0 : Nat) :
    Nat → Nat → Nat → Option (List ForwardCall)
  | 0, yBeg2, _ => if yBeg2 < H then none else some []
  | fuel + 1, yBeg2, yBeg1 =>
    if yBeg2 < H then
      let yEnd2 := RestrictRange (yBeg2 + a.yStep2) a.yStart2 dstH0
      let yEnd1 := RestrictRange (yBeg1 + a.yStep1) a.yStart1 srcH0
      SynetMergedConvolution16bDc.RowLoop a H dstH0 srcH0 fuel yEnd2 yEnd1
    else some []

/-- Source `SynetMergedConvolution16bCdc::Forward`, with `SIMD_ALIGN` as `align`. The
calls of `_convert` and of `_output[0]`, `_output[1]` are commented out in the source and
are not made. -/
def SynetMergedConvolution16bCdc.Forward (align : Nat) (s : SynetMergedConvolution16b) :
    Option (List ForwardItem) :=
  let p := s.param
  let c0 := p.conv 0
  let c1 := p.conv 1
  let a := s.alg
  let bufs := SynetMergedConvolution16bCdc.Buffers align s
  BatchLoop (fun src dst =>
    ChannelLoop c1.dstC a.maC fun c maC =>
      RowLoop a c1.dstH c1.srcH c0.srcH (fun yBeg2 yEnd2 yBeg1 yEnd1 _ _ =>
        [ ForwardCall.input ⟨Region.buf, bufs.1⟩ ⟨Region.buf, bufs.2.1⟩ maC yBeg1 yEnd1
            (c * a.dw0) c (c * a.dp0),
          ForwardCall.depthwise ⟨Region.buf, bufs.2.1⟩ ⟨Region.buf, bufs.2.2⟩ maC yBeg2 yEnd2
            (c * a.dw1) c (c * a.dp1) ] ++
        (if p.add = true ∧ c = 0 then
          let offset := yBeg1 * (p.conv 2).dstW * (p.conv 2).dstC
          let size := SizeSub yEnd1 yBeg1 * (p.conv 2).dstW * (p.conv 2).dstC
          [ ForwardCall.memcpy ⟨Region.dst, dst + offset⟩ ⟨Region.src, src + offset⟩
              (4 * size) ]
        else []))
        c1.dstH 0 0 0)
    s.sizeS s.sizeD c0.batch 0 0

/-- Source `SynetMergedConvolution16bCd::Forward`, with `SIMD_ALIGN` as `align`. The call
of `_convert` is commented out in the source and is not made. -/
def SynetMergedConvolution16bCd.Forward (align : Nat) (s : SynetMergedConvolution16b) :
    Option (List ForwardItem) :=
  let p := s.param
  let c0 := p.conv 0
  let c1 := p.conv 1
  let a := s.alg
  let bufs := SynetMergedConvolution16bCd.Buffers align s
  BatchLoop (fun _ dst =>
    ChannelLoop c1.dstC a.maC fun c maC =>
      RowLoop a c1.dstH c1.srcH c0.srcH (fun yBeg2 yEnd2 yBeg1 yEnd1 _ _ =>
        [ ForwardCall.input ⟨Region.buf, bufs.1⟩ ⟨Region.buf, bufs.2⟩ maC yBeg1 yEnd1
            (c * a.dw0) c (c * a.dp0),
          ForwardCall.depthwise ⟨Region.buf, bufs.2⟩ ⟨Region.dst, dst + c⟩ maC yBeg2 yEnd2
            (c * a.dw1) c (c * a.dp1) ])
        c1.dstH 0 0 0)
    s.sizeS s.sizeD c0.batch 0 0

/-- Source `SynetMergedConvolution16bDc::Forward`. The calls of `_depthwise` and of
`_output[0]`, `_output[1]` are commented out in the source: the loops run and no call is
made. -/
def SynetMergedConvolution16bDc.Forward (s : SynetMergedConvolution16b) :
    Option (List ForwardItem) :=
  let p := s.param
  let c0 := p.conv 0
  let c1 := p.conv 1
  let a := s.alg
  BatchLoop (fun _ _ =>
    ChannelLoop c0.dstC a.maC fun _ _ =>
      SynetMergedConvolution16bDc.RowLoop a c1.dstH c0.dstH c0.srcH c1.dstH 0 0)
    s.sizeS s.sizeD c0.batch 0 0

/-- Source `SynetMergedConvolution16b::Forward` (the untiled engine), with `SIMD_ALIGN` as
`align`: `buf0 = Allocate<float>(buf, _sizeB[0]); buf1 = Allocate<float>(buf, _sizeB[1]);`
and, per batch item, nothing when stage 0 is depthwise (`_dw0`, both calls are commented
out), else `_input`, then for three stages `_depthwise` into `buf1` and the residual copy
(the call of `_output[0]` is commented out), and for two stages `_depthwise` into `dst`. -/
def SynetMergedConvolution16b.Forward (align : Nat) (s : SynetMergedConvolution16b) :
    Option (List ForwardItem) :=
  let p := s.param
  let c0 := p.conv 0
  let c1 := p.conv 1
  let r0 := Allocate align 4 0 s.sizeB0
  let r1 := Allocate align 4 r0.2 s.sizeB1
  BatchLoop (fun src dst =>
    if c0.group ≠ 1 then some []
    else some (
      [ ForwardCall.input ⟨Region.src, src⟩ ⟨Region.buf, r0.1⟩ 0 0 c0.dstH 0 0 0 ] ++
      (if 2 < p.count then
        [ ForwardCall.depthwise ⟨Region.buf, r0.1⟩ ⟨Region.buf, r1.1⟩ 0 0 c1.dstH 0 0 0 ] ++
        (if p.add = true then
          [ ForwardCall.memcpy ⟨Region.dst, dst⟩ ⟨Region.src, src⟩ (4 * s.sizeS) ]
        else [])
      else
        [ ForwardCall.depthwise ⟨Region.buf, r0.1⟩ ⟨Region.dst, dst⟩ 0 0 c1.dstH 0 0 0 ])))
    s.sizeS s.sizeD c0.batch 0 0

/-- The bottleneck chain with a batch of two images. -/
def bottleneckBatchDescriptor : MergConvParam :=
  { bottleneckDescriptor with conv0 := { bottleneckDescriptor.conv0 with batch := 2 } }

/-- The Cdc engine of `bottleneckBatchDescriptor` after `SetSize(8, 2)` with a 4 KiB L2
and a 1 MiB L3. -/
def bottleneckBatchCdc : SynetMergedConvolution16b :=
  SynetMergedConvolution16bCdc.SetSize 8 2 4096 1048576
    (SynetMergedConvolution16b.create bottleneckBatchDescriptor)

/-- The Cd engine of the first two stages of `bottleneckBatchDescriptor` after
`SetSize(8, 2)` with a 4 KiB L2 and a 1 MiB L3. -/
def bottleneckBatchCd : SynetMergedConvolution16b :=
  SynetMergedConvolution16bCd.SetSize 8 2 4096 1048576
    (SynetMergedConvolution16b.create { bottleneckBatchDescriptor with count := 2 })

/-- The depthwise 3×3 / project chain `32 → 32 → 16` on an 8×8 image with a batch of two
images. -/
def depthwiseHeadDescriptor : MergConvParam :=
  { conv0 := { stage 32 32 32 3 1 1 8 8 8 with batch := 2 }, conv1 := stage 32 16 1 1 1 0 8 8 8,
    conv2 := stage 32 16 1 1 1 0 8 8 8, count := 2, add := false }

/-- The Dc engine of `depthwiseHeadDescriptor` after `SetSize(8, 2)` with a 4 KiB L2 and a
1 MiB L3. -/
def depthwiseHeadDc : SynetMergedConvolution16b :=
  SynetMergedConvolution16bDc.SetSize 8 2 4096 1048576
    (SynetMergedConvolution16b.create depthwiseHeadDescriptor)

/-! ## Bias and activation parameters -/

/-- The bit pattern of the float32 constant `FLT_MAX`. -/
def FLT_MAX : Nat := 0x7F7FFFFF

/-- The bit pattern of the float32 value `-FLT_MAX`. -/
def NegFLT_MAX : Nat := 0xFF7FFFFF

/-- The array `dst` after its first `n` elements have been overwritten with
`g 0, ..., g (n-1)`: the effect of `memcpy(dst, src, n * sizeof(float))` and of
`for (d = 0; d < n; ++d) dst[d] = g(d);`. -/
def Fill (dst : List Nat) (n : Nat) (g : Nat → Nat) : List Nat :=
  (List.range n).map g ++ dst.drop n

/-- Source `SynetMergedConvolution16b::SetBias`: the contents of `dst`. `src` is `none`
for a null pointer; `dst.Resize(size, true)` gives `size` zeros. -/
def SetBias (a : AlgParam) (src : Option (Nat → Nat)) (p : ConvParam) : List Nat :=
  let dst := List.replicate (AlignHiAny p.dstC (max 1 (a.miC * 2))) 0
  match src with
  | some f => Fill dst p.dstC f
  | none => dst

/-- Source `SynetMergedConvolution16b::SetParams(src, p, dst)`: the contents of `dst`. -/
def SetParams (a : AlgParam) (src : Nat → Nat) (p : ConvParam) : List Nat :=
  let dst :=
    if p.activation = SimdConvolutionActivationType.LeakyRelu ∨
        p.activation = SimdConvolutionActivationType.Prelu then
      List.replicate (AlignHiAny p.dstC (max 1 (a.miC * 2))) 0
    else List.replicate 2 0
  match p.activation with
  | .Identity => (dst.set 0 NegFLT_MAX).set 1 FLT_MAX
  | .Relu => (dst.set 0 0).set 1 FLT_MAX
  | .LeakyRelu => Fill dst p.dstC (fun _ => src 0)
  | .RestrictRange => (dst.set 0 (src 0)).set 1 (src 1)
  | .Prelu => Fill dst p.dstC src
  | .Elu => dst.set 0 (src 0)
  | .Hswish => (dst.set 0 (src 0)).set 1 (src 1)
  | .Mish => dst.set 0 (src 0)
  | .HardSigmoid => (dst.set 0 (src 0)).set 1 (src 1)
  | .Swish => dst.set 0 (src 0)
  | .Gelu => dst

/-! ## Conversion to bfloat16 and the NchwGemm predicate -/

/-- A float32 bit pattern is a NaN: the exponent field (bits 23 to 30) is all ones and the
fraction (bits 0 to 22) is not zero. -/
def IsNaN32 (bits : Nat) : Prop :=
  (bits / 8388608) % 256 = 255 ∧ bits % 8388608 ≠ 0

instance (bits : Nat) : Decidable (IsNaN32 bits) := by
  unfold IsNaN32
  infer_instance

/-- A bfloat16 bit pattern is a NaN: the exponent field (bits 7 to 14) is all ones and the
fraction (bits 0 to 6) is not zero. -/
def IsNaN16 (bits : Nat) : Prop :=
  (bits / 128) % 256 = 255 ∧ bits % 128 ≠ 0

instance (bits : Nat) : Decidable (IsNaN16 bits) := by
  unfold IsNaN16
  infer_instance

/-- Modelled from the spec: `Float32ToBFloat16` is declared in a header that is not among
the sources. The spec describes the packed value as the IEEE round-to-nearest-even
rounding of the float32 to its upper 16 bits, and says that NaN and Inf propagate per
IEEE 754. On bit patterns: `w` is the 32-bit pattern of the float (the lower 32 bits of
`bits`), `q` its upper and `r` its lower 16 bits. A NaN is converted to a quiet NaN of the
same sign with the leading fraction bits, `q` with the quiet bit (64) set. Every other
pattern is rounded to the nearer of `q` and `q + 1`, and to the even one of them when `r`
is exactly half (`0x8000`): a finite number beyond the largest bfloat16 becomes the
infinity of its sign, and an infinity stays itself. -/
def Float32ToBFloat16 (bits : Nat) : Nat :=
  let w := bits % 4294967296
  let q := w / 65536
  let r := w % 65536
  if IsNaN32 w then
    if (q / 64) % 2 = 1 then q else q + 64
  else if r < 32768 then q
  else if 32768 < r then q + 1
  else if q % 2 = 0 then q else q + 1

/-- The number `q` is the round-to-nearest-even quotient of `bits` by `2^16`: the multiple
`q * 2^16` is at distance at most `2^15` from `bits`, and when `bits` is exactly halfway
between two multiples `q` is the even one. -/
def RoundsNearestEven (bits q : Nat) : Prop :=
  65536 * q ≤ bits + 32768 ∧ bits ≤ 65536 * q + 32768 ∧
    ((bits + 32768 = 65536 * q ∨ bits = 65536 * q + 32768) → q % 2 = 0)

instance (bits q : Nat) : Decidable (RoundsNearestEven bits q) := by
  unfold RoundsNearestEven
  infer_instance

/-- The 16-bit pattern `x` is the IEEE round-to-nearest-even rounding of the float32 with
the 32-bit pattern `w` to bfloat16, in the words of the spec: `x` is a 16-bit pattern;
when `w` is a number or an infinity, `x` is the round-to-nearest-even rounding of `w` to
its upper 16 bits and is not a NaN; when `w` is a NaN, so is `x`. -/
def RoundsToBFloat16 (w x : Nat) : Prop :=
  x < 65536 ∧ (¬ IsNaN32 w → RoundsNearestEven w x ∧ ¬ IsNaN16 x) ∧ (IsNaN32 w → IsNaN16 x)

instance (w x : Nat) : Decidable (RoundsToBFloat16 w x) := by
  unfold RoundsToBFloat16
  infer_instance

/-- Source `SynetConvolution16bNchwGemm::Preferable`:
`return p.trans == 0 && p.group == 1;` -/
def SynetConvolution16bNchwGemm.Preferable (p : ConvParam) : Bool :=
  p.trans == 0 && p.group == 1

/-- A float32 array of period 8 with the patterns of a tie above an even bfloat16
(`0x3F808000`), a tie above an odd one (`0x3F818000`), a number just above a bfloat16
(`0x3F800001`), the largest finite float (`0x7F7FFFFF`), minus infinity (`0xFF800000`), a
signalling NaN whose fraction lies in the lower half only (`0x7F800001`), the NaN with
all bits set (`0xFFFFFFFF`) and minus zero (`0x80000000`). -/
def edgeWeights (j : Nat) : Nat :=
  match j % 8 with
  | 0 => 0x3F808000
  | 1 => 0x3F818000
  | 2 => 0x3F800001
  | 3 => 0x7F7FFFFF
  | 4 => 0xFF800000
  | 5 => 0x7F800001
  | 6 => 0xFFFFFFFF
  | _ => 0x80000000

/-- The chain `3 → 21 → 21 → 5` (1×1, depthwise 3×3 with pad 1, 1×1) on an 8×8 image: no
channel count is a multiple of a tile width. -/
def raggedDescriptor : MergConvParam :=
  { conv0 := stage 3 21 1 1 1 0 8 8 8, conv1 := stage 21 21 21 3 1 1 8 8 8,
    conv2 := stage 21 5 1 1 1 0 8 8 8, count := 3, add := false }

/-- The tiling parameters computed by Cdc `SetSize` for `raggedDescriptor` with `miC = 8`,
`miK = 2`, a 4 KiB L2 and a 1 MiB L3; `maC` is 16. -/
def raggedAlg : AlgParam :=
  (SynetMergedConvolution16bCdc.SetSize 8 2 4096 1048576
    (SynetMergedConvolution16b.create raggedDescriptor)).alg

/-! ## Loop traces of Forward -/

/-- The loop variables of one round of the row loop of Cdc and Cd `Forward`: the row
ranges `[yBeg2, yEnd2)`, `[yBeg1, yEnd1)` and `[yBeg0, yEnd0)` of the round. -/
structure RowBand where
  yBeg2 : Nat
  yEnd2 : Nat
  yBeg1 : Nat
  yEnd1 : Nat
  yBeg0 : Nat
  yEnd0 : Nat
  deriving DecidableEq

/-- The rounds of the row loop of Cdc and Cd `Forward`: the loop of `RowLoop` with the
loop variables of each round recorded in place of the calls of its body
(`RowLoop_eq_bands`). The first argument bounds the number of rounds as in `RowLoop`. -/
def RowBands (a : AlgParam) (H srcH1 srcH0 : Nat) :
    Nat → Nat → Nat → Nat → Option (List RowBand)
  | 0, yBeg2, _, _ => if yBeg2 < H then none else some []
  | fuel + 1, yBeg2, yBeg1, yBeg0 =>
    if yBeg2 < H then
      let yEnd2 := RestrictRange (yBeg2 + a.yStep2) a.yStart2 H
      let yEnd1 := RestrictRange (yBeg1 + a.yStep1) a.yStart1 srcH1
      let yEnd0 := RestrictRange (yBeg0 + a.yStep0) a.yStart0 srcH0
      (RowBands a H srcH1 srcH0 fuel yEnd2 yEnd1 yEnd0).map
        (fun rest => { yBeg2 := yBeg2, yEnd2 := yEnd2, yBeg1 := yBeg1, yEnd1 := yEnd1,
                       yBeg0 := yBeg0, yEnd0 := yEnd0 } :: rest)
    else some []

/-- The rounds of the channel-tile loop of the tiled `Forward` functions,
`for (c = 0; c < C; c += a.maC) { maC = Min(C, c + a.maC) - c; ... }` with `a.maC > 0`:
the pairs `(c, maC)` of the tile start and the tile width, in the order of the rounds. -/
def ChannelTiles (C maC : Nat) : List (Nat × Nat) :=
  (StepRange C maC).map fun c => (c, min C (c + maC) - c)

/-- The relations among the row-window fields that the body of the row loop of Cdc and Cd
`SetSize` establishes for its loop variable `yStep >= 1` (stored as `yStep[2]`), with
`c0 = conv[0]` and `c1 = conv[1]`. -/
def RowWindow (a : AlgParam) (c0 c1 : ConvParam) : Prop :=
  1 ≤ a.yStep2 ∧ a.yStep2 ≤ c1.dstH ∧ a.yStart2 = a.yStep2 ∧
  a.yStep1 = a.yStep2 * c1.strideY ∧
  a.yStart1 = min (SizeSub ((a.yStart2 - 1) * c1.strideY + c1.kernelY) c1.padY) c1.srcH ∧
  a.bufH1 = Pow2Hi (max ((a.yStep2 - 1) * c1.strideY + c1.kernelY) a.yStart1) ∧
  a.yStep0 = a.yStep1 ∧ a.yStart0 = min a.yStart1 c0.srcH

instance (a : AlgParam) (c0 c1 : ConvParam) : Decidable (RowWindow a c0 c1) := by
  unfold RowWindow
  infer_instance

/-- The chain `16 → 32 → 32 → 16` whose middle stage is a depthwise 1×1 convolution of
stride 2 without padding, on an image of 2 rows of 8 pixels: the depthwise stage has one
output row of 4 pixels. -/
def subsampleDescriptor : MergConvParam :=
  { conv0 := stage 16 32 1 1 1 0 2 2 8,
    conv1 := { stage 32 32 32 1 2 0 2 1 8 with dstW := 4 },
    conv2 := stage 32 16 1 1 1 0 1 1 4, count := 3, add := false }

/-! ## NchwGemm schedule and the factory -/

/-- Modelled from the spec: `AlignLo` is declared in a header that is not among the
sources; it is the rounding down that pairs with `AlignHi`, to a multiple of a
power-of-two alignment, done by the library with the bit mask `size & ~(align - 1)`:
the bits of `align - 1` are cleared in `size`. For `align == 0` the mask is zero and so
is the result. -/
def AlignLo (size align : Nat) : Nat :=
  if align = 0 then 0 else size - (size &&& (align - 1))

/-- Modelled from the spec: `AlignLoAny` is declared in a header that is not among the
sources; it is the rounding down that pairs with `AlignHiAny`, to a multiple of an
arbitrary alignment, `size / align * align`. -/
def AlignLoAny (size align : Nat) : Nat :=
  size / align * align

/-- The fields of `SynetConvolution16bNchwGemm::AlgParam` that `SetAlgParam` writes. -/
structure SynetConvolution16bNchwGemm.AlgParam where
  N : Nat
  K : Nat
  F : Nat
  microD : Nat
  microN : Nat
  microK : Nat
  bufD : Nat
  bufK : Nat
  macroK : Nat
  macroH : Nat
  macroD : Nat
  bufN : Nat
  elem : Nat
  reorderType : Nat
  sumBuf : Nat
  deriving DecidableEq

/-- The part of the NchwGemm engine object that `SetAlgParam` reads and writes: `_param`,
the flags and element sizes set by the base-class constructor (`_dst16b`, `_elemS`,
`_elemD`), `_alg`, `_stepS` and `_stepD`. -/
structure SynetConvolution16bNchwGemm where
  param : ConvParam
  dst16b : Bool
  elemS : Nat
  elemD : Nat
  alg : SynetConvolution16bNchwGemm.AlgParam
  stepS : Nat
  stepD : Nat
  deriving DecidableEq

/-- Source `SynetConvolution16bNchwGemm::SetAlgParam(F, microD, microN, microK, L1, L2,
L3)`. The quotients are those of unsigned division; the source divides by `microD`,
`macroK` and `p.dstW`, which are positive for the arguments the engine is set up with. -/
def SynetConvolution16bNchwGemm.SetAlgParam (F microD microN microK L1 L2 L3 : Nat)
    (s : SynetConvolution16bNchwGemm) : SynetConvolution16bNchwGemm :=
  let p := s.param
  let K := p.srcC * p.kernelY * p.kernelX
  let bufD := AlignHiAny p.dstC microD
  let bufK := AlignHi K microK
  let macroK := RestrictRange (AlignLo (L1 / microD / 2) microK) microK bufK
  let macroH := RestrictRange (L2 / macroK / p.dstW / 2) 1 p.dstH
  let macroD := RestrictRange (AlignLoAny (L3 / macroK / 2) microD) microD bufD
  let sumBuf := if (s.dst16b && decide (macroK < K)) || decide (2 < microK) then 1 else 0
  { s with
    alg := { N := p.dstW * p.dstH, K := K, F := F, microD := microD, microN := microN,
             microK := microK, bufD := bufD, bufK := bufK, macroK := macroK,
             macroH := macroH,
             macroD := if sumBuf = 0 ∧ p.dstC < macroD then p.dstC else macroD,
             bufN := p.dstH * AlignHi p.dstW F, elem := s.elemD, reorderType := 0,
             sumBuf := sumBuf }
    stepS := p.srcH * p.srcW * p.srcC * s.elemS
    stepD := p.dstH * p.dstW * p.dstC * s.elemD }

/-- An NchwGemm engine as the constructor leaves it for the descriptor `p` with float32
source and destination tensors: `_alg` is not yet set. -/
def SynetConvolution16bNchwGemm.create (p : ConvParam) : SynetConvolution16bNchwGemm :=
  { param := p, dst16b := false, elemS := 4, elemD := 4,
    alg := { N := 0, K := 0, F := 0, microD := 0, microN := 0, microK := 0, bufD := 0,
             bufK := 0, macroK := 0, macroH := 0, macroD := 0, bufN := 0, elem := 0,
             reorderType := 0, sumBuf := 0 }
    stepS := 0, stepD := 0 }

/-- Source `Base::SynetMergedConvolution16bInit(batch, convs, count, compatibility)`:
`MergConvParam param(batch, convs, count, SimdFalse, compatibility);`
`if (!param.Valid(SimdTensorData32f, SimdTensorData16b)) return NULL; return NULL;`
The constructor of `MergConvParam` (`ctor`) and `MergConvParam::Valid` (`Valid`) are
declared in a header that is not among the sources and are arguments here; the result is
the engine handed back, `none` for the null pointer. -/
def SynetMergedConvolution16bInit
    (ctor : Nat → List ConvParam → Nat → Bool → Nat → MergConvParam)
    (Valid : MergConvParam → Bool) (batch : Nat) (convs : List ConvParam) (count : Nat)
    (compatibility : Nat) : Option SynetMergedConvolution16b :=
  let param := ctor batch convs count false compatibility
  if !Valid param then none else none

/-- A dense 3×3 convolution `64 → 128` with stride 1 and pad 1 on a 16×16 image. -/
def gemmDescriptor : ConvParam :=
  stage 64 128 1 3 1 1 16 16 16

/-- The NchwGemm engine of `gemmDescriptor` after `SetAlgParam(16, 32, 12, 4, 32 KiB,
256 KiB, 2 MiB)`. -/
def gemmSchedule : SynetConvolution16bNchwGemm :=
  SynetConvolution16bNchwGemm.SetAlgParam 16 32 12 (2 ^ 2) 32768 262144 2097152
    (SynetConvolution16bNchwGemm.create gemmDescriptor)

/-! ## Effect of Forward on the destination, NchwGemm Forward and SetWeight -/

/-- The destination tensor after the calls recorded for a `Forward` function, starting
from the contents `dst`. The `Forward` functions contain no store of their own: every
write to `dst` is made by one of the calls, and `exec call` is the effect of a call on the
contents of the destination. -/
def DstAfter {μ : Type} (exec : ForwardCall → μ → μ) (items : List ForwardItem) (dst : μ) : μ :=
  items.foldl (fun m item => item.calls.foldl (fun m call => exec call m) m) dst

/-- Source `SynetConvolution16bNchwGemm::Forward(src, buf, sum, dst)`, the overload with
four arguments that handles one batch item: its loops and its calls of `_convert` and
`_convolutions` are commented out, only declarations of locals are left, and it makes no
call. -/
def SynetConvolution16bNchwGemm.ForwardStep (_src _buf _sum _dst : Address) :
    List ForwardCall :=
  []

/-- Source `SynetConvolution16bNchwGemm::Forward(src, buf8, dst)`, with `SIMD_ALIGN` as
`align` and `convert` telling whether the function pointer `_convert` is set (the Base
constructor sets it to 0):
`bufB = _convert ? Allocate<uint16_t>(buf8, a.bufN * a.bufK) : NULL;`
`bufS = a.sumBuf ? Allocate<float>(buf8, a.macroD * a.bufN) : NULL;` and per batch item
`buf = _convert ? bufB : src; sum = a.sumBuf ? bufS : dst; Forward(src, buf, sum, dst);`
`src += _stepS; dst += _stepD;`. -/
def SynetConvolution16bNchwGemm.Forward (align : Nat) (convert : Bool)
    (s : SynetConvolution16bNchwGemm) : Option (List ForwardItem) :=
  let a := s.alg
  let rB := if convert then Allocate align 2 0 (a.bufN * a.bufK) else (0, 0)
  let rS := if a.sumBuf ≠ 0 then Allocate align 4 rB.2 (a.macroD * a.bufN) else (0, rB.2)
  BatchLoop (fun src dst =>
    let buf : Address := if convert then ⟨Region.buf, rB.1⟩ else ⟨Region.src, src⟩
    let sum : Address := if a.sumBuf ≠ 0 then ⟨Region.buf, rS.1⟩ else ⟨Region.dst, dst⟩
    some (SynetConvolution16bNchwGemm.ForwardStep ⟨Region.src, src⟩ buf sum
      ⟨Region.dst, dst⟩))
    s.stepS s.stepD s.param.batch 0 0

/-- Source `SynetConvolution16bNchwGemm::SetWeight(weight)`: the contents of the packed
buffer `_weight` after the call, for its contents `packed` before the call. The `Resize`
of the buffer and the packing loops are commented out; the body only binds `_param` and
`_alg` to references. -/
def SynetConvolution16bNchwGemm.SetWeight (_s : SynetConvolution16bNchwGemm)
    (_weight : Nat → Nat) (packed : List Nat) : List Nat :=
  packed

/-- The NchwGemm engine of `gemmDescriptor` with a batch of two images, after
`SetAlgParam(16, 32, 12, 4, 32 KiB, 256 KiB, 2 MiB)`. -/
def gemmBatchSchedule : SynetConvolution16bNchwGemm :=
  SynetConvolution16bNchwGemm.SetAlgParam 16 32 12 (2 ^ 2) 32768 262144 2097152
    (SynetConvolution16bNchwGemm.create { gemmDescriptor with batch := 2 })

/-! ## Reference convolutions: the padding test -/

/-- The difference `a - b` of two `size_t` values, computed modulo `2^64`. -/
def WrapSub (a b : Nat) : Nat :=
  (a % 2 ^ 64 + (2 ^ 64 - b % 2 ^ 64)) % 2 ^ 64

/-- One read of the source tensor by a reference convolution: the output position
`(dy, dx)`, the kernel tap `(ky, kx)`, the channel `c`, the source position `(sy, sx)`
computed for the tap and the index of the element of `src` that is read. -/
structure SrcRead where
  dy : Nat
  dx : Nat
  ky : Nat
  kx : Nat
  c : Nat
  sy : Nat
  sx : Nat
  index : Nat
  deriving DecidableEq

/-- Source `DirectBf16`: the reads of `src` made by its loop nest, in order. For the
output position `(dy, dx)` and the tap `(ky, kx)`, `sy = dy * strideY + ky - padY` and
`sx = dx * strideX + kx - padX` are computed in `size_t`; the tap is accumulated inside
`if (sy < p.srcH)` and `if (sx < p.srcW)`, where `ps = src + (sy * srcW + sx) * srcC` and
`ps[sc]` is read for every source channel `sc`. -/
def DirectBf16 (p : ConvParam) : List SrcRead :=
  (List.range p.dstH).flatMap fun dy =>
    (List.range p.dstW).flatMap fun dx =>
      (List.range p.kernelY).flatMap fun ky =>
        if WrapSub (dy * p.strideY + ky) p.padY < p.srcH then
          (List.range p.kernelX).flatMap fun kx =>
            if WrapSub (dx * p.strideX + kx) p.padX < p.srcW then
              (List.range p.srcC).map fun sc =>
                { dy := dy, dx := dx, ky := ky, kx := kx, c := sc,
                  sy := WrapSub (dy * p.strideY + ky) p.padY,
                  sx := WrapSub (dx * p.strideX + kx) p.padX,
                  index := (WrapSub (dy * p.strideY + ky) p.padY * p.srcW +
                    WrapSub (dx * p.strideX + kx) p.padX) * p.srcC + sc }
            else []
        else []

/-- Source `DepthwiseBf16`: the reads of `src` made by its loop nest, in order. The
channel loop is outside the kernel loops; for an accumulated tap
`ps = src + (sy * srcW + sx) * srcC + c` and `ps[0]` is read. -/
def DepthwiseBf16 (p : ConvParam) : List SrcRead :=
  (List.range p.dstH).flatMap fun dy =>
    (List.range p.dstW).flatMap fun dx =>
      (List.range p.srcC).flatMap fun c =>
        (List.range p.kernelY).flatMap fun ky =>
          if WrapSub (dy * p.strideY + ky) p.padY < p.srcH then
            (List.range p.kernelX).flatMap fun kx =>
              if WrapSub (dx * p.strideX + kx) p.padX < p.srcW then
                [{ dy := dy, dx := dx, ky := ky, kx := kx, c := c,
                   sy := WrapSub (dy * p.strideY + ky) p.padY,
                   sx := WrapSub (dx * p.strideX + kx) p.padX,
                   index := (WrapSub (dy * p.strideY + ky) p.padY * p.srcW +
                     WrapSub (dx * p.strideX + kx) p.padX) * p.srcC + c }]
              else []
          else []

/-- Whether the tap `(dy, dx, ky, kx)` of channel `c` is among the reads. -/
def SrcRead.isTap (e : SrcRead) (dy dx ky kx c : Nat) : Prop :=
  e.dy = dy ∧ e.dx = dx ∧ e.ky = ky ∧ e.kx = kx ∧ e.c = c

instance (e : SrcRead) (dy dx ky kx c : Nat) : Decidable (e.isTap dy dx ky kx c) := by
  unfold SrcRead.isTap
  infer_instance

/-- A dense 3×3 convolution `2 → 2` with stride 1 and pad 1 on a 3×3 image. -/
def paddedDescriptor : ConvParam :=
  stage 2 2 1 3 1 1 3 3 3

/-! ## Weight packers: sizes and reads -/

/-- The size passed to `_weightI.Resize` by `SetInputWeight`: `C * D * F` in tiled mode
and `kernelY * kernelX * srcC * dstC` otherwise. -/
def InputWeightSize (a : AlgParam) (p : ConvParam) : Nat :=
  if a.miC ≠ 0 then AlignHi p.srcC a.miK * DivHi p.dstC (a.miC * 2) * (a.miC * 2)
  else p.kernelY * p.kernelX * p.srcC * p.dstC

/-- The size passed to `_weightO.Resize` by `SetOutputWeight`: `C * D * F * 2` with
`C = DivHi(AlignHi(srcC, miK), 2)` in tiled mode and `kernelY * kernelX * srcC * dstC`
otherwise. -/
def OutputWeightSize (a : AlgParam) (p : ConvParam) : Nat :=
  if a.miC ≠ 0 then
    DivHi (AlignHi p.srcC a.miK) 2 * DivHi p.dstC (a.miC * 2) * (a.miC * 2) * 2
  else p.kernelY * p.kernelX * p.srcC * p.dstC

/-- Source `SynetMergedConvolution16b::SetInputWeight`: for every cell written to
`_weightI`, in write order, the index of the element of `src` that is read for it
(`ps[i * p.dstC]`), or `none` when the cell is set to 0 without a read. -/
def SetInputWeightReads (a : AlgParam) (p : ConvParam) : List (Option Nat) :=
  if a.miC ≠ 0 then
    let F := a.miC * 2
    let C := AlignHi p.srcC a.miK
    let D := DivHi p.dstC F
    (List.range D).flatMap fun d =>
      (StepRange C 2).flatMap fun c =>
        (List.range F).flatMap fun f =>
          (List.range 2).map fun i =>
            if d * F + f < p.dstC ∧ c + i < p.srcC then
              some (PsOffset (c * p.dstC + d * F) (decide (c < p.srcC)) f + i * p.dstC)
            else none
  else
    (List.range (p.kernelY * p.kernelX * p.srcC * p.dstC)).map fun j => some j

/-- Source `SynetMergedConvolution16b::SetOutputWeight`: for every cell written to
`_weightO`, in write order, the index of the element of `src` that is read for it, or
`none` when the cell is set to 0 without a read. -/
def SetOutputWeightReads (a : AlgParam) (p : ConvParam) : List (Option Nat) :=
  if a.miC ≠ 0 then
    let F := a.miC * 2
    let C := DivHi (AlignHi p.srcC a.miK) 2
    let D := DivHi p.dstC F
    let M := DivHi a.maC 2
    (StepRange C M).flatMap fun cB =>
      let cE := min C (cB + M)
      (List.range D).flatMap fun d =>
        (List.range' cB (cE - cB)).flatMap fun c =>
          (List.range F).flatMap fun f =>
            (List.range 2).map fun i =>
              if d * F + f < p.dstC ∧ c * 2 + i < p.srcC then
                some (PsOffset (c * 2 * p.dstC + d * F) (decide (c * 2 < p.srcC)) f +
                  i * p.dstC)
              else none
  else
    (List.range (p.kernelY * p.kernelX * p.srcC * p.dstC)).map fun j => some j

/-- The value written to a packed cell: the converted element of `src` that was read for
it, or 0. -/
def PackedValue (cvt : Nat → Nat) (src : Nat → Nat) : Option Nat → Nat
  | some j => cvt (src j)
  | none => 0

/-! ## Topology predicates: theorems -/

/-- C1 (as amended): for every descriptor `p` and every 1×1 test,
`SynetMergedConvolution16bCdc::Preferable(p)` is true exactly when `p.count == 3` and
`Is1x1(p.conv[0])`; the group of stage 0 is not examined. -/
theorem cdc_preferable_iff (is1x1 : ConvParam → Bool) (p : MergConvParam) :
    SynetMergedConvolution16bCdc.Preferable is1x1 p = true ↔
      p.count = 3 ∧ is1x1 (p.conv 0) = true := by
  simp [SynetMergedConvolution16bCdc.Preferable]

/-- C1 (counterexample): the descriptor `groupedHeadDescriptor` has `count == 3` and a
1×1 stage 0 with `group == 2`; Cdc `Preferable` accepts it although stage 0 is not
dense, so the characterisation with `group == 1` fails. -/
theorem cdc_preferable_ignores_group :
    ¬ (SynetMergedConvolution16bCdc.Preferable Is1x1 groupedHeadDescriptor = true ↔
        groupedHeadDescriptor.count = 3 ∧
          Is1x1 (groupedHeadDescriptor.conv 0) = true ∧
          (groupedHeadDescriptor.conv 0).group = 1) := by
  decide

/-- C2 (as amended): Cdc is exclusive with Cd and with Dc on every descriptor, and Cd
and Dc are both true exactly on the descriptors with `count == 2`, a 1×1 stage 0 with
`group == 1` and `conv[1].group == 1`; on every other descriptor they are exclusive. -/
theorem preferable_overlap (is1x1 : ConvParam → Bool) (p : MergConvParam) :
    ¬ (SynetMergedConvolution16bCdc.Preferable is1x1 p = true ∧
        SynetMergedConvolution16bCd.Preferable is1x1 p = true) ∧
    ¬ (SynetMergedConvolution16bCdc.Preferable is1x1 p = true ∧
        SynetMergedConvolution16bDc.Preferable p = true) ∧
    ((SynetMergedConvolution16bCd.Preferable is1x1 p = true ∧
        SynetMergedConvolution16bDc.Preferable p = true) ↔
      (p.count = 2 ∧ (p.conv 0).group = 1 ∧ is1x1 (p.conv 0) = true ∧
        (p.conv 1).group = 1)) := by
  simp only [SynetMergedConvolution16bCdc.Preferable, SynetMergedConvolution16bCd.Preferable,
    SynetMergedConvolution16bDc.Preferable, Bool.and_eq_true, beq_iff_eq]
  refine ⟨?_, ?_, ?_⟩
  · rintro ⟨⟨h3, _⟩, ⟨⟨h2, _⟩, _⟩⟩
    omega
  · rintro ⟨⟨h3, _⟩, ⟨h2, _⟩⟩
    omega
  · constructor
    · rintro ⟨⟨⟨h2, hg⟩, h1⟩, ⟨_, hg1⟩⟩
      exact ⟨h2, hg, h1, hg1⟩
    · rintro ⟨h2, hg, h1, hg1⟩
      exact ⟨⟨⟨h2, hg⟩, h1⟩, ⟨h2, hg1⟩⟩

/-- C2 (counterexample): on `densePairDescriptor` (`count == 2`, both stages 1×1 with
`group == 1`) the Cd and the Dc predicate are both true. -/
theorem cd_dc_both_preferable :
    SynetMergedConvolution16bCd.Preferable Is1x1 densePairDescriptor = true ∧
      SynetMergedConvolution16bDc.Preferable densePairDescriptor = true := by
  decide

/-! ## Arithmetic helpers: lemmas -/

theorem AlignHi_pow2 (n k : Nat) :
    AlignHi n (2 ^ k) = (n + 2 ^ k - 1) / 2 ^ k * 2 ^ k := by
  have hpos : 0 < 2 ^ k := Nat.two_pow_pos _
  unfold AlignHi
  rw [if_neg (by omega), Nat.and_pow_two_sub_one_eq_mod]
  have h := Nat.div_add_mod (n + 2 ^ k - 1) (2 ^ k)
  rw [Nat.mul_comm] at h
  omega

theorem AlignHi_pow2_dvd (n k : Nat) : 2 ^ k ∣ AlignHi n (2 ^ k) := by
  rw [AlignHi_pow2]
  exact Nat.dvd_mul_left _ _

theorem roundUp_of_dvd {m y : Nat} (hm : 0 < m) (h : m ∣ y) : (y + m - 1) / m * m = y := by
  obtain ⟨q, rfl⟩ := h
  have h1 : m * q + m - 1 = (m - 1) + m * q := by omega
  rw [h1, Nat.add_mul_div_left _ _ hm, Nat.div_eq_of_lt (by omega), Nat.zero_add,
    Nat.mul_comm]

/-- Aligning twice, to `2 ^ j` and then to `2 ^ k`, gives a common multiple. -/
theorem AlignHi_AlignHi_pow2_dvd (n j k : Nat) :
    2 ^ j ∣ AlignHi (AlignHi n (2 ^ j)) (2 ^ k) ∧ 2 ^ k ∣ AlignHi (AlignHi n (2 ^ j)) (2 ^ k) := by
  refine ⟨?_, AlignHi_pow2_dvd _ _⟩
  rcases Nat.le_total k j with hkj | hjk
  · have hdvd : 2 ^ k ∣ AlignHi n (2 ^ j) :=
      Nat.dvd_trans (Nat.pow_dvd_pow 2 hkj) (AlignHi_pow2_dvd n j)
    rw [AlignHi_pow2 (AlignHi n (2 ^ j)) k, roundUp_of_dvd (Nat.two_pow_pos _) hdvd]
    exact AlignHi_pow2_dvd n j
  · exact Nat.dvd_trans (Nat.pow_dvd_pow 2 hjk) (AlignHi_pow2_dvd _ k)

theorem Pow2HiLoop_ge (fuel : Nat) :
    ∀ pow2 value, value ≤ pow2 * 2 ^ fuel → value ≤ Pow2HiLoop fuel pow2 value := by
  induction fuel with
  | zero => intro pow2 value h; simpa [Pow2HiLoop] using h
  | succ fuel ih =>
    intro pow2 value h
    unfold Pow2HiLoop
    split
    · apply ih
      rw [Nat.pow_succ] at h
      calc value ≤ pow2 * (2 ^ fuel * 2) := h
        _ = pow2 * 2 * 2 ^ fuel := by ring
    · omega

/-- The doubling loop of `Pow2Hi` stops by its own condition: the result is not below
`value`. -/
theorem Pow2Hi_ge (value : Nat) : value ≤ Pow2Hi value := by
  apply Pow2HiLoop_ge
  have := Nat.lt_two_pow value
  omega

/-! ## The row-window search: lemmas -/

/-- The search loop returns the row state of the largest fitting step, or of step 1 when
no step fits. `row` overwrites what an earlier `row` wrote. -/
theorem RowSearch_spec {σ : Type} (row : σ → Nat → σ) (fits : σ → Bool)
    (hrow : ∀ s a b, row (row s a) b = row s b) :
    ∀ n s, 1 ≤ n → ∃ y, 1 ≤ y ∧ y ≤ n ∧ RowSearch row fits n s = row s y ∧
      ((fits (row s y) = true ∧ ∀ y', y < y' → y' ≤ n → fits (row s y') = false) ∨
       (y = 1 ∧ ∀ y', 1 ≤ y' → y' ≤ n → fits (row s y') = false)) := by
  intro n
  induction n with
  | zero => intro s h; omega
  | succ n ih =>
    intro s _
    unfold RowSearch
    by_cases hfit : fits (row s (n + 1)) = true
    · rw [if_pos hfit]
      exact ⟨n + 1, by omega, by omega, rfl, Or.inl ⟨hfit, fun y' h1 h2 => by omega⟩⟩
    · rw [if_neg hfit]
      have hfit' : fits (row s (n + 1)) = false := by simpa using hfit
      rcases Nat.eq_zero_or_pos n with hn | hn
      · subst hn
        refine ⟨1, by omega, by omega, rfl, Or.inr ⟨rfl, fun y' h1 h2 => ?_⟩⟩
        have : y' = 1 := by omega
        subst this
        exact hfit'
      · obtain ⟨y, hy1, hyn, heq, hsp⟩ := ih (row s (n + 1)) hn
        refine ⟨y, hy1, by omega, by rw [heq, hrow], ?_⟩
        have hstep : ∀ y', y' ≤ n + 1 →
            (y' ≤ n → fits (row s y') = false) → fits (row s y') = false := by
          intro y' hle h
          rcases Nat.lt_or_ge n y' with hlt | hge
          · have : y' = n + 1 := by omega
            subst this
            exact hfit'
          · exact h hge
        rcases hsp with ⟨hf, hall⟩ | ⟨h1, hall⟩
        · left
          refine ⟨by simpa [hrow] using hf, fun y' hlt hle => ?_⟩
          exact hstep y' hle (fun h => by simpa [hrow] using hall y' hlt h)
        · right
          refine ⟨h1, fun y' hge hle => ?_⟩
          exact hstep y' hle (fun h => by simpa [hrow] using hall y' hge h)

theorem Cdc_SetSizeRow_idem (s : SynetMergedConvolution16b) (a b : Nat) :
    SynetMergedConvolution16bCdc.SetSizeRow (SynetMergedConvolution16bCdc.SetSizeRow s a) b =
      SynetMergedConvolution16bCdc.SetSizeRow s b := rfl

theorem Cd_SetSizeRow_idem (s : SynetMergedConvolution16b) (a b : Nat) :
    SynetMergedConvolution16bCd.SetSizeRow (SynetMergedConvolution16bCd.SetSizeRow s a) b =
      SynetMergedConvolution16bCd.SetSizeRow s b := rfl

theorem Dc_SetSizeRow_idem (s : SynetMergedConvolution16b) (a b : Nat) :
    SynetMergedConvolution16bDc.SetSizeRow (SynetMergedConvolution16bDc.SetSizeRow s a) b =
      SynetMergedConvolution16bDc.SetSizeRow s b := rfl

/-- The search loop either leaves the state alone (no iteration) or returns a row state. -/
theorem RowSearch_cases {σ : Type} (row : σ → Nat → σ) (fits : σ → Bool)
    (hrow : ∀ s a b, row (row s a) b = row s b) :
    ∀ n s, RowSearch row fits n s = s ∨ ∃ y, RowSearch row fits n s = row s y := by
  intro n
  induction n with
  | zero => intro s; exact Or.inl rfl
  | succ n ih =>
    intro s
    unfold RowSearch
    split
    · exact Or.inr ⟨n + 1, rfl⟩
    · rcases ih (row s (n + 1)) with h | ⟨y, h⟩
      · exact Or.inr ⟨n + 1, h⟩
      · exact Or.inr ⟨y, by rw [h, hrow]⟩

theorem Cdc_SetSize_maC (miC miK L2 L3 : Nat) (s : SynetMergedConvolution16b) :
    (SynetMergedConvolution16bCdc.SetSize miC miK L2 L3 s).alg.maC =
      (SynetMergedConvolution16bCdc.SetSizeHead miC miK L3 s).alg.maC := by
  unfold SynetMergedConvolution16bCdc.SetSize
  rcases RowSearch_cases SynetMergedConvolution16bCdc.SetSizeRow
    (fun t => decide (SynetMergedConvolution16bCdc.Footprint t ≤ L2)) Cdc_SetSizeRow_idem
    ((SynetMergedConvolution16bCdc.SetSizeHead miC miK L3 s).param.conv 1).dstH
    (SynetMergedConvolution16bCdc.SetSizeHead miC miK L3 s) with h | ⟨y, h⟩ <;>
  · simp only [h]
    rfl

theorem Cd_SetSize_maC (miC miK L2 L3 : Nat) (s : SynetMergedConvolution16b) :
    (SynetMergedConvolution16bCd.SetSize miC miK L2 L3 s).alg.maC =
      (SynetMergedConvolution16bCd.SetSizeHead miC miK L3 s).alg.maC := by
  unfold SynetMergedConvolution16bCd.SetSize
  rcases RowSearch_cases SynetMergedConvolution16bCd.SetSizeRow
    (fun t => decide (SynetMergedConvolution16bCd.Footprint t ≤ L2)) Cd_SetSizeRow_idem
    ((SynetMergedConvolution16bCd.SetSizeHead miC miK L3 s).param.conv 1).dstH
    (SynetMergedConvolution16bCd.SetSizeHead miC miK L3 s) with h | ⟨y, h⟩ <;>
  · simp only [h]
    rfl

theorem Dc_SetSize_maC (miC miK L2 L3 : Nat) (s : SynetMergedConvolution16b) :
    (SynetMergedConvolution16bDc.SetSize miC miK L2 L3 s).alg.maC =
      (SynetMergedConvolution16bDc.SetSizeHead miC miK L3 s).alg.maC := by
  unfold SynetMergedConvolution16bDc.SetSize
  rcases RowSearch_cases SynetMergedConvolution16bDc.SetSizeRow
    (fun t => decide (SynetMergedConvolution16bDc.Footprint t ≤ L2)) Dc_SetSizeRow_idem
    ((SynetMergedConvolution16bDc.SetSizeHead miC miK L3 s).param.conv 0).dstH
    (SynetMergedConvolution16bDc.SetSizeHead miC miK L3 s) with h | ⟨y, h⟩ <;>
  · simp only [h]
    rfl

theorem WeightSize_three (miC miK : Nat) (p : MergConvParam) :
    WeightSize miC miK p 3 = StageWeightSize miC miK (p.conv 0) +
      StageWeightSize miC miK (p.conv 1) + StageWeightSize miC miK (p.conv 2) := by
  simp [WeightSize, List.range_succ]

theorem WeightSize_two (miC miK : Nat) (p : MergConvParam) :
    WeightSize miC miK p 2 = StageWeightSize miC miK (p.conv 0) +
      StageWeightSize miC miK (p.conv 1) := by
  simp [WeightSize, List.range_succ]

/-! ## The tiling planner: theorems -/

/-- C8: row-window search of Cdc `SetSize`. With `fp y` the footprint
`2*_sizeB[0] + 4*_sizeB[1] + 2*_sizeB[2]` computed by the loop body for candidate step
`y`, and `conv[1].dstH >= 1`, the final `yStep[2]` is a step `y` in `[1, conv[1].dstH]`
that is the largest one with `fp y <= L2`, or is 1 when no step fits, and the stored
`yStep`, `yStart`, `bufH` and `_sizeB` are those computed for that `y`. -/
theorem cdc_setsize_largest_fitting_step (miC miK L2 L3 : Nat)
    (s : SynetMergedConvolution16b) (hH : 1 ≤ (s.param.conv 1).dstH) :
    ∃ y, 1 ≤ y ∧ y ≤ (s.param.conv 1).dstH ∧
      (SynetMergedConvolution16bCdc.SetSize miC miK L2 L3 s).alg.yStep2 = y ∧
      (SynetMergedConvolution16bCdc.SetSize miC miK L2 L3 s).window =
        (SynetMergedConvolution16bCdc.SetSizeRow
          (SynetMergedConvolution16bCdc.SetSizeHead miC miK L3 s) y).window ∧
      ((SynetMergedConvolution16bCdc.Footprint (SynetMergedConvolution16bCdc.SetSizeRow
            (SynetMergedConvolution16bCdc.SetSizeHead miC miK L3 s) y) ≤ L2 ∧
          ∀ y', y < y' → y' ≤ (s.param.conv 1).dstH →
            L2 < SynetMergedConvolution16bCdc.Footprint
              (SynetMergedConvolution16bCdc.SetSizeRow
                (SynetMergedConvolution16bCdc.SetSizeHead miC miK L3 s) y')) ∨
        (y = 1 ∧
          ∀ y', 1 ≤ y' → y' ≤ (s.param.conv 1).dstH →
            L2 < SynetMergedConvolution16bCdc.Footprint
              (SynetMergedConvolution16bCdc.SetSizeRow
                (SynetMergedConvolution16bCdc.SetSizeHead miC miK L3 s) y'))) := by
  obtain ⟨y, hy1, hyn, heq, hsp⟩ := RowSearch_spec SynetMergedConvolution16bCdc.SetSizeRow
    (fun t => decide (SynetMergedConvolution16bCdc.Footprint t ≤ L2)) Cdc_SetSizeRow_idem
    ((SynetMergedConvolution16bCdc.SetSizeHead miC miK L3 s).param.conv 1).dstH
    (SynetMergedConvolution16bCdc.SetSizeHead miC miK L3 s) hH
  refine ⟨y, hy1, hyn, ?_, ?_, ?_⟩
  · unfold SynetMergedConvolution16bCdc.SetSize
    simp only [heq]
    exact Nat.max_eq_right hy1
  · unfold SynetMergedConvolution16bCdc.SetSize
    simp only [heq]
    rfl
  · simpa using hsp

/-- C8 (witness): the search on the bottleneck chain `16 → 32 → 32 → 16` (8×8 image) with
`miC = 8`, `miK = 2`, a 4 KiB L2 and a 1 MiB L3. -/
theorem cdc_setsize_largest_fitting_step_witness :
    1 ≤ ((SynetMergedConvolution16b.create bottleneckDescriptor).param.conv 1).dstH ∧
    ∃ y, 1 ≤ y ∧ y ≤ ((SynetMergedConvolution16b.create bottleneckDescriptor).param.conv 1).dstH ∧
      (SynetMergedConvolution16bCdc.SetSize 8 2 4096 1048576
        (SynetMergedConvolution16b.create bottleneckDescriptor)).alg.yStep2 = y ∧
      (SynetMergedConvolution16bCdc.SetSize 8 2 4096 1048576
        (SynetMergedConvolution16b.create bottleneckDescriptor)).window =
        (SynetMergedConvolution16bCdc.SetSizeRow
          (SynetMergedConvolution16bCdc.SetSizeHead 8 2 1048576
            (SynetMergedConvolution16b.create bottleneckDescriptor)) y).window ∧
      ((SynetMergedConvolution16bCdc.Footprint (SynetMergedConvolution16bCdc.SetSizeRow
            (SynetMergedConvolution16bCdc.SetSizeHead 8 2 1048576
              (SynetMergedConvolution16b.create bottleneckDescriptor)) y) ≤ 4096 ∧
          ∀ y', y < y' →
            y' ≤ ((SynetMergedConvolution16b.create bottleneckDescriptor).param.conv 1).dstH →
            4096 < SynetMergedConvolution16bCdc.Footprint
              (SynetMergedConvolution16bCdc.SetSizeRow
                (SynetMergedConvolution16bCdc.SetSizeHead 8 2 1048576
                  (SynetMergedConvolution16b.create bottleneckDescriptor)) y')) ∨
        (y = 1 ∧
          ∀ y', 1 ≤ y' →
            y' ≤ ((SynetMergedConvolution16b.create bottleneckDescriptor).param.conv 1).dstH →
            4096 < SynetMergedConvolution16bCdc.Footprint
              (SynetMergedConvolution16bCdc.SetSizeRow
                (SynetMergedConvolution16bCdc.SetSizeHead 8 2 1048576
                  (SynetMergedConvolution16b.create bottleneckDescriptor)) y'))) :=
  ⟨by decide, cdc_setsize_largest_fitting_step 8 2 4096 1048576
    (SynetMergedConvolution16b.create bottleneckDescriptor) (by decide)⟩

/-- C9 (as amended): for each of the Cdc, Cd and Dc engines, when the height at which the
row loop starts is at least 1, `SetSize` ends with `1 <= yStep[2] <= height`, and the
footprint tested by the search is within the L2 budget unless no step of `[1, height]`
fits; in that case `yStep[2] == 1` is accepted although its footprint exceeds `L2`. -/
theorem setsize_window_bounds (miC miK L2 L3 : Nat) (s : SynetMergedConvolution16b) :
    (1 ≤ (s.param.conv 1).dstH →
      1 ≤ (SynetMergedConvolution16bCdc.SetSize miC miK L2 L3 s).alg.yStep2 ∧
      (SynetMergedConvolution16bCdc.SetSize miC miK L2 L3 s).alg.yStep2 ≤
        (s.param.conv 1).dstH ∧
      (SynetMergedConvolution16bCdc.Footprint
          (SynetMergedConvolution16bCdc.SetSize miC miK L2 L3 s) ≤ L2 ∨
        ((SynetMergedConvolution16bCdc.SetSize miC miK L2 L3 s).alg.yStep2 = 1 ∧
          ∀ y, 1 ≤ y → y ≤ (s.param.conv 1).dstH →
            L2 < SynetMergedConvolution16bCdc.Footprint
              (SynetMergedConvolution16bCdc.SetSizeRow
                (SynetMergedConvolution16bCdc.SetSizeHead miC miK L3 s) y)))) ∧
    (1 ≤ (s.param.conv 1).dstH →
      1 ≤ (SynetMergedConvolution16bCd.SetSize miC miK L2 L3 s).alg.yStep2 ∧
      (SynetMergedConvolution16bCd.SetSize miC miK L2 L3 s).alg.yStep2 ≤
        (s.param.conv 1).dstH ∧
      (SynetMergedConvolution16bCd.Footprint
          (SynetMergedConvolution16bCd.SetSize miC miK L2 L3 s) ≤ L2 ∨
        ((SynetMergedConvolution16bCd.SetSize miC miK L2 L3 s).alg.yStep2 = 1 ∧
          ∀ y, 1 ≤ y → y ≤ (s.param.conv 1).dstH →
            L2 < SynetMergedConvolution16bCd.Footprint
              (SynetMergedConvolution16bCd.SetSizeRow
                (SynetMergedConvolution16bCd.SetSizeHead miC miK L3 s) y)))) ∧
    (1 ≤ (s.param.conv 0).dstH →
      1 ≤ (SynetMergedConvolution16bDc.SetSize miC miK L2 L3 s).alg.yStep2 ∧
      (SynetMergedConvolution16bDc.SetSize miC miK L2 L3 s).alg.yStep2 ≤
        (s.param.conv 0).dstH ∧
      (SynetMergedConvolution16bDc.Footprint
          (SynetMergedConvolution16bDc.SetSize miC miK L2 L3 s) ≤ L2 ∨
        ((SynetMergedConvolution16bDc.SetSize miC miK L2 L3 s).alg.yStep2 = 1 ∧
          ∀ y, 1 ≤ y → y ≤ (s.param.conv 0).dstH →
            L2 < SynetMergedConvolution16bDc.Footprint
              (SynetMergedConvolution16bDc.SetSizeRow
                (SynetMergedConvolution16bDc.SetSizeHead miC miK L3 s) y)))) := by
  refine ⟨fun hH => ?_, fun hH => ?_, fun hH => ?_⟩
  · obtain ⟨y, hy1, hyn, heq, hsp⟩ := RowSearch_spec SynetMergedConvolution16bCdc.SetSizeRow
      (fun t => decide (SynetMergedConvolution16bCdc.Footprint t ≤ L2)) Cdc_SetSizeRow_idem
      ((SynetMergedConvolution16bCdc.SetSizeHead miC miK L3 s).param.conv 1).dstH
      (SynetMergedConvolution16bCdc.SetSizeHead miC miK L3 s) hH
    have hy : (SynetMergedConvolution16bCdc.SetSize miC miK L2 L3 s).alg.yStep2 = y := by
      unfold SynetMergedConvolution16bCdc.SetSize
      simp only [heq]
      exact Nat.max_eq_right hy1
    have hf : SynetMergedConvolution16bCdc.Footprint
        (SynetMergedConvolution16bCdc.SetSize miC miK L2 L3 s) =
        SynetMergedConvolution16bCdc.Footprint (SynetMergedConvolution16bCdc.SetSizeRow
          (SynetMergedConvolution16bCdc.SetSizeHead miC miK L3 s) y) := by
      unfold SynetMergedConvolution16bCdc.SetSize
      simp only [heq]
      rfl
    rw [hy, hf]
    refine ⟨hy1, hyn, ?_⟩
    rcases hsp with ⟨h, _⟩ | ⟨h1, hall⟩
    · exact Or.inl (by simpa using h)
    · exact Or.inr ⟨h1, by simpa using hall⟩
  · obtain ⟨y, hy1, hyn, heq, hsp⟩ := RowSearch_spec SynetMergedConvolution16bCd.SetSizeRow
      (fun t => decide (SynetMergedConvolution16bCd.Footprint t ≤ L2)) Cd_SetSizeRow_idem
      ((SynetMergedConvolution16bCd.SetSizeHead miC miK L3 s).param.conv 1).dstH
      (SynetMergedConvolution16bCd.SetSizeHead miC miK L3 s) hH
    have hy : (SynetMergedConvolution16bCd.SetSize miC miK L2 L3 s).alg.yStep2 = y := by
      unfold SynetMergedConvolution16bCd.SetSize
      simp only [heq]
      exact Nat.max_eq_right hy1
    have hf : SynetMergedConvolution16bCd.Footprint
        (SynetMergedConvolution16bCd.SetSize miC miK L2 L3 s) =
        SynetMergedConvolution16bCd.Footprint (SynetMergedConvolution16bCd.SetSizeRow
          (SynetMergedConvolution16bCd.SetSizeHead miC miK L3 s) y) := by
      unfold SynetMergedConvolution16bCd.SetSize
      simp only [heq]
      rfl
    rw [hy, hf]
    refine ⟨hy1, hyn, ?_⟩
    rcases hsp with ⟨h, _⟩ | ⟨h1, hall⟩
    · exact Or.inl (by simpa using h)
    · exact Or.inr ⟨h1, by simpa using hall⟩
  · obtain ⟨y, hy1, hyn, heq, hsp⟩ := RowSearch_spec SynetMergedConvolution16bDc.SetSizeRow
      (fun t => decide (SynetMergedConvolution16bDc.Footprint t ≤ L2)) Dc_SetSizeRow_idem
      ((SynetMergedConvolution16bDc.SetSizeHead miC miK L3 s).param.conv 0).dstH
      (SynetMergedConvolution16bDc.SetSizeHead miC miK L3 s) hH
    have hy : (SynetMergedConvolution16bDc.SetSize miC miK L2 L3 s).alg.yStep2 = y := by
      unfold SynetMergedConvolution16bDc.SetSize
      simp only [heq]
      exact Nat.max_eq_right hy1
    have hf : SynetMergedConvolution16bDc.Footprint
        (SynetMergedConvolution16bDc.SetSize miC miK L2 L3 s) =
        SynetMergedConvolution16bDc.Footprint (SynetMergedConvolution16bDc.SetSizeRow
          (SynetMergedConvolution16bDc.SetSizeHead miC miK L3 s) y) := by
      unfold SynetMergedConvolution16bDc.SetSize
      simp only [heq]
      rfl
    rw [hy, hf]
    refine ⟨hy1, hyn, ?_⟩
    rcases hsp with ⟨h, _⟩ | ⟨h1, hall⟩
    · exact Or.inl (by simpa using h)
    · exact Or.inr ⟨h1, by simpa using hall⟩

/-- C9 (witness): the three engines on the bottleneck chain with `miC = 8`, `miK = 2`, a
4 KiB L2 and a 1 MiB L3; all three heights are 8. -/
theorem setsize_window_bounds_witness :
    1 ≤ ((SynetMergedConvolution16b.create bottleneckDescriptor).param.conv 1).dstH ∧
    1 ≤ ((SynetMergedConvolution16b.create bottleneckDescriptor).param.conv 0).dstH ∧
    (1 ≤ (SynetMergedConvolution16bCdc.SetSize 8 2 4096 1048576
        (SynetMergedConvolution16b.create bottleneckDescriptor)).alg.yStep2 ∧
      (SynetMergedConvolution16bCdc.SetSize 8 2 4096 1048576
        (SynetMergedConvolution16b.create bottleneckDescriptor)).alg.yStep2 ≤
        ((SynetMergedConvolution16b.create bottleneckDescriptor).param.conv 1).dstH ∧
      (SynetMergedConvolution16bCdc.Footprint
          (SynetMergedConvolution16bCdc.SetSize 8 2 4096 1048576
            (SynetMergedConvolution16b.create bottleneckDescriptor)) ≤ 4096 ∨
        ((SynetMergedConvolution16bCdc.SetSize 8 2 4096 1048576
            (SynetMergedConvolution16b.create bottleneckDescriptor)).alg.yStep2 = 1 ∧
          ∀ y, 1 ≤ y →
            y ≤ ((SynetMergedConvolution16b.create bottleneckDescriptor).param.conv 1).dstH →
            4096 < SynetMergedConvolution16bCdc.Footprint
              (SynetMergedConvolution16bCdc.SetSizeRow
                (SynetMergedConvolution16bCdc.SetSizeHead 8 2 1048576
                  (SynetMergedConvolution16b.create bottleneckDescriptor)) y)))) ∧
    (1 ≤ (SynetMergedConvolution16bCd.SetSize 8 2 4096 1048576
        (SynetMergedConvolution16b.create bottleneckDescriptor)).alg.yStep2 ∧
      (SynetMergedConvolution16bCd.SetSize 8 2 4096 1048576
        (SynetMergedConvolution16b.create bottleneckDescriptor)).alg.yStep2 ≤
        ((SynetMergedConvolution16b.create bottleneckDescriptor).param.conv 1).dstH ∧
      (SynetMergedConvolution16bCd.Footprint
          (SynetMergedConvolution16bCd.SetSize 8 2 4096 1048576
            (SynetMergedConvolution16b.create bottleneckDescriptor)) ≤ 4096 ∨
        ((SynetMergedConvolution16bCd.SetSize 8 2 4096 1048576
            (SynetMergedConvolution16b.create bottleneckDescriptor)).alg.yStep2 = 1 ∧
          ∀ y, 1 ≤ y →
            y ≤ ((SynetMergedConvolution16b.create bottleneckDescriptor).param.conv 1).dstH →
            4096 < SynetMergedConvolution16bCd.Footprint
              (SynetMergedConvolution16bCd.SetSizeRow
                (SynetMergedConvolution16bCd.SetSizeHead 8 2 1048576
                  (SynetMergedConvolution16b.create bottleneckDescriptor)) y)))) ∧
    (1 ≤ (SynetMergedConvolution16bDc.SetSize 8 2 4096 1048576
        (SynetMergedConvolution16b.create bottleneckDescriptor)).alg.yStep2 ∧
      (SynetMergedConvolution16bDc.SetSize 8 2 4096 1048576
        (SynetMergedConvolution16b.create bottleneckDescriptor)).alg.yStep2 ≤
        ((SynetMergedConvolution16b.create bottleneckDescriptor).param.conv 0).dstH ∧
      (SynetMergedConvolution16bDc.Footprint
          (SynetMergedConvolution16bDc.SetSize 8 2 4096 1048576
            (SynetMergedConvolution16b.create bottleneckDescriptor)) ≤ 4096 ∨
        ((SynetMergedConvolution16bDc.SetSize 8 2 4096 1048576
            (SynetMergedConvolution16b.create bottleneckDescriptor)).alg.yStep2 = 1 ∧
          ∀ y, 1 ≤ y →
            y ≤ ((SynetMergedConvolution16b.create bottleneckDescriptor).param.conv 0).dstH →
            4096 < SynetMergedConvolution16bDc.Footprint
              (SynetMergedConvolution16bDc.SetSizeRow
                (SynetMergedConvolution16bDc.SetSizeHead 8 2 1048576
                  (SynetMergedConvolution16b.create bottleneckDescriptor)) y)))) :=
  ⟨by decide, by decide,
    (setsize_window_bounds 8 2 4096 1048576
      (SynetMergedConvolution16b.create bottleneckDescriptor)).1 (by decide),
    (setsize_window_bounds 8 2 4096 1048576
      (SynetMergedConvolution16b.create bottleneckDescriptor)).2.1 (by decide),
    (setsize_window_bounds 8 2 4096 1048576
      (SynetMergedConvolution16b.create bottleneckDescriptor)).2.2 (by decide)⟩

/-- C9 (counterexample): on the chain `64 → 256 → 256 → 64` with rows of 2048 pixels,
`miC = 8`, `miK = 2`, a 256 KiB L2 and a 2 MiB L3, Cdc `SetSize` ends with `yStep[2] == 1`
and a tested footprint of 2883584 bytes, above the L2 budget of 262144. -/
theorem cdc_setsize_exceeds_budget :
    1 ≤ ((SynetMergedConvolution16b.create wideDescriptor).param.conv 1).dstH ∧
    (SynetMergedConvolution16bCdc.SetSize 8 2 262144 2097152
      (SynetMergedConvolution16b.create wideDescriptor)).alg.yStep2 = 1 ∧
    SynetMergedConvolution16bCdc.Footprint (SynetMergedConvolution16bCdc.SetSize 8 2 262144
      2097152 (SynetMergedConvolution16b.create wideDescriptor)) = 2883584 ∧
    ¬ (SynetMergedConvolution16bCdc.Footprint (SynetMergedConvolution16bCdc.SetSize 8 2 262144
      2097152 (SynetMergedConvolution16b.create wideDescriptor)) ≤ 262144) := by
  decide

/-- C10: for `miC = 2^i`, `miK = 2^k` (even) and `L3 >= 2`, with
`count = size / (L3 / 2) + 1` and `size` the sum over the stages of
`AlignHi(srcC, miK) * AlignHi(dstC, 2*miC) * 2` for `group == 1` and
`kernelY * kernelX * srcC * 4` otherwise (three stages for Cdc, two for Cd and Dc), the
macro-channel tile is `AlignHi(AlignHi(conv[0].srcC / count, 2*miC), miK)` for Cdc and Dc
and `AlignHiAny(conv[0].dstC / count, 2*miC)` for Cd; it is a multiple of `2*miC` for
all three engines and a multiple of `miK` for Cdc and Dc. -/
theorem setsize_maC_multiple (i k L2 L3 : Nat) (s : SynetMergedConvolution16b)
    (_hk : 1 ≤ k) (_hL3 : 2 ≤ L3) :
    let miC := 2 ^ i
    let miK := 2 ^ k
    let bytes : ConvParam → Nat := fun c =>
      if c.group = 1 then AlignHi c.srcC miK * AlignHi c.dstC (2 * miC) * 2
      else c.kernelY * c.kernelX * c.srcC * 4
    let count3 := (bytes (s.param.conv 0) + bytes (s.param.conv 1) + bytes (s.param.conv 2)) /
      (L3 / 2) + 1
    let count2 := (bytes (s.param.conv 0) + bytes (s.param.conv 1)) / (L3 / 2) + 1
    (SynetMergedConvolution16bCdc.SetSize miC miK L2 L3 s).alg.maC =
        AlignHi (AlignHi ((s.param.conv 0).srcC / count3) (2 * miC)) miK ∧
    (SynetMergedConvolution16bCd.SetSize miC miK L2 L3 s).alg.maC =
        AlignHiAny ((s.param.conv 0).dstC / count2) (2 * miC) ∧
    (SynetMergedConvolution16bDc.SetSize miC miK L2 L3 s).alg.maC =
        AlignHi (AlignHi ((s.param.conv 0).srcC / count2) (2 * miC)) miK ∧
    2 * miC ∣ (SynetMergedConvolution16bCdc.SetSize miC miK L2 L3 s).alg.maC ∧
    miK ∣ (SynetMergedConvolution16bCdc.SetSize miC miK L2 L3 s).alg.maC ∧
    2 * miC ∣ (SynetMergedConvolution16bCd.SetSize miC miK L2 L3 s).alg.maC ∧
    2 * miC ∣ (SynetMergedConvolution16bDc.SetSize miC miK L2 L3 s).alg.maC ∧
    miK ∣ (SynetMergedConvolution16bDc.SetSize miC miK L2 L3 s).alg.maC := by
  intro miC miK bytes count3 count2
  have hb : ∀ c, StageWeightSize miC miK c = bytes c := by
    intro c
    simp only [StageWeightSize, bytes, Nat.mul_comm miC 2]
  have h2 : 2 * miC = 2 ^ (i + 1) := by
    simp only [miC, Nat.pow_succ, Nat.mul_comm]
  have e1 : (SynetMergedConvolution16bCdc.SetSize miC miK L2 L3 s).alg.maC =
      AlignHi (AlignHi ((s.param.conv 0).srcC / count3) (2 * miC)) miK := by
    rw [Cdc_SetSize_maC]
    simp only [SynetMergedConvolution16bCdc.SetSizeHead, WeightSize_three, hb, count3]
  have e2 : (SynetMergedConvolution16bCd.SetSize miC miK L2 L3 s).alg.maC =
      AlignHiAny ((s.param.conv 0).dstC / count2) (2 * miC) := by
    rw [Cd_SetSize_maC]
    simp only [SynetMergedConvolution16bCd.SetSizeHead, WeightSize_two, hb, count2]
  have e3 : (SynetMergedConvolution16bDc.SetSize miC miK L2 L3 s).alg.maC =
      AlignHi (AlignHi ((s.param.conv 0).srcC / count2) (2 * miC)) miK := by
    rw [Dc_SetSize_maC]
    simp only [SynetMergedConvolution16bDc.SetSizeHead, WeightSize_two, hb, count2]
  refine ⟨e1, e2, e3, ?_, ?_, ?_, ?_, ?_⟩
  · rw [e1, h2]; exact (AlignHi_AlignHi_pow2_dvd _ _ _).1
  · rw [e1, h2]; exact (AlignHi_AlignHi_pow2_dvd _ _ _).2
  · rw [e2]; exact Nat.dvd_mul_left _ _
  · rw [e3, h2]; exact (AlignHi_AlignHi_pow2_dvd _ _ _).1
  · rw [e3, h2]; exact (AlignHi_AlignHi_pow2_dvd _ _ _).2

/-! ## Nested loops that append to a buffer: lemmas -/

/-- Length of the buffer written by an outer loop whose rounds all write `m` cells. -/
theorem length_flatMap_range {β : Type} (f : Nat → List β) (m : Nat) :
    ∀ n, (∀ a, a < n → (f a).length = m) → ((List.range n).flatMap f).length = n * m := by
  intro n
  induction n with
  | zero => intro _; simp
  | succ n ih =>
    intro h
    rw [List.range_succ, List.flatMap_append, List.length_append, List.flatMap_singleton,
      ih (fun a ha => h a (by omega)), h n (by omega)]
    ring

/-- Cell `a * m + b` of the buffer written by an outer loop is cell `b` of round `a`, when
the rounds before `a` all write `m` cells. -/
theorem getElem?_flatMap_range {β : Type} (f : Nat → List β) (m : Nat) :
    ∀ n a b, a < n → (∀ a', a' < a → (f a').length = m) → b < (f a).length →
      ((List.range n).flatMap f)[a * m + b]? = (f a)[b]? := by
  intro n
  induction n with
  | zero => intro a b ha; omega
  | succ n ih =>
    intro a b ha hpre hb
    rw [List.range_succ, List.flatMap_append, List.flatMap_singleton]
    rcases Nat.lt_or_ge a n with hlt | hge
    · have h1 := ih a b hlt hpre hb
      have h2 : a * m + b < ((List.range n).flatMap f).length := by
        rw [List.getElem?_eq_getElem hb] at h1
        exact (List.getElem?_eq_some.mp h1).1
      rw [List.getElem?_append_left h2, h1]
    · have hn : a = n := by omega
      subst hn
      have hlen := length_flatMap_range f m a hpre
      rw [List.getElem?_append_right (by omega), hlen]
      congr 1
      omega

theorem getElem?_map_range {β : Type} (g : Nat → β) (n i : Nat) (hi : i < n) :
    ((List.range n).map g)[i]? = some (g i) := by
  rw [List.getElem?_map, List.getElem?_range hi]
  rfl

/-- Length of the buffer written by three nested counted loops. -/
theorem nest3_length {β : Type} (g : Nat → Nat → Nat → β) (n1 n2 n3 : Nat) :
    ((List.range n1).flatMap fun a => (List.range n2).flatMap fun b =>
      (List.range n3).map (g a b)).length = n1 * (n2 * n3) := by
  apply length_flatMap_range
  intro a _
  apply length_flatMap_range
  intro b _
  simp

/-- Cell `(a * n2 + b) * n3 + c` of the buffer written by three nested counted loops. -/
theorem nest3_get {β : Type} (g : Nat → Nat → Nat → β) (n1 n2 n3 a b c : Nat)
    (ha : a < n1) (hb : b < n2) (hc : c < n3) :
    ((List.range n1).flatMap fun a => (List.range n2).flatMap fun b =>
      (List.range n3).map (g a b))[(a * n2 + b) * n3 + c]? = some (g a b c) := by
  have hinner : ∀ a b, ((List.range n3).map (g a b)).length = n3 := by simp
  have hmid : ∀ a, ((List.range n2).flatMap fun b => (List.range n3).map (g a b)).length =
      n2 * n3 := fun a => length_flatMap_range _ n3 n2 (fun b _ => hinner a b)
  have hidx : (a * n2 + b) * n3 + c = a * (n2 * n3) + (b * n3 + c) := by ring
  have hbc : b * n3 + c < n2 * n3 := by
    calc b * n3 + c < b * n3 + n3 := by omega
      _ = (b + 1) * n3 := by ring
      _ ≤ n2 * n3 := Nat.mul_le_mul_right _ hb
  rw [hidx, getElem?_flatMap_range _ (n2 * n3) n1 a _ ha (fun a' _ => hmid a')
    (by rw [hmid]; exact hbc),
    getElem?_flatMap_range _ n3 n2 b c hb (fun b' _ => hinner a b') (by rw [hinner]; exact hc),
    getElem?_map_range _ _ _ hc]

/-- Length of the buffer written by four nested counted loops. -/
theorem nest4_length {β : Type} (g : Nat → Nat → Nat → Nat → β) (n1 n2 n3 n4 : Nat) :
    ((List.range n1).flatMap fun a => (List.range n2).flatMap fun b =>
      (List.range n3).flatMap fun c => (List.range n4).map (g a b c)).length =
      n1 * (n2 * (n3 * n4)) := by
  apply length_flatMap_range
  intro a _
  exact nest3_length (g a) n2 n3 n4

/-- Cell `((a * n2 + b) * n3 + c) * n4 + d` of the buffer written by four nested counted
loops. -/
theorem nest4_get {β : Type} (g : Nat → Nat → Nat → Nat → β) (n1 n2 n3 n4 a b c d : Nat)
    (ha : a < n1) (hb : b < n2) (hc : c < n3) (hd : d < n4) :
    ((List.range n1).flatMap fun a => (List.range n2).flatMap fun b =>
      (List.range n3).flatMap fun c => (List.range n4).map (g a b c))[
        ((a * n2 + b) * n3 + c) * n4 + d]? = some (g a b c d) := by
  have hmid : ∀ a, ((List.range n2).flatMap fun b => (List.range n3).flatMap fun c =>
      (List.range n4).map (g a b c)).length = n2 * (n3 * n4) :=
    fun a => nest3_length (g a) n2 n3 n4
  have hidx : ((a * n2 + b) * n3 + c) * n4 + d =
      a * (n2 * (n3 * n4)) + ((b * n3 + c) * n4 + d) := by ring
  have hin : (b * n3 + c) * n4 + d < n2 * (n3 * n4) := by
    have h1 : b * n3 + c + 1 ≤ n2 * n3 := by
      calc b * n3 + c + 1 ≤ b * n3 + n3 := by omega
        _ = (b + 1) * n3 := by ring
        _ ≤ n2 * n3 := Nat.mul_le_mul_right _ hb
    calc (b * n3 + c) * n4 + d < (b * n3 + c) * n4 + n4 := by omega
      _ = (b * n3 + c + 1) * n4 := by ring
      _ ≤ n2 * n3 * n4 := Nat.mul_le_mul_right _ h1
      _ = n2 * (n3 * n4) := by ring
  rw [hidx, getElem?_flatMap_range _ (n2 * (n3 * n4)) n1 a _ ha (fun a' _ => hmid a')
    (by rw [hmid]; exact hin)]
  exact nest3_get (g a) n2 n3 n4 b c d hb hc hd

/-- The index of a cell of a four-level nest is inside the buffer. -/
theorem nest4_index_lt (n1 n2 n3 n4 a b c d : Nat)
    (ha : a < n1) (hb : b < n2) (hc : c < n3) (hd : d < n4) :
    ((a * n2 + b) * n3 + c) * n4 + d < n1 * (n2 * (n3 * n4)) := by
  have h := nest4_get (fun _ _ _ _ => (0 : Nat)) n1 n2 n3 n4 a b c d ha hb hc hd
  have h2 := (List.getElem?_eq_some.mp h).1
  rwa [nest4_length] at h2

/-- The index of a cell of a three-level nest is inside the buffer. -/
theorem nest3_index_lt (n1 n2 n3 a b c : Nat) (ha : a < n1) (hb : b < n2) (hc : c < n3) :
    (a * n2 + b) * n3 + c < n1 * (n2 * n3) := by
  have h := nest3_get (fun _ _ _ => (0 : Nat)) n1 n2 n3 a b c ha hb hc
  have h2 := (List.getElem?_eq_some.mp h).1
  rwa [nest3_length] at h2

/-- Every index below `n1 * n2` is `a * n2 + b` for some `a < n1`, `b < n2`. -/
theorem decode2 (n1 n2 n : Nat) (h : n < n1 * n2) :
    ∃ a b, a < n1 ∧ b < n2 ∧ n = a * n2 + b := by
  have hpos : 0 < n2 := by
    rcases Nat.eq_zero_or_pos n2 with h0 | h0
    · subst h0; simp at h
    · exact h0
  refine ⟨n / n2, n % n2, (Nat.div_lt_iff_lt_mul hpos).mpr h, Nat.mod_lt _ hpos, ?_⟩
  have := Nat.div_add_mod n n2
  rw [Nat.mul_comm] at this
  omega

/-- Every index below `n1 * (n2 * (n3 * n4))` is the index of a cell of a four-level
nest. -/
theorem decode4 (n1 n2 n3 n4 n : Nat) (h : n < n1 * (n2 * (n3 * n4))) :
    ∃ a b c d, a < n1 ∧ b < n2 ∧ c < n3 ∧ d < n4 ∧ n = ((a * n2 + b) * n3 + c) * n4 + d := by
  have h' : n < (n1 * n2 * n3) * n4 := by
    calc n < n1 * (n2 * (n3 * n4)) := h
      _ = (n1 * n2 * n3) * n4 := by ring
  obtain ⟨x, d, hx, hd, rfl⟩ := decode2 _ _ _ h'
  obtain ⟨y, c, hy, hc, rfl⟩ := decode2 _ _ _ hx
  obtain ⟨a, b, ha, hb, rfl⟩ := decode2 _ _ _ hy
  exact ⟨a, b, c, d, ha, hb, hc, hd, rfl⟩

/-- Every index below `n1 * (n2 * n3)` is the index of a cell of a three-level nest. -/
theorem decode3 (n1 n2 n3 n : Nat) (h : n < n1 * (n2 * n3)) :
    ∃ a b c, a < n1 ∧ b < n2 ∧ c < n3 ∧ n = (a * n2 + b) * n3 + c := by
  have h' : n < (n1 * n2) * n3 := by
    calc n < n1 * (n2 * n3) := h
      _ = (n1 * n2) * n3 := by ring
  obtain ⟨x, c, hx, hc, rfl⟩ := decode2 _ _ _ h'
  obtain ⟨a, b, ha, hb, rfl⟩ := decode2 _ _ _ hx
  exact ⟨a, b, c, ha, hb, hc, rfl⟩

/-! ## Weight packers: lemmas -/

theorem AlignHi_pow2_ge (n k : Nat) : n ≤ AlignHi n (2 ^ k) := by
  rw [AlignHi_pow2]
  have hpos : 0 < 2 ^ k := Nat.two_pow_pos _
  have := Nat.lt_div_mul_add (a := n + 2 ^ k - 1) hpos
  omega

theorem AlignHi_pow2_even (n k : Nat) (hk : 1 ≤ k) : AlignHi n (2 ^ k) % 2 = 0 := by
  have h1 : 2 ∣ 2 ^ k := by
    obtain ⟨j, rfl⟩ : ∃ j, k = j + 1 := ⟨k - 1, by omega⟩
    exact ⟨2 ^ j, by rw [Nat.pow_succ, Nat.mul_comm]⟩
  exact Nat.mod_eq_zero_of_dvd (Nat.dvd_trans h1 (AlignHi_pow2_dvd n k))

theorem DivHi_two_of_even (C : Nat) (h : C % 2 = 0) : DivHi C 2 = C / 2 := by
  unfold DivHi
  omega

theorem lt_DivHi_iff (d n F : Nat) (hF : 0 < F) : d < DivHi n F ↔ d * F < n := by
  unfold DivHi
  have h1 : d < (n + F - 1) / F ↔ (d + 1) * F ≤ n + F - 1 := by
    rw [← Nat.le_div_iff_mul_le hF]
    exact Iff.rfl
  rw [h1, Nat.add_mul, Nat.one_mul]
  omega

theorem le_DivHi_mul (n F : Nat) (hF : 0 < F) : n ≤ DivHi n F * F := by
  unfold DivHi
  have := Nat.lt_div_mul_add (a := n + F - 1) hF
  omega

/-- The loop `for (x = 0; x < stop; x += step)` visits exactly the multiples of `step`
below `stop`. -/
theorem mem_StepRange (stop step x : Nat) (hstep : 0 < step) :
    x ∈ StepRange stop step ↔ step ∣ x ∧ x < stop := by
  unfold StepRange
  simp only [List.mem_map, List.mem_range]
  constructor
  · rintro ⟨j, hj, rfl⟩
    exact ⟨Nat.dvd_mul_left _ _, (lt_DivHi_iff j stop step hstep).mp hj⟩
  · rintro ⟨⟨j, rfl⟩, hx⟩
    refine ⟨j, (lt_DivHi_iff j stop step hstep).mpr ?_, Nat.mul_comm _ _⟩
    rwa [Nat.mul_comm]

/-- The body of the innermost loop of the dense packers writes the cell value
`DenseCell`. -/
theorem denseBody_eq (cvt : Nat → Nat) (a : AlgParam) (src : Nat → Nat) (p : ConvParam)
    (c d f i : Nat) :
    (if d * (a.miC * 2) + f < p.dstC ∧ c * 2 + i < p.srcC then
        cvt (src (PsOffset (c * 2 * p.dstC + d * (a.miC * 2)) (decide (c * 2 < p.srcC)) f +
          i * p.dstC))
      else 0) = DenseCell cvt a src p c d f i := by
  unfold DenseCell PsOffset
  by_cases h : d * (a.miC * 2) + f < p.dstC ∧ c * 2 + i < p.srcC
  · have h' : d * (a.miC * 2) + f < p.dstC ∧ 2 * c + i < p.srcC := ⟨h.1, by omega⟩
    have hc : c * 2 < p.srcC := by omega
    rw [if_pos h, if_pos h']
    simp only [hc, decide_True, if_true]
    congr 2
    ring
  · have h' : ¬ (d * (a.miC * 2) + f < p.dstC ∧ 2 * c + i < p.srcC) := by
      intro hh
      exact h ⟨hh.1, by omega⟩
    rw [if_neg h, if_neg h']

/-- In tiled mode with an even number `C` of aligned source channels, `_weightI` is the
four-level nest `[D][C/2][F][2]` of the cell values. -/
theorem SetInputWeight_eq_nest (cvt : Nat → Nat) (a : AlgParam) (src : Nat → Nat)
    (p : ConvParam) (hmiC : 0 < a.miC) (heven : AlignHi p.srcC a.miK % 2 = 0) :
    SetInputWeight cvt a src p =
      (List.range (DivHi p.dstC (a.miC * 2))).flatMap fun d =>
        (List.range (AlignHi p.srcC a.miK / 2)).flatMap fun c =>
          (List.range (a.miC * 2)).flatMap fun f =>
            (List.range 2).map (fun i => DenseCell cvt a src p c d f i) := by
  unfold SetInputWeight
  rw [if_pos (by omega)]
  simp only [StepRange, List.flatMap_map, DivHi_two_of_even _ heven, denseBody_eq]

theorem SetInputWeight_length (cvt : Nat → Nat) (a : AlgParam) (src : Nat → Nat)
    (p : ConvParam) (hmiC : 0 < a.miC) (heven : AlignHi p.srcC a.miK % 2 = 0) :
    (SetInputWeight cvt a src p).length =
      DivHi p.dstC (a.miC * 2) * (AlignHi p.srcC a.miK / 2 * (a.miC * 2 * 2)) := by
  rw [SetInputWeight_eq_nest cvt a src p hmiC heven, nest4_length]

theorem SetInputWeight_get (cvt : Nat → Nat) (a : AlgParam) (src : Nat → Nat)
    (p : ConvParam) (hmiC : 0 < a.miC) (heven : AlignHi p.srcC a.miK % 2 = 0)
    (c d f i : Nat) (hc : c < AlignHi p.srcC a.miK / 2) (hd : d < DivHi p.dstC (a.miC * 2))
    (hf : f < a.miC * 2) (hi : i < 2) :
    (SetInputWeight cvt a src p)[InputWeightIndex a p c d f i]? =
      some (DenseCell cvt a src p c d f i) := by
  rw [SetInputWeight_eq_nest cvt a src p hmiC heven]
  exact nest4_get (fun d c f i => DenseCell cvt a src p c d f i) _ _ _ _ d c f i hd hc hf hi

theorem SetInputWeight_cover (cvt : Nat → Nat) (a : AlgParam) (src : Nat → Nat)
    (p : ConvParam) (hmiC : 0 < a.miC) (heven : AlignHi p.srcC a.miK % 2 = 0)
    (n : Nat) (hn : n < (SetInputWeight cvt a src p).length) :
    ∃ c d f i, c < AlignHi p.srcC a.miK / 2 ∧ d < DivHi p.dstC (a.miC * 2) ∧
      f < a.miC * 2 ∧ i < 2 ∧ n = InputWeightIndex a p c d f i := by
  rw [SetInputWeight_length cvt a src p hmiC heven] at hn
  obtain ⟨d, c, f, i, hd, hc, hf, hi, h⟩ := decode4 _ _ _ _ n hn
  exact ⟨c, d, f, i, hc, hd, hf, hi, h⟩

/-- Every index of the buffer written by an outer loop lies in some round; when all
rounds but the last write `m` cells the index is `a * m + r` with `r` inside round `a`. -/
theorem decode_flatMap_range {β : Type} (f : Nat → List β) (m : Nat) :
    ∀ nb, (∀ a, a + 1 < nb → (f a).length = m) →
      ∀ n, n < ((List.range nb).flatMap f).length →
        ∃ a r, a < nb ∧ r < (f a).length ∧ n = a * m + r := by
  intro nb
  induction nb with
  | zero => intro _ n hn; simp at hn
  | succ nb ih =>
    intro h n hn
    rw [List.range_succ, List.flatMap_append, List.flatMap_singleton,
      List.length_append] at hn
    rcases Nat.lt_or_ge n ((List.range nb).flatMap f).length with hlt | hge
    · obtain ⟨a, r, ha, hr, hnr⟩ := ih (fun a ha => h a (by omega)) n hlt
      exact ⟨a, r, by omega, hr, hnr⟩
    · have hlen := length_flatMap_range f m nb (fun a ha => h a (by omega))
      exact ⟨nb, n - nb * m, by omega, by omega, by omega⟩

/-- In tiled mode `_weightO` is written macro block by macro block: block `b` holds the
pairs `b*M, ..., min(C, b*M + M) - 1` as the nest `[D][pairs of the block][F][2]`. -/
theorem SetOutputWeight_eq_blocks (cvt : Nat → Nat) (a : AlgParam) (src : Nat → Nat)
    (p : ConvParam) (hmiC : 0 < a.miC) :
    SetOutputWeight cvt a src p =
      (List.range (DivHi (DivHi (AlignHi p.srcC a.miK) 2) (DivHi a.maC 2))).flatMap fun b =>
        (List.range (DivHi p.dstC (a.miC * 2))).flatMap fun d =>
          (List.range (min (DivHi (AlignHi p.srcC a.miK) 2)
              (b * DivHi a.maC 2 + DivHi a.maC 2) - b * DivHi a.maC 2)).flatMap fun c =>
            (List.range (a.miC * 2)).flatMap fun f =>
              (List.range 2).map
                (fun i => DenseCell cvt a src p (b * DivHi a.maC 2 + c) d f i) := by
  unfold SetOutputWeight
  rw [if_pos (by omega)]
  simp only [StepRange, List.flatMap_map, List.range'_eq_map_range, denseBody_eq]

theorem DivHi_two_pos (maC : Nat) (h : 0 < maC) : 0 < DivHi maC 2 := by
  unfold DivHi
  omega

/-- The macro block of pair `c`: its number, and the bounds of `c` inside it. -/
theorem block_of_pair (C M c : Nat) (hM : 0 < M) (hc : c < C) :
    c / M < DivHi C M ∧ c / M * M ≤ c ∧ c - c / M * M < min C (c / M * M + M) - c / M * M ∧
      (∀ b, b < c / M → min C (b * M + M) - b * M = M) := by
  have h1 : c / M * M ≤ c := Nat.div_mul_le_self c M
  have h2 : c < c / M * M + M := Nat.lt_div_mul_add hM
  refine ⟨(lt_DivHi_iff _ _ _ hM).mpr (by omega), h1, ?_, ?_⟩
  · rw [Nat.min_def]
    split <;> omega
  · intro b hb
    have h3 : (b + 1) * M ≤ c / M * M := Nat.mul_le_mul_right M hb
    rw [Nat.add_mul, Nat.one_mul] at h3
    rw [Nat.min_def]
    split <;> omega

theorem SetOutputWeight_get (cvt : Nat → Nat) (a : AlgParam) (src : Nat → Nat)
    (p : ConvParam) (hmiC : 0 < a.miC) (hmaC : 0 < a.maC)
    (c d f i : Nat) (hc : c < DivHi (AlignHi p.srcC a.miK) 2)
    (hd : d < DivHi p.dstC (a.miC * 2)) (hf : f < a.miC * 2) (hi : i < 2) :
    (SetOutputWeight cvt a src p)[OutputWeightIndex a p c d f i]? =
      some (DenseCell cvt a src p c d f i) := by
  have hM := DivHi_two_pos a.maC hmaC
  obtain ⟨hb, hle, hin, hpre⟩ := block_of_pair _ _ c hM hc
  rw [SetOutputWeight_eq_blocks cvt a src p hmiC]
  have hidx : OutputWeightIndex a p c d f i =
      c / DivHi a.maC 2 * (DivHi p.dstC (a.miC * 2) * (DivHi a.maC 2 * (a.miC * 2 * 2))) +
        (((d * (min (DivHi (AlignHi p.srcC a.miK) 2)
            (c / DivHi a.maC 2 * DivHi a.maC 2 + DivHi a.maC 2) -
            c / DivHi a.maC 2 * DivHi a.maC 2) +
          (c - c / DivHi a.maC 2 * DivHi a.maC 2)) * (a.miC * 2) + f) * 2 + i) := by
    unfold OutputWeightIndex
    ring
  rw [hidx, getElem?_flatMap_range _ _ _ _ _ hb]
  · rw [nest4_get (fun d c' f i => DenseCell cvt a src p
        (c / DivHi a.maC 2 * DivHi a.maC 2 + c') d f i) _ _ _ _ d _ f i hd hin hf hi]
    congr 2
    omega
  · intro b' hb'
    rw [nest4_length, hpre b' hb']
  · rw [nest4_length]
    exact nest4_index_lt _ _ _ _ d _ f i hd hin hf hi

theorem SetOutputWeight_cover (cvt : Nat → Nat) (a : AlgParam) (src : Nat → Nat)
    (p : ConvParam) (hmiC : 0 < a.miC) (hmaC : 0 < a.maC)
    (n : Nat) (hn : n < (SetOutputWeight cvt a src p).length) :
    ∃ c d f i, c < DivHi (AlignHi p.srcC a.miK) 2 ∧ d < DivHi p.dstC (a.miC * 2) ∧
      f < a.miC * 2 ∧ i < 2 ∧ n = OutputWeightIndex a p c d f i := by
  have hM := DivHi_two_pos a.maC hmaC
  rw [SetOutputWeight_eq_blocks cvt a src p hmiC] at hn
  obtain ⟨b, r, hb, hr, hnr⟩ := decode_flatMap_range _
    (DivHi p.dstC (a.miC * 2) * (DivHi a.maC 2 * (a.miC * 2 * 2))) _
    (by
      intro b hb
      have h1 := (lt_DivHi_iff _ _ _ hM).mp hb
      rw [Nat.add_mul, Nat.one_mul] at h1
      rw [nest4_length, Nat.min_eq_right (by omega)]
      congr 2
      omega) n hn
  rw [nest4_length] at hr
  obtain ⟨d, c', f, i, hd, hc', hf, hi, hri⟩ := decode4 _ _ _ _ r hr
  have hmin : b * DivHi a.maC 2 + c' <
      min (DivHi (AlignHi p.srcC a.miK) 2) (b * DivHi a.maC 2 + DivHi a.maC 2) := by omega
  have hcC : b * DivHi a.maC 2 + c' < DivHi (AlignHi p.srcC a.miK) 2 :=
    Nat.lt_of_lt_of_le hmin (Nat.min_le_left _ _)
  have hcM : c' < DivHi a.maC 2 := by
    have := Nat.lt_of_lt_of_le hmin (Nat.min_le_right _ _)
    omega
  have hdiv : (b * DivHi a.maC 2 + c') / DivHi a.maC 2 = b := by
    rw [Nat.mul_comm, Nat.mul_add_div hM, Nat.div_eq_of_lt hcM, Nat.add_zero]
  refine ⟨b * DivHi a.maC 2 + c', d, f, i, hcC, hd, hf, hi, ?_⟩
  unfold OutputWeightIndex
  simp only [hdiv, Nat.add_sub_cancel_left]
  rw [hnr, hri]
  ring

/-- A round of the depthwise packer: `n` copied weights followed by `F - n` zeros. -/
theorem map_range_append_replicate (g : Nat → Nat) (n F : Nat) (h : n ≤ F) :
    (List.range n).map g ++ List.replicate (F - n) 0 =
      (List.range F).map (fun i => if i < n then g i else 0) := by
  apply List.ext_getElem?
  intro j
  rcases Nat.lt_or_ge j n with hj | hj
  · rw [List.getElem?_append_left (by simpa using hj), getElem?_map_range _ _ _ hj,
      getElem?_map_range _ _ _ (by omega), if_pos hj]
  · rw [List.getElem?_append_right (by simpa using hj), List.getElem?_replicate]
    simp only [List.length_map, List.length_range]
    rcases Nat.lt_or_ge j F with hF | hF
    · rw [if_pos (by omega), getElem?_map_range _ _ _ hF, if_neg (by omega)]
    · rw [if_neg (by omega), List.getElem?_eq_none (by simpa using hF)]

/-- In tiled mode `_weightD` is the three-level nest `[DivHi(D, F)][K][F]`: lane `i` of
tile `t` holds the weight of channel `t*F + i`, or 0 when that channel does not exist. -/
theorem SetDepthwiseWeight_eq_nest (a : AlgParam) (src : Nat → Nat) (p : ConvParam)
    (hmiC : 0 < a.miC) :
    SetDepthwiseWeight a src p =
      (List.range (DivHi p.dstC a.miC)).flatMap fun t =>
        (List.range (p.kernelY * p.kernelX)).flatMap fun k =>
          (List.range a.miC).map
            (fun i => if i < min a.miC (p.dstC - t * a.miC) then
              src (k * p.dstC + t * a.miC + i) else 0) := by
  unfold SetDepthwiseWeight
  rw [if_pos (by omega)]
  simp only [StepRange, List.flatMap_map]
  congr 1
  funext t
  congr 1
  funext k
  exact map_range_append_replicate _ _ _ (Nat.min_le_left _ _)

theorem SetDepthwiseWeight_length (a : AlgParam) (src : Nat → Nat) (p : ConvParam)
    (hmiC : 0 < a.miC) :
    (SetDepthwiseWeight a src p).length =
      DivHi p.dstC a.miC * (p.kernelY * p.kernelX * a.miC) := by
  rw [SetDepthwiseWeight_eq_nest a src p hmiC, nest3_length]

theorem SetDepthwiseWeight_get (a : AlgParam) (src : Nat → Nat) (p : ConvParam)
    (hmiC : 0 < a.miC) (t k i : Nat) (ht : t < DivHi p.dstC a.miC)
    (hk : k < p.kernelY * p.kernelX) (hi : i < a.miC) :
    (SetDepthwiseWeight a src p)[(t * (p.kernelY * p.kernelX) + k) * a.miC + i]? =
      some (if t * a.miC + i < p.dstC then src (k * p.dstC + t * a.miC + i) else 0) := by
  rw [SetDepthwiseWeight_eq_nest a src p hmiC, nest3_get _ _ _ _ t k i ht hk hi]
  congr 1
  by_cases h : t * a.miC + i < p.dstC
  · rw [if_pos h, if_pos (by rw [Nat.lt_min]; omega)]
  · rw [if_neg h, if_neg (by rw [Nat.lt_min]; omega)]

theorem dense_place_value (cvt : Nat → Nat) (a : AlgParam) (src : Nat → Nat) (p : ConvParam)
    (sc dc : Nat) (hsc : sc < p.srcC) (hdc : dc < p.dstC) :
    DenseCell cvt a src p (sc / 2) (dc / (a.miC * 2)) (dc % (a.miC * 2)) (sc % 2) =
      cvt (src (sc * p.dstC + dc)) := by
  have h1 : dc / (a.miC * 2) * (a.miC * 2) + dc % (a.miC * 2) = dc := by
    have := Nat.div_add_mod dc (a.miC * 2)
    rw [Nat.mul_comm] at this
    exact this
  have h2 : 2 * (sc / 2) + sc % 2 = sc := Nat.div_add_mod sc 2
  unfold DenseCell
  rw [h1, h2, if_pos ⟨hdc, hsc⟩, Nat.add_assoc, h1]

theorem dense_pad_value (cvt : Nat → Nat) (a : AlgParam) (src : Nat → Nat) (p : ConvParam)
    (c d f i : Nat) (h : p.dstC ≤ d * (a.miC * 2) + f ∨ p.srcC ≤ 2 * c + i) :
    DenseCell cvt a src p c d f i = 0 := by
  unfold DenseCell
  rw [if_neg (by omega)]

theorem dense_range_value (cvt : Nat → Nat) (a : AlgParam) (src : Nat → Nat) (p : ConvParam)
    (c d f i : Nat) (h1 : d * (a.miC * 2) + f < p.dstC) (h2 : 2 * c + i < p.srcC) :
    DenseCell cvt a src p c d f i = cvt (src ((2 * c + i) * p.dstC + d * (a.miC * 2) + f)) := by
  unfold DenseCell
  rw [if_pos ⟨h1, h2⟩]

/-! ## Weight packers: theorems -/

/-- C4: input-weight layout. In tiled mode with `F = 2*miC`, `C = AlignHi(srcC, miK)` for
an even power of two `miK` and `D = DivHi(dstC, F)`, `SetInputWeight` writes `C*D*F` cells
in the layout `[D][C/2][F][2]`: for `d < D`, `q < C/2`, `f < F`, `i < 2` with
`d*F + f < dstC` and `2q + i < srcC`, cell `((d*(C/2) + q)*F + f)*2 + i` is
`Float32ToBFloat16(src[(2q + i)*dstC + d*F + f])`. -/
theorem input_weight_layout (cvt : Nat → Nat) (a : AlgParam) (src : Nat → Nat)
    (p : ConvParam) (k : Nat) (hmiC : 0 < a.miC) (hk : 1 ≤ k) (hmiK : a.miK = 2 ^ k) :
    let F := 2 * a.miC
    let C := AlignHi p.srcC a.miK
    let D := DivHi p.dstC F
    (SetInputWeight cvt a src p).length = C * D * F ∧
    ∀ d q f i, d < D → q < C / 2 → f < F → i < 2 →
      d * F + f < p.dstC → 2 * q + i < p.srcC →
      (SetInputWeight cvt a src p)[((d * (C / 2) + q) * F + f) * 2 + i]? =
        some (cvt (src ((2 * q + i) * p.dstC + d * F + f))) := by
  intro F C D
  simp only [F, C, D, Nat.mul_comm 2 a.miC]
  have heven : AlignHi p.srcC a.miK % 2 = 0 := by
    rw [hmiK]
    exact AlignHi_pow2_even _ _ hk
  refine ⟨?_, ?_⟩
  · rw [SetInputWeight_length cvt a src p hmiC heven]
    have hC : AlignHi p.srcC a.miK = AlignHi p.srcC a.miK / 2 * 2 := by omega
    conv_rhs => rw [hC]
    ring
  · intro d q f i hd hq hf hi h1 h2
    have := SetInputWeight_get cvt a src p hmiC heven q d f i hq hd hf hi
    rw [dense_range_value cvt a src p q d f i h1 h2] at this
    exact this

/-- C4 (witness): the input stage `16 → 32` of the bottleneck chain with `miC = 8`,
`miK = 2` and ramp weights. -/
theorem input_weight_layout_witness :
    0 < (SynetMergedConvolution16bCdc.SetSize 8 2 4096 1048576
      (SynetMergedConvolution16b.create bottleneckDescriptor)).alg.miC ∧
    1 ≤ 1 ∧
    (SynetMergedConvolution16bCdc.SetSize 8 2 4096 1048576
      (SynetMergedConvolution16b.create bottleneckDescriptor)).alg.miK = 2 ^ 1 ∧
    (let a := (SynetMergedConvolution16bCdc.SetSize 8 2 4096 1048576
      (SynetMergedConvolution16b.create bottleneckDescriptor)).alg
    let p := bottleneckDescriptor.conv 0
    let F := 2 * a.miC
    let C := AlignHi p.srcC a.miK
    let D := DivHi p.dstC F
    (SetInputWeight UpperHalf a rampWeights p).length = C * D * F ∧
    ∀ d q f i, d < D → q < C / 2 → f < F → i < 2 →
      d * F + f < p.dstC → 2 * q + i < p.srcC →
      (SetInputWeight UpperHalf a rampWeights p)[((d * (C / 2) + q) * F + f) * 2 + i]? =
        some (UpperHalf (rampWeights ((2 * q + i) * p.dstC + d * F + f)))) :=
  ⟨by decide, by decide, by decide,
    input_weight_layout UpperHalf (SynetMergedConvolution16bCdc.SetSize 8 2 4096 1048576
      (SynetMergedConvolution16b.create bottleneckDescriptor)).alg rampWeights
      (bottleneckDescriptor.conv 0) 1 (by decide) (by decide) (by decide)⟩

/-- C7: depthwise-weight layout. In tiled mode with `F = miC`, `K = kernelY*kernelX` and
`D = dstC`, `SetDepthwiseWeight` writes `DivHi(D, F)*F*K` cells in the layout
`[DivHi(D, F)][K][F]`: for every channel `d < D` and tap `k < K`, cell
`((d / F)*K + k)*F + d % F` holds `src[k*D + d]` unchanged. -/
theorem depthwise_weight_layout (a : AlgParam) (src : Nat → Nat) (p : ConvParam)
    (hmiC : 0 < a.miC) :
    let F := a.miC
    let K := p.kernelY * p.kernelX
    let D := p.dstC
    (SetDepthwiseWeight a src p).length = DivHi D F * F * K ∧
    ∀ d k, d < D → k < K →
      (SetDepthwiseWeight a src p)[((d / F) * K + k) * F + d % F]? = some (src (k * D + d)) := by
  intro F K D
  simp only [F, K, D]
  refine ⟨?_, ?_⟩
  · rw [SetDepthwiseWeight_length a src p hmiC]
    ring
  · intro d k hd hk
    have hdm : d / a.miC * a.miC + d % a.miC = d := by
      have := Nat.div_add_mod d a.miC
      rw [Nat.mul_comm] at this
      exact this
    have ht : d / a.miC < DivHi p.dstC a.miC :=
      (lt_DivHi_iff _ _ _ hmiC).mpr (by have := Nat.div_mul_le_self d a.miC; omega)
    have := SetDepthwiseWeight_get a src p hmiC (d / a.miC) k (d % a.miC) ht hk
      (Nat.mod_lt _ hmiC)
    rw [if_pos (by omega), Nat.add_assoc, hdm] at this
    exact this

/-- C7 (witness): the depthwise 3×3 stage of the bottleneck chain with `miC = 8`. -/
theorem depthwise_weight_layout_witness :
    0 < (SynetMergedConvolution16bCdc.SetSize 8 2 4096 1048576
      (SynetMergedConvolution16b.create bottleneckDescriptor)).alg.miC ∧
    (let a := (SynetMergedConvolution16bCdc.SetSize 8 2 4096 1048576
      (SynetMergedConvolution16b.create bottleneckDescriptor)).alg
    let p := bottleneckDescriptor.conv 1
    let F := a.miC
    let K := p.kernelY * p.kernelX
    let D := p.dstC
    (SetDepthwiseWeight a rampWeights p).length = DivHi D F * F * K ∧
    ∀ d k, d < D → k < K →
      (SetDepthwiseWeight a rampWeights p)[((d / F) * K + k) * F + d % F]? =
        some (rampWeights (k * D + d))) :=
  ⟨by decide,
    depthwise_weight_layout (SynetMergedConvolution16bCdc.SetSize 8 2 4096 1048576
      (SynetMergedConvolution16b.create bottleneckDescriptor)).alg rampWeights
      (bottleneckDescriptor.conv 1) (by decide)⟩

theorem pair_unique (m a b a' b' : Nat) (hb : b < m) (hb' : b' < m)
    (h : a * m + b = a' * m + b') : a = a' ∧ b = b' := by
  have hm : 0 < m := by omega
  have h1 : (a * m + b) / m = a := by
    rw [Nat.mul_comm, Nat.mul_add_div hm, Nat.div_eq_of_lt hb, Nat.add_zero]
  have h2 : (a' * m + b') / m = a' := by
    rw [Nat.mul_comm, Nat.mul_add_div hm, Nat.div_eq_of_lt hb', Nat.add_zero]
  have ha : a = a' := by rw [← h1, ← h2, h]
  subst ha
  exact ⟨rfl, by omega⟩

/-- What follows for a dense packer `W` from the fact that cell `idx c d f i` holds
`DenseCell c d f i`: the placement `(sc, dc) ↦ idx (sc/2) (dc/F) (dc%F) (sc%2)` reads back
the converted weight, is injective on the in-range weights, hits a cell exactly when the
cell's logical coordinate is in range, and undoing the conversion gives the weights. -/
theorem dense_layout_round_trip (a : AlgParam) (p : ConvParam)
    (idx : Nat → Nat → Nat → Nat → Nat) (P : Nat)
    (W : (Nat → Nat) → (Nat → Nat) → List Nat) (hmiC : 0 < a.miC)
    (hP : ∀ sc, sc < p.srcC → sc / 2 < P)
    (hget : ∀ cvt src c d f i, c < P → d < DivHi p.dstC (a.miC * 2) → f < a.miC * 2 → i < 2 →
      (W cvt src)[idx c d f i]? = some (DenseCell cvt a src p c d f i)) :
    (∀ cvt src sc dc, sc < p.srcC → dc < p.dstC →
      (W cvt src)[idx (sc / 2) (dc / (a.miC * 2)) (dc % (a.miC * 2)) (sc % 2)]? =
        some (cvt (src (sc * p.dstC + dc)))) ∧
    (∀ sc dc sc' dc', sc < p.srcC → dc < p.dstC → sc' < p.srcC → dc' < p.dstC →
      idx (sc / 2) (dc / (a.miC * 2)) (dc % (a.miC * 2)) (sc % 2) =
        idx (sc' / 2) (dc' / (a.miC * 2)) (dc' % (a.miC * 2)) (sc' % 2) →
      sc = sc' ∧ dc = dc') ∧
    (∀ c d f i, c < P → d < DivHi p.dstC (a.miC * 2) → f < a.miC * 2 → i < 2 →
      ((∃ sc dc, sc < p.srcC ∧ dc < p.dstC ∧
          idx (sc / 2) (dc / (a.miC * 2)) (dc % (a.miC * 2)) (sc % 2) = idx c d f i) ↔
        (d * (a.miC * 2) + f < p.dstC ∧ 2 * c + i < p.srcC))) := by
  have hF : 0 < a.miC * 2 := by omega
  have hplace : ∀ cvt src sc dc, sc < p.srcC → dc < p.dstC →
      (W cvt src)[idx (sc / 2) (dc / (a.miC * 2)) (dc % (a.miC * 2)) (sc % 2)]? =
        some (cvt (src (sc * p.dstC + dc))) := by
    intro cvt src sc dc hsc hdc
    have hd : dc / (a.miC * 2) < DivHi p.dstC (a.miC * 2) :=
      (lt_DivHi_iff _ _ _ hF).mpr (by have := Nat.div_mul_le_self dc (a.miC * 2); omega)
    rw [hget cvt src _ _ _ _ (hP sc hsc) hd (Nat.mod_lt _ hF) (Nat.mod_lt _ (by decide)),
      dense_place_value cvt a src p sc dc hsc hdc]
  refine ⟨hplace, ?_, ?_⟩
  · intro sc dc sc' dc' hsc hdc hsc' hdc' heq
    have h1 := hplace id (fun j => j + 1) sc dc hsc hdc
    have h2 := hplace id (fun j => j + 1) sc' dc' hsc' hdc'
    rw [heq, h2] at h1
    simp only [id, Option.some.injEq] at h1
    have := pair_unique p.dstC sc' dc' sc dc hdc' hdc (by omega)
    exact ⟨this.1.symm, this.2.symm⟩
  · intro c d f i hc hd hf hi
    constructor
    · rintro ⟨sc, dc, hsc, hdc, heq⟩
      have h1 := hplace id (fun j => j + 1) sc dc hsc hdc
      have h2 := hget id (fun j => j + 1) c d f i hc hd hf hi
      rw [heq, h2] at h1
      simp only [id, Option.some.injEq] at h1
      by_contra hne
      have hpad := dense_pad_value id a (fun j => j + 1) p c d f i (by omega)
      rw [hpad] at h1
      omega
    · rintro ⟨h1, h2⟩
      refine ⟨2 * c + i, d * (a.miC * 2) + f, h2, h1, ?_⟩
      have e1 : (2 * c + i) / 2 = c := by omega
      have e2 : (2 * c + i) % 2 = i := by omega
      have e3 : (d * (a.miC * 2) + f) / (a.miC * 2) = d := by
        rw [Nat.mul_comm, Nat.mul_add_div hF, Nat.div_eq_of_lt hf, Nat.add_zero]
      have e4 : (d * (a.miC * 2) + f) % (a.miC * 2) = f := by
        rw [Nat.mul_comm, Nat.mul_add_mod, Nat.mod_eq_of_lt hf]
      rw [e1, e2, e3, e4]

theorem half_lt_of_even (sc srcC C : Nat) (hsc : sc < srcC) (hle : srcC ≤ C)
    (heven : C % 2 = 0) : sc / 2 < C / 2 := by
  omega

/-- C3: zero padding. In tiled mode (`miC > 0`, `miK` an even power of two, `maC > 0`)
every cell of `_weightI`, `_weightO` and `_weightD` has a logical coordinate, and every
cell whose coordinate is out of range (destination channel `>= dstC`, or, for the two
dense packers, source channel `>= srcC`) holds 0, for every `srcC`, `dstC` and kernel
size. -/
theorem packed_padding_zero (cvt : Nat → Nat) (a : AlgParam) (srcI srcD srcO : Nat → Nat)
    (pI pD pO : ConvParam) (k : Nat)
    (hmiC : 0 < a.miC) (hk : 1 ≤ k) (hmiK : a.miK = 2 ^ k) (hmaC : 0 < a.maC) :
    ((∀ n, n < (SetInputWeight cvt a srcI pI).length →
        ∃ c d f i, c < AlignHi pI.srcC a.miK / 2 ∧ d < DivHi pI.dstC (a.miC * 2) ∧
          f < a.miC * 2 ∧ i < 2 ∧ n = InputWeightIndex a pI c d f i) ∧
      (∀ c d f i, c < AlignHi pI.srcC a.miK / 2 → d < DivHi pI.dstC (a.miC * 2) →
        f < a.miC * 2 → i < 2 →
        (pI.dstC ≤ d * (a.miC * 2) + f ∨ pI.srcC ≤ 2 * c + i) →
        (SetInputWeight cvt a srcI pI)[InputWeightIndex a pI c d f i]? = some 0)) ∧
    ((∀ n, n < (SetOutputWeight cvt a srcO pO).length →
        ∃ c d f i, c < AlignHi pO.srcC a.miK / 2 ∧ d < DivHi pO.dstC (a.miC * 2) ∧
          f < a.miC * 2 ∧ i < 2 ∧ n = OutputWeightIndex a pO c d f i) ∧
      (∀ c d f i, c < AlignHi pO.srcC a.miK / 2 → d < DivHi pO.dstC (a.miC * 2) →
        f < a.miC * 2 → i < 2 →
        (pO.dstC ≤ d * (a.miC * 2) + f ∨ pO.srcC ≤ 2 * c + i) →
        (SetOutputWeight cvt a srcO pO)[OutputWeightIndex a pO c d f i]? = some 0)) ∧
    ((∀ n, n < (SetDepthwiseWeight a srcD pD).length →
        ∃ t j i, t < DivHi pD.dstC a.miC ∧ j < pD.kernelY * pD.kernelX ∧ i < a.miC ∧
          n = (t * (pD.kernelY * pD.kernelX) + j) * a.miC + i) ∧
      (∀ t j i, t < DivHi pD.dstC a.miC → j < pD.kernelY * pD.kernelX → i < a.miC →
        pD.dstC ≤ t * a.miC + i →
        (SetDepthwiseWeight a srcD pD)[(t * (pD.kernelY * pD.kernelX) + j) * a.miC + i]? =
          some 0)) := by
  have heven : ∀ n, AlignHi n a.miK % 2 = 0 := by
    intro n
    rw [hmiK]
    exact AlignHi_pow2_even _ _ hk
  refine ⟨⟨?_, ?_⟩, ⟨?_, ?_⟩, ⟨?_, ?_⟩⟩
  · intro n hn
    exact SetInputWeight_cover cvt a srcI pI hmiC (heven _) n hn
  · intro c d f i hc hd hf hi hpad
    rw [SetInputWeight_get cvt a srcI pI hmiC (heven _) c d f i hc hd hf hi,
      dense_pad_value cvt a srcI pI c d f i hpad]
  · intro n hn
    have := SetOutputWeight_cover cvt a srcO pO hmiC hmaC n hn
    rwa [DivHi_two_of_even _ (heven _)] at this
  · intro c d f i hc hd hf hi hpad
    rw [SetOutputWeight_get cvt a srcO pO hmiC hmaC c d f i
        (by rwa [DivHi_two_of_even _ (heven _)]) hd hf hi,
      dense_pad_value cvt a srcO pO c d f i hpad]
  · intro n hn
    rw [SetDepthwiseWeight_length a srcD pD hmiC] at hn
    exact decode3 _ _ _ n hn
  · intro t j i ht hj hi hpad
    rw [SetDepthwiseWeight_get a srcD pD hmiC t j i ht hj hi, if_neg (by omega)]

set_option maxRecDepth 100000 in
/-- C3 (witness): the three packers on the stages of `raggedDescriptor` (`3 → 21`, depthwise
`21`, `21 → 5`) with the tiling parameters `raggedAlg` (`miC = 8`, `miK = 2`, `maC = 16`)
and ramp weights, none of which is 0. `_weightI` has 128 cells for 63 weights: source
channel 3 and the destination channels 21 to 31 are padding, and 65 cells hold 0.
`_weightO` has 352 cells for 105 weights: source channel 21 and the destination channels
5 to 15 are padding, and 247 cells hold 0. `_weightD` has 216 cells for 189 weights: the
channels 21 to 23 are padding, and 27 cells hold 0. -/
theorem packed_padding_zero_witness :
    0 < raggedAlg.miC ∧ 1 ≤ 1 ∧ raggedAlg.miK = 2 ^ 1 ∧ 0 < raggedAlg.maC ∧
    ((1 < AlignHi (raggedDescriptor.conv 0).srcC raggedAlg.miK / 2 ∧
        (raggedDescriptor.conv 0).srcC ≤ 2 * 1 + 1 ∧
        1 < DivHi (raggedDescriptor.conv 0).dstC (raggedAlg.miC * 2) ∧
        (raggedDescriptor.conv 0).dstC ≤ 1 * (raggedAlg.miC * 2) + 5) ∧
      (SetInputWeight UpperHalf raggedAlg rampWeights (raggedDescriptor.conv 0)).length =
        128 ∧
      (SetInputWeight UpperHalf raggedAlg rampWeights (raggedDescriptor.conv 0)).count 0 =
        128 - 3 * 21) ∧
    ((10 < AlignHi (raggedDescriptor.conv 2).srcC raggedAlg.miK / 2 ∧
        (raggedDescriptor.conv 2).srcC ≤ 2 * 10 + 1 ∧
        0 < DivHi (raggedDescriptor.conv 2).dstC (raggedAlg.miC * 2) ∧
        (raggedDescriptor.conv 2).dstC ≤ 0 * (raggedAlg.miC * 2) + 5) ∧
      (SetOutputWeight UpperHalf raggedAlg rampWeights (raggedDescriptor.conv 2)).length =
        352 ∧
      (SetOutputWeight UpperHalf raggedAlg rampWeights (raggedDescriptor.conv 2)).count 0 =
        352 - 21 * 5) ∧
    ((2 < DivHi (raggedDescriptor.conv 1).dstC raggedAlg.miC ∧
        (raggedDescriptor.conv 1).dstC ≤ 2 * raggedAlg.miC + 5) ∧
      (SetDepthwiseWeight raggedAlg rampWeights (raggedDescriptor.conv 1)).length = 216 ∧
      (SetDepthwiseWeight raggedAlg rampWeights (raggedDescriptor.conv 1)).count 0 =
        216 - 9 * 21) ∧
    (((∀ n, n < (SetInputWeight UpperHalf raggedAlg rampWeights
          (raggedDescriptor.conv 0)).length →
        ∃ c d f i, c < AlignHi (raggedDescriptor.conv 0).srcC raggedAlg.miK / 2 ∧
          d < DivHi (raggedDescriptor.conv 0).dstC (raggedAlg.miC * 2) ∧
          f < raggedAlg.miC * 2 ∧ i < 2 ∧
          n = InputWeightIndex raggedAlg (raggedDescriptor.conv 0) c d f i) ∧
      (∀ c d f i, c < AlignHi (raggedDescriptor.conv 0).srcC raggedAlg.miK / 2 →
        d < DivHi (raggedDescriptor.conv 0).dstC (raggedAlg.miC * 2) →
        f < raggedAlg.miC * 2 → i < 2 →
        ((raggedDescriptor.conv 0).dstC ≤ d * (raggedAlg.miC * 2) + f ∨
          (raggedDescriptor.conv 0).srcC ≤ 2 * c + i) →
        (SetInputWeight UpperHalf raggedAlg rampWeights (raggedDescriptor.conv 0))[
          InputWeightIndex raggedAlg (raggedDescriptor.conv 0) c d f i]? = some 0)) ∧
    ((∀ n, n < (SetOutputWeight UpperHalf raggedAlg rampWeights
          (raggedDescriptor.conv 2)).length →
        ∃ c d f i, c < AlignHi (raggedDescriptor.conv 2).srcC raggedAlg.miK / 2 ∧
          d < DivHi (raggedDescriptor.conv 2).dstC (raggedAlg.miC * 2) ∧
          f < raggedAlg.miC * 2 ∧ i < 2 ∧
          n = OutputWeightIndex raggedAlg (raggedDescriptor.conv 2) c d f i) ∧
      (∀ c d f i, c < AlignHi (raggedDescriptor.conv 2).srcC raggedAlg.miK / 2 →
        d < DivHi (raggedDescriptor.conv 2).dstC (raggedAlg.miC * 2) →
        f < raggedAlg.miC * 2 → i < 2 →
        ((raggedDescriptor.conv 2).dstC ≤ d * (raggedAlg.miC * 2) + f ∨
          (raggedDescriptor.conv 2).srcC ≤ 2 * c + i) →
        (SetOutputWeight UpperHalf raggedAlg rampWeights (raggedDescriptor.conv 2))[
          OutputWeightIndex raggedAlg (raggedDescriptor.conv 2) c d f i]? = some 0)) ∧
    ((∀ n, n < (SetDepthwiseWeight raggedAlg rampWeights
          (raggedDescriptor.conv 1)).length →
        ∃ t j i, t < DivHi (raggedDescriptor.conv 1).dstC raggedAlg.miC ∧
          j < (raggedDescriptor.conv 1).kernelY * (raggedDescriptor.conv 1).kernelX ∧
          i < raggedAlg.miC ∧
          n = (t * ((raggedDescriptor.conv 1).kernelY *
            (raggedDescriptor.conv 1).kernelX) + j) * raggedAlg.miC + i) ∧
      (∀ t j i, t < DivHi (raggedDescriptor.conv 1).dstC raggedAlg.miC →
        j < (raggedDescriptor.conv 1).kernelY * (raggedDescriptor.conv 1).kernelX →
        i < raggedAlg.miC →
        (raggedDescriptor.conv 1).dstC ≤ t * raggedAlg.miC + i →
        (SetDepthwiseWeight raggedAlg rampWeights (raggedDescriptor.conv 1))[
          (t * ((raggedDescriptor.conv 1).kernelY *
            (raggedDescriptor.conv 1).kernelX) + j) * raggedAlg.miC + i]? =
          some 0))) :=
  ⟨by decide, by decide, by decide, by decide,
    ⟨by decide, by decide, by decide⟩, ⟨by decide, by decide, by decide⟩,
    ⟨by decide, by decide, by decide⟩,
    packed_padding_zero UpperHalf raggedAlg rampWeights rampWeights rampWeights
      (raggedDescriptor.conv 0) (raggedDescriptor.conv 1)
      (raggedDescriptor.conv 2) 1 (by decide) (by decide) (by decide) (by decide)⟩

/-- C5 (as amended): output-weight layout. In tiled mode, for every `maC > 0`, with
`F = 2*miC`, `P = AlignHi(srcC, miK)/2`, `D = DivHi(dstC, F)` and `M = DivHi(maC, 2)`,
`SetOutputWeight` lays the source-channel pairs out in macro blocks of `M` pairs: for every
in-range `(d, q, f, i)`, with `cB = q / M * M` the first pair of the block of `q` and
`n = min(P, cB + M) - cB` the number of pairs in that block, cell
`cB*(D*F*2) + ((d*n + (q - cB))*F + f)*2 + i` is
`Float32ToBFloat16(src[(2q + i)*dstC + d*F + f])`. When `P <= M` there is one block and
this is the layout `[D][P][F][2]` of the input role. -/
theorem output_weight_layout (cvt : Nat → Nat) (a : AlgParam) (src : Nat → Nat)
    (p : ConvParam) (k : Nat)
    (hmiC : 0 < a.miC) (hk : 1 ≤ k) (hmiK : a.miK = 2 ^ k) (hmaC : 0 < a.maC) :
    let F := 2 * a.miC
    let P := AlignHi p.srcC a.miK / 2
    let D := DivHi p.dstC F
    let M := DivHi a.maC 2
    (∀ d q f i, d < D → q < P → f < F → i < 2 → d * F + f < p.dstC → 2 * q + i < p.srcC →
      (SetOutputWeight cvt a src p)[q / M * M * (D * F * 2) +
          ((d * (min P (q / M * M + M) - q / M * M) + (q - q / M * M)) * F + f) * 2 + i]? =
        some (cvt (src ((2 * q + i) * p.dstC + d * F + f)))) ∧
    (P ≤ M →
      ∀ d q f i, d < D → q < P → f < F → i < 2 → d * F + f < p.dstC → 2 * q + i < p.srcC →
        (SetOutputWeight cvt a src p)[((d * P + q) * F + f) * 2 + i]? =
          some (cvt (src ((2 * q + i) * p.dstC + d * F + f)))) := by
  intro F P D M
  simp only [F, P, D, M, Nat.mul_comm 2 a.miC]
  have heven : AlignHi p.srcC a.miK % 2 = 0 := by
    rw [hmiK]
    exact AlignHi_pow2_even _ _ hk
  have hmain : ∀ d q f i, d < DivHi p.dstC (a.miC * 2) → q < AlignHi p.srcC a.miK / 2 →
      f < a.miC * 2 → i < 2 → d * (a.miC * 2) + f < p.dstC → 2 * q + i < p.srcC →
      (SetOutputWeight cvt a src p)[q / DivHi a.maC 2 * DivHi a.maC 2 *
          (DivHi p.dstC (a.miC * 2) * (a.miC * 2) * 2) +
          ((d * (min (AlignHi p.srcC a.miK / 2)
              (q / DivHi a.maC 2 * DivHi a.maC 2 + DivHi a.maC 2) -
              q / DivHi a.maC 2 * DivHi a.maC 2) +
            (q - q / DivHi a.maC 2 * DivHi a.maC 2)) * (a.miC * 2) + f) * 2 + i]? =
        some (cvt (src ((2 * q + i) * p.dstC + d * (a.miC * 2) + f))) := by
    intro d q f i hd hq hf hi h1 h2
    have := SetOutputWeight_get cvt a src p hmiC hmaC q d f i
      (by rwa [DivHi_two_of_even _ heven]) hd hf hi
    rw [dense_range_value cvt a src p q d f i h1 h2] at this
    unfold OutputWeightIndex at this
    rw [DivHi_two_of_even _ heven] at this
    exact this
  refine ⟨hmain, ?_⟩
  intro hPM d q f i hd hq hf hi h1 h2
  have := hmain d q f i hd hq hf hi h1 h2
  have hq0 : q / DivHi a.maC 2 = 0 := Nat.div_eq_of_lt (by omega)
  rw [hq0, Nat.zero_mul, Nat.zero_mul, Nat.zero_add, Nat.zero_add, Nat.sub_zero, Nat.sub_zero,
    Nat.min_eq_left hPM] at this
  exact this

/-- C5 (witness): the output stage `32 → 32` of `squareTailDescriptor` with the tiling
parameters `squareTailAlg` and ramp weights. -/
theorem output_weight_layout_witness :
    0 < squareTailAlg.miC ∧ 1 ≤ 1 ∧ squareTailAlg.miK = 2 ^ 1 ∧ 0 < squareTailAlg.maC ∧
    (let a := squareTailAlg
    let p := squareTailDescriptor.conv 2
    let F := 2 * a.miC
    let P := AlignHi p.srcC a.miK / 2
    let D := DivHi p.dstC F
    let M := DivHi a.maC 2
    (∀ d q f i, d < D → q < P → f < F → i < 2 → d * F + f < p.dstC → 2 * q + i < p.srcC →
      (SetOutputWeight UpperHalf a rampWeights p)[q / M * M * (D * F * 2) +
          ((d * (min P (q / M * M + M) - q / M * M) + (q - q / M * M)) * F + f) * 2 + i]? =
        some (UpperHalf (rampWeights ((2 * q + i) * p.dstC + d * F + f)))) ∧
    (P ≤ M →
      ∀ d q f i, d < D → q < P → f < F → i < 2 → d * F + f < p.dstC → 2 * q + i < p.srcC →
        (SetOutputWeight UpperHalf a rampWeights p)[((d * P + q) * F + f) * 2 + i]? =
          some (UpperHalf (rampWeights ((2 * q + i) * p.dstC + d * F + f))))) :=
  ⟨by decide, by decide, by decide, by decide,
    output_weight_layout UpperHalf squareTailAlg rampWeights (squareTailDescriptor.conv 2) 1
      (by decide) (by decide) (by decide) (by decide)⟩

set_option maxRecDepth 100000 in
/-- C5 (counterexample): for the output stage `32 → 32` with `miC = 8`, `miK = 2` and
`maC = 16` (so `F = 16`, `P = 16`, `D = 2`, `M = 8`) and ramp weights, the in-range cell
`(d, q, f, i) = (0, 8, 0, 0)` of the layout `[D][P][F][2]` is cell 256; it holds the
weight `src[16]` of `(sc, dc) = (0, 16)`, not `src[(2*8 + 0)*32 + 0] = src[512]`. -/
theorem output_weight_layout_blocked :
    0 < squareTailAlg.miC ∧ squareTailAlg.miK = 2 ∧ squareTailAlg.maC = 16 ∧
    ((0 * (AlignHi (squareTailDescriptor.conv 2).srcC squareTailAlg.miK / 2) + 8) *
      (2 * squareTailAlg.miC) + 0) * 2 + 0 = 256 ∧
    0 < DivHi (squareTailDescriptor.conv 2).dstC (2 * squareTailAlg.miC) ∧
    8 < AlignHi (squareTailDescriptor.conv 2).srcC squareTailAlg.miK / 2 ∧
    0 * (2 * squareTailAlg.miC) + 0 < (squareTailDescriptor.conv 2).dstC ∧
    2 * 8 + 0 < (squareTailDescriptor.conv 2).srcC ∧
    (SetOutputWeight UpperHalf squareTailAlg rampWeights (squareTailDescriptor.conv 2))[256]? =
      some (UpperHalf (rampWeights 16)) ∧
    ¬ ((SetOutputWeight UpperHalf squareTailAlg rampWeights (squareTailDescriptor.conv 2))[
        ((0 * (AlignHi (squareTailDescriptor.conv 2).srcC squareTailAlg.miK / 2) + 8) *
          (2 * squareTailAlg.miC) + 0) * 2 + 0]? =
      some (UpperHalf (rampWeights ((2 * 8 + 0) * (squareTailDescriptor.conv 2).dstC +
        0 * (2 * squareTailAlg.miC) + 0)))) := by
  decide

/-- C6: round trip of dense packing. In tiled mode, for every `srcC`, `dstC` and
`maC > 0`, for `SetInputWeight` and for `SetOutputWeight`: the cell at the placement of an
in-range weight `(sc, dc)` holds its conversion; the placement map is injective on the
in-range weights; every cell of the buffer has a logical coordinate and is in the image of
the placement map exactly when that coordinate is in range (the non-padding cells); and
if converting back (`unc`) undoes the conversion of the weights, reading the buffer
through the placement map gives back `src[sc*dstC + dc]`. -/
theorem dense_packing_round_trip (cvt unc : Nat → Nat) (a : AlgParam) (src : Nat → Nat)
    (p : ConvParam) (k : Nat)
    (hmiC : 0 < a.miC) (hk : 1 ≤ k) (hmiK : a.miK = 2 ^ k) (hmaC : 0 < a.maC)
    (hrep : ∀ sc dc, sc < p.srcC → dc < p.dstC →
      unc (cvt (src (sc * p.dstC + dc))) = src (sc * p.dstC + dc)) :
    ((∀ sc dc, sc < p.srcC → dc < p.dstC →
        (SetInputWeight cvt a src p)[InputWeightPlace a p sc dc]? =
          some (cvt (src (sc * p.dstC + dc)))) ∧
      (∀ sc dc sc' dc', sc < p.srcC → dc < p.dstC → sc' < p.srcC → dc' < p.dstC →
        InputWeightPlace a p sc dc = InputWeightPlace a p sc' dc' → sc = sc' ∧ dc = dc') ∧
      (∀ n, n < (SetInputWeight cvt a src p).length →
        ∃ c d f i, c < AlignHi p.srcC a.miK / 2 ∧ d < DivHi p.dstC (a.miC * 2) ∧
          f < a.miC * 2 ∧ i < 2 ∧ n = InputWeightIndex a p c d f i) ∧
      (∀ c d f i, c < AlignHi p.srcC a.miK / 2 → d < DivHi p.dstC (a.miC * 2) →
        f < a.miC * 2 → i < 2 →
        ((∃ sc dc, sc < p.srcC ∧ dc < p.dstC ∧
            InputWeightPlace a p sc dc = InputWeightIndex a p c d f i) ↔
          (d * (a.miC * 2) + f < p.dstC ∧ 2 * c + i < p.srcC))) ∧
      (∀ sc dc, sc < p.srcC → dc < p.dstC →
        ((SetInputWeight cvt a src p)[InputWeightPlace a p sc dc]?).map unc =
          some (src (sc * p.dstC + dc)))) ∧
    ((∀ sc dc, sc < p.srcC → dc < p.dstC →
        (SetOutputWeight cvt a src p)[OutputWeightPlace a p sc dc]? =
          some (cvt (src (sc * p.dstC + dc)))) ∧
      (∀ sc dc sc' dc', sc < p.srcC → dc < p.dstC → sc' < p.srcC → dc' < p.dstC →
        OutputWeightPlace a p sc dc = OutputWeightPlace a p sc' dc' → sc = sc' ∧ dc = dc') ∧
      (∀ n, n < (SetOutputWeight cvt a src p).length →
        ∃ c d f i, c < AlignHi p.srcC a.miK / 2 ∧ d < DivHi p.dstC (a.miC * 2) ∧
          f < a.miC * 2 ∧ i < 2 ∧ n = OutputWeightIndex a p c d f i) ∧
      (∀ c d f i, c < AlignHi p.srcC a.miK / 2 → d < DivHi p.dstC (a.miC * 2) →
        f < a.miC * 2 → i < 2 →
        ((∃ sc dc, sc < p.srcC ∧ dc < p.dstC ∧
            OutputWeightPlace a p sc dc = OutputWeightIndex a p c d f i) ↔
          (d * (a.miC * 2) + f < p.dstC ∧ 2 * c + i < p.srcC))) ∧
      (∀ sc dc, sc < p.srcC → dc < p.dstC →
        ((SetOutputWeight cvt a src p)[OutputWeightPlace a p sc dc]?).map unc =
          some (src (sc * p.dstC + dc)))) := by
  have heven : AlignHi p.srcC a.miK % 2 = 0 := by
    rw [hmiK]
    exact AlignHi_pow2_even _ _ hk
  have hle : p.srcC ≤ AlignHi p.srcC a.miK := by
    rw [hmiK]
    exact AlignHi_pow2_ge _ _
  have hP : ∀ sc, sc < p.srcC → sc / 2 < AlignHi p.srcC a.miK / 2 :=
    fun sc hsc => half_lt_of_even sc _ _ hsc hle heven
  obtain ⟨i1, i2, i3⟩ := dense_layout_round_trip a p (InputWeightIndex a p)
    (AlignHi p.srcC a.miK / 2) (fun cvt src => SetInputWeight cvt a src p) hmiC hP
    (fun cvt src c d f i hc hd hf hi =>
      SetInputWeight_get cvt a src p hmiC heven c d f i hc hd hf hi)
  obtain ⟨o1, o2, o3⟩ := dense_layout_round_trip a p (OutputWeightIndex a p)
    (AlignHi p.srcC a.miK / 2) (fun cvt src => SetOutputWeight cvt a src p) hmiC hP
    (fun cvt src c d f i hc hd hf hi =>
      SetOutputWeight_get cvt a src p hmiC hmaC c d f i
        (by rwa [DivHi_two_of_even _ heven]) hd hf hi)
  refine ⟨⟨i1 cvt src, i2, ?_, i3, ?_⟩, ⟨o1 cvt src, o2, ?_, o3, ?_⟩⟩
  · intro n hn
    exact SetInputWeight_cover cvt a src p hmiC heven n hn
  · intro sc dc hsc hdc
    have h := i1 cvt src sc dc hsc hdc
    show Option.map unc (SetInputWeight cvt a src p)[InputWeightIndex a p (sc / 2)
      (dc / (a.miC * 2)) (dc % (a.miC * 2)) (sc % 2)]? = _
    rw [h, Option.map_some', hrep sc dc hsc hdc]
  · intro n hn
    have := SetOutputWeight_cover cvt a src p hmiC hmaC n hn
    rwa [DivHi_two_of_even _ heven] at this
  · intro sc dc hsc hdc
    have h := o1 cvt src sc dc hsc hdc
    show Option.map unc (SetOutputWeight cvt a src p)[OutputWeightIndex a p (sc / 2)
      (dc / (a.miC * 2)) (dc % (a.miC * 2)) (sc % 2)]? = _
    rw [h, Option.map_some', hrep sc dc hsc hdc]

/-- Shifting a bfloat16 pattern into the upper half of a 32-bit pattern
(`BFloat16ToFloat32` on bit patterns) undoes `UpperHalf` on the ramp weights. -/
theorem ramp_round_trip (j : Nat) : UpperHalf (rampWeights j) * 65536 = rampWeights j := by
  unfold UpperHalf rampWeights
  rw [Nat.mul_div_cancel _ (by decide : 0 < 65536)]

/-- C6 (witness): the stage `32 → 32` of `squareTailDescriptor` packed by both dense
packers with the tiling parameters `squareTailAlg`; the ramp weights have zero lower halves,
so shifting the stored pattern back up by 16 bits undoes the conversion. -/
theorem dense_packing_round_trip_witness :
    0 < squareTailAlg.miC ∧ 1 ≤ 1 ∧ squareTailAlg.miK = 2 ^ 1 ∧ 0 < squareTailAlg.maC ∧
    (∀ sc dc, sc < (squareTailDescriptor.conv 2).srcC → dc < (squareTailDescriptor.conv 2).dstC →
      (fun h => h * 65536) (UpperHalf (rampWeights (sc * (squareTailDescriptor.conv 2).dstC + dc))) =
        rampWeights (sc * (squareTailDescriptor.conv 2).dstC + dc)) ∧
    (((∀ sc dc, sc < (squareTailDescriptor.conv 2).srcC →
        dc < (squareTailDescriptor.conv 2).dstC →
        (SetInputWeight UpperHalf squareTailAlg rampWeights (squareTailDescriptor.conv 2))[
          InputWeightPlace squareTailAlg (squareTailDescriptor.conv 2) sc dc]? =
          some (UpperHalf (rampWeights (sc * (squareTailDescriptor.conv 2).dstC + dc)))) ∧
      (∀ sc dc sc' dc', sc < (squareTailDescriptor.conv 2).srcC →
        dc < (squareTailDescriptor.conv 2).dstC → sc' < (squareTailDescriptor.conv 2).srcC →
        dc' < (squareTailDescriptor.conv 2).dstC →
        InputWeightPlace squareTailAlg (squareTailDescriptor.conv 2) sc dc =
          InputWeightPlace squareTailAlg (squareTailDescriptor.conv 2) sc' dc' →
        sc = sc' ∧ dc = dc') ∧
      (∀ n, n < (SetInputWeight UpperHalf squareTailAlg rampWeights
          (squareTailDescriptor.conv 2)).length →
        ∃ c d f i, c < AlignHi (squareTailDescriptor.conv 2).srcC squareTailAlg.miK / 2 ∧
          d < DivHi (squareTailDescriptor.conv 2).dstC (squareTailAlg.miC * 2) ∧
          f < squareTailAlg.miC * 2 ∧ i < 2 ∧
          n = InputWeightIndex squareTailAlg (squareTailDescriptor.conv 2) c d f i) ∧
      (∀ c d f i, c < AlignHi (squareTailDescriptor.conv 2).srcC squareTailAlg.miK / 2 →
        d < DivHi (squareTailDescriptor.conv 2).dstC (squareTailAlg.miC * 2) →
        f < squareTailAlg.miC * 2 → i < 2 →
        ((∃ sc dc, sc < (squareTailDescriptor.conv 2).srcC ∧
            dc < (squareTailDescriptor.conv 2).dstC ∧
            InputWeightPlace squareTailAlg (squareTailDescriptor.conv 2) sc dc =
              InputWeightIndex squareTailAlg (squareTailDescriptor.conv 2) c d f i) ↔
          (d * (squareTailAlg.miC * 2) + f < (squareTailDescriptor.conv 2).dstC ∧
            2 * c + i < (squareTailDescriptor.conv 2).srcC))) ∧
      (∀ sc dc, sc < (squareTailDescriptor.conv 2).srcC →
        dc < (squareTailDescriptor.conv 2).dstC →
        ((SetInputWeight UpperHalf squareTailAlg rampWeights (squareTailDescriptor.conv 2))[
          InputWeightPlace squareTailAlg (squareTailDescriptor.conv 2) sc dc]?).map
            (fun h => h * 65536) =
          some (rampWeights (sc * (squareTailDescriptor.conv 2).dstC + dc)))) ∧
    ((∀ sc dc, sc < (squareTailDescriptor.conv 2).srcC →
        dc < (squareTailDescriptor.conv 2).dstC →
        (SetOutputWeight UpperHalf squareTailAlg rampWeights (squareTailDescriptor.conv 2))[
          OutputWeightPlace squareTailAlg (squareTailDescriptor.conv 2) sc dc]? =
          some (UpperHalf (rampWeights (sc * (squareTailDescriptor.conv 2).dstC + dc)))) ∧
      (∀ sc dc sc' dc', sc < (squareTailDescriptor.conv 2).srcC →
        dc < (squareTailDescriptor.conv 2).dstC → sc' < (squareTailDescriptor.conv 2).srcC →
        dc' < (squareTailDescriptor.conv 2).dstC →
        OutputWeightPlace squareTailAlg (squareTailDescriptor.conv 2) sc dc =
          OutputWeightPlace squareTailAlg (squareTailDescriptor.conv 2) sc' dc' →
        sc = sc' ∧ dc = dc') ∧
      (∀ n, n < (SetOutputWeight UpperHalf squareTailAlg rampWeights
          (squareTailDescriptor.conv 2)).length →
        ∃ c d f i, c < AlignHi (squareTailDescriptor.conv 2).srcC squareTailAlg.miK / 2 ∧
          d < DivHi (squareTailDescriptor.conv 2).dstC (squareTailAlg.miC * 2) ∧
          f < squareTailAlg.miC * 2 ∧ i < 2 ∧
          n = OutputWeightIndex squareTailAlg (squareTailDescriptor.conv 2) c d f i) ∧
      (∀ c d f i, c < AlignHi (squareTailDescriptor.conv 2).srcC squareTailAlg.miK / 2 →
        d < DivHi (squareTailDescriptor.conv 2).dstC (squareTailAlg.miC * 2) →
        f < squareTailAlg.miC * 2 → i < 2 →
        ((∃ sc dc, sc < (squareTailDescriptor.conv 2).srcC ∧
            dc < (squareTailDescriptor.conv 2).dstC ∧
            OutputWeightPlace squareTailAlg (squareTailDescriptor.conv 2) sc dc =
              OutputWeightIndex squareTailAlg (squareTailDescriptor.conv 2) c d f i) ↔
          (d * (squareTailAlg.miC * 2) + f < (squareTailDescriptor.conv 2).dstC ∧
            2 * c + i < (squareTailDescriptor.conv 2).srcC))) ∧
      (∀ sc dc, sc < (squareTailDescriptor.conv 2).srcC →
        dc < (squareTailDescriptor.conv 2).dstC →
        ((SetOutputWeight UpperHalf squareTailAlg rampWeights (squareTailDescriptor.conv 2))[
          OutputWeightPlace squareTailAlg (squareTailDescriptor.conv 2) sc dc]?).map
            (fun h => h * 65536) =
          some (rampWeights (sc * (squareTailDescriptor.conv 2).dstC + dc))))) :=
  ⟨by decide, by decide, by decide, by decide,
    fun sc dc _ _ => ramp_round_trip _,
    dense_packing_round_trip UpperHalf (fun h => h * 65536) squareTailAlg rampWeights
      (squareTailDescriptor.conv 2) 1 (by decide) (by decide) (by decide) (by decide)
      (fun sc dc _ _ => ramp_round_trip _)⟩

/-- C10 (witness): the three engines on the bottleneck chain with `miC = 2^3`,
`miK = 2^1`, a 4 KiB L2 and a 1 MiB L3. -/
theorem setsize_maC_multiple_witness :
    1 ≤ 1 ∧ 2 ≤ 1048576 ∧
    (let s := SynetMergedConvolution16b.create bottleneckDescriptor
    let miC := 2 ^ 3
    let miK := 2 ^ 1
    let bytes : ConvParam → Nat := fun c =>
      if c.group = 1 then AlignHi c.srcC miK * AlignHi c.dstC (2 * miC) * 2
      else c.kernelY * c.kernelX * c.srcC * 4
    let count3 := (bytes (s.param.conv 0) + bytes (s.param.conv 1) + bytes (s.param.conv 2)) /
      (1048576 / 2) + 1
    let count2 := (bytes (s.param.conv 0) + bytes (s.param.conv 1)) / (1048576 / 2) + 1
    (SynetMergedConvolution16bCdc.SetSize miC miK 4096 1048576 s).alg.maC =
        AlignHi (AlignHi ((s.param.conv 0).srcC / count3) (2 * miC)) miK ∧
    (SynetMergedConvolution16bCd.SetSize miC miK 4096 1048576 s).alg.maC =
        AlignHiAny ((s.param.conv 0).dstC / count2) (2 * miC) ∧
    (SynetMergedConvolution16bDc.SetSize miC miK 4096 1048576 s).alg.maC =
        AlignHi (AlignHi ((s.param.conv 0).srcC / count2) (2 * miC)) miK ∧
    2 * miC ∣ (SynetMergedConvolution16bCdc.SetSize miC miK 4096 1048576 s).alg.maC ∧
    miK ∣ (SynetMergedConvolution16bCdc.SetSize miC miK 4096 1048576 s).alg.maC ∧
    2 * miC ∣ (SynetMergedConvolution16bCd.SetSize miC miK 4096 1048576 s).alg.maC ∧
    2 * miC ∣ (SynetMergedConvolution16bDc.SetSize miC miK 4096 1048576 s).alg.maC ∧
    miK ∣ (SynetMergedConvolution16bDc.SetSize miC miK 4096 1048576 s).alg.maC) :=
  ⟨by decide, by decide,
    setsize_maC_multiple 3 1 4096 1048576
      (SynetMergedConvolution16b.create bottleneckDescriptor) (by decide) (by decide)⟩

/-! ## Scratch buffer: lemmas and theorems -/

/-- C11 (failing input): the Cdc engine of the chain `6 → 12 → 12 → 6` on a 7×7 image
after `SetSize(16, 2)` (1 MiB L2, 2 MiB L3), with `SIMD_ALIGN = 64`. `_sizeB` is
`(336, 3584, 1792)` and `ExternalBufferSize()` is 18656, but `buf2` is carved at offset
15104 and its `2*1792` bytes end at 18688, past the end of the buffer: the 672 bytes of
`buf0` are rounded up to 704 by `Allocate`, which `ExternalBufferSize` does not count.
The Cd engine of the first two stages overruns in the same way (`buf1` ends at 15104,
the buffer at 15072). -/
theorem forward_region_exceeds_buffer :
    narrowCdc.alg.miC = 16 ∧
    [narrowCdc.sizeB0, narrowCdc.sizeB1, narrowCdc.sizeB2] = [336, 3584, 1792] ∧
    narrowCdc.ExternalBufferSize 64 = 18656 ∧
    SynetMergedConvolution16bCdc.Buffers 64 narrowCdc = (0, 768, 15104) ∧
    ¬ ((SynetMergedConvolution16bCdc.Buffers 64 narrowCdc).2.2 + narrowCdc.sizeB2 * 2 ≤
        narrowCdc.ExternalBufferSize 64) ∧
    narrowCd.ExternalBufferSize 64 = 15072 ∧
    SynetMergedConvolution16bCd.Buffers 64 narrowCd = (0, 768) ∧
    ¬ ((SynetMergedConvolution16bCd.Buffers 64 narrowCd).2 + narrowCd.sizeB1 * 4 ≤
        narrowCd.ExternalBufferSize 64) := by
  decide

/-- C12: in tiled mode (`miC > 0`), after Cdc `SetSize` on a descriptor whose depthwise stage
has an output row (`conv[1].dstH >= 1`, which the output-size formula of a convolution
stage gives for every image), `ExternalBufferSize()` is
`2*_sizeB[0] + 4*_sizeB[1] + 2*_sizeB[2] + SIMD_ALIGN` with
`_sizeB[0] = bufH[0]*conv[0].srcW*AlignHi(conv[0].srcC, miK)`,
`_sizeB[1] = bufH[1]*conv[1].srcW*maC` and `_sizeB[2] = bufH[2]*conv[1].dstW*maC`: the
footprint tested against L2 by the row-window search plus `SIMD_ALIGN`. -/
theorem cdc_external_buffer_size (align miC miK L2 L3 : Nat)
    (s : SynetMergedConvolution16b) (hmiC : 0 < miC) (hH : 1 ≤ (s.param.conv 1).dstH) :
    (SynetMergedConvolution16bCdc.SetSize miC miK L2 L3 s).ExternalBufferSize align =
      2 * (SynetMergedConvolution16bCdc.SetSize miC miK L2 L3 s).sizeB0 +
      4 * (SynetMergedConvolution16bCdc.SetSize miC miK L2 L3 s).sizeB1 +
      2 * (SynetMergedConvolution16bCdc.SetSize miC miK L2 L3 s).sizeB2 + align ∧
    (SynetMergedConvolution16bCdc.SetSize miC miK L2 L3 s).sizeB0 =
      (SynetMergedConvolution16bCdc.SetSize miC miK L2 L3 s).alg.bufH0 *
        (s.param.conv 0).srcW * AlignHi (s.param.conv 0).srcC miK ∧
    (SynetMergedConvolution16bCdc.SetSize miC miK L2 L3 s).sizeB1 =
      (SynetMergedConvolution16bCdc.SetSize miC miK L2 L3 s).alg.bufH1 *
        (s.param.conv 1).srcW *
        (SynetMergedConvolution16bCdc.SetSize miC miK L2 L3 s).alg.maC ∧
    (SynetMergedConvolution16bCdc.SetSize miC miK L2 L3 s).sizeB2 =
      (SynetMergedConvolution16bCdc.SetSize miC miK L2 L3 s).alg.bufH2 *
        (s.param.conv 1).dstW *
        (SynetMergedConvolution16bCdc.SetSize miC miK L2 L3 s).alg.maC ∧
    (SynetMergedConvolution16bCdc.SetSize miC miK L2 L3 s).ExternalBufferSize align =
      SynetMergedConvolution16bCdc.Footprint
        (SynetMergedConvolution16bCdc.SetSize miC miK L2 L3 s) + align := by
  obtain ⟨y, _, _, heq, _⟩ := RowSearch_spec SynetMergedConvolution16bCdc.SetSizeRow
    (fun t => decide (SynetMergedConvolution16bCdc.Footprint t ≤ L2)) Cdc_SetSizeRow_idem
    ((SynetMergedConvolution16bCdc.SetSizeHead miC miK L3 s).param.conv 1).dstH
    (SynetMergedConvolution16bCdc.SetSizeHead miC miK L3 s) hH
  have hr : SynetMergedConvolution16bCdc.SetSize miC miK L2 L3 s =
      SynetMergedConvolution16bCdc.SetSizeTail (SynetMergedConvolution16bCdc.SetSizeRow
        (SynetMergedConvolution16bCdc.SetSizeHead miC miK L3 s) y) := by
    unfold SynetMergedConvolution16bCdc.SetSize
    simp only [heq]
  have hm : (SynetMergedConvolution16bCdc.SetSize miC miK L2 L3 s).alg.miC = miC := by
    rw [hr]; rfl
  have hE : ∀ t : SynetMergedConvolution16b, t.alg.miC = miC →
      t.ExternalBufferSize align = 2 * t.sizeB0 + 4 * t.sizeB1 + 2 * t.sizeB2 + align := by
    intro t ht
    unfold SynetMergedConvolution16b.ExternalBufferSize
    rw [if_pos (by omega)]
    omega
  refine ⟨hE _ hm, ?_, ?_, ?_, ?_⟩
  · rw [hr]; rfl
  · rw [hr]; rfl
  · rw [hr]; rfl
  · rw [hE _ hm]
    unfold SynetMergedConvolution16bCdc.Footprint
    omega

/-- C12 (witness): the bottleneck chain with `miC = 8`, `miK = 2`, a 4 KiB L2, a 1 MiB L3
and `SIMD_ALIGN = 64`. -/
theorem cdc_external_buffer_size_witness :
    0 < 8 ∧ 1 ≤ ((SynetMergedConvolution16b.create bottleneckDescriptor).param.conv 1).dstH ∧
    ((SynetMergedConvolution16bCdc.SetSize 8 2 4096 1048576
        (SynetMergedConvolution16b.create bottleneckDescriptor)).ExternalBufferSize 64 =
      2 * (SynetMergedConvolution16bCdc.SetSize 8 2 4096 1048576
        (SynetMergedConvolution16b.create bottleneckDescriptor)).sizeB0 +
      4 * (SynetMergedConvolution16bCdc.SetSize 8 2 4096 1048576
        (SynetMergedConvolution16b.create bottleneckDescriptor)).sizeB1 +
      2 * (SynetMergedConvolution16bCdc.SetSize 8 2 4096 1048576
        (SynetMergedConvolution16b.create bottleneckDescriptor)).sizeB2 + 64 ∧
    (SynetMergedConvolution16bCdc.SetSize 8 2 4096 1048576
        (SynetMergedConvolution16b.create bottleneckDescriptor)).sizeB0 =
      (SynetMergedConvolution16bCdc.SetSize 8 2 4096 1048576
        (SynetMergedConvolution16b.create bottleneckDescriptor)).alg.bufH0 *
        ((SynetMergedConvolution16b.create bottleneckDescriptor).param.conv 0).srcW *
        AlignHi ((SynetMergedConvolution16b.create bottleneckDescriptor).param.conv 0).srcC 2 ∧
    (SynetMergedConvolution16bCdc.SetSize 8 2 4096 1048576
        (SynetMergedConvolution16b.create bottleneckDescriptor)).sizeB1 =
      (SynetMergedConvolution16bCdc.SetSize 8 2 4096 1048576
        (SynetMergedConvolution16b.create bottleneckDescriptor)).alg.bufH1 *
        ((SynetMergedConvolution16b.create bottleneckDescriptor).param.conv 1).srcW *
        (SynetMergedConvolution16bCdc.SetSize 8 2 4096 1048576
          (SynetMergedConvolution16b.create bottleneckDescriptor)).alg.maC ∧
    (SynetMergedConvolution16bCdc.SetSize 8 2 4096 1048576
        (SynetMergedConvolution16b.create bottleneckDescriptor)).sizeB2 =
      (SynetMergedConvolution16bCdc.SetSize 8 2 4096 1048576
        (SynetMergedConvolution16b.create bottleneckDescriptor)).alg.bufH2 *
        ((SynetMergedConvolution16b.create bottleneckDescriptor).param.conv 1).dstW *
        (SynetMergedConvolution16bCdc.SetSize 8 2 4096 1048576
          (SynetMergedConvolution16b.create bottleneckDescriptor)).alg.maC ∧
    (SynetMergedConvolution16bCdc.SetSize 8 2 4096 1048576
        (SynetMergedConvolution16b.create bottleneckDescriptor)).ExternalBufferSize 64 =
      SynetMergedConvolution16bCdc.Footprint
        (SynetMergedConvolution16bCdc.SetSize 8 2 4096 1048576
          (SynetMergedConvolution16b.create bottleneckDescriptor)) + 64) :=
  ⟨by decide, by decide,
    cdc_external_buffer_size 64 8 2 4096 1048576
      (SynetMergedConvolution16b.create bottleneckDescriptor) (by decide) (by decide)⟩

set_option maxRecDepth 100000 in
/-- C14 (failing input): Cdc `Forward` on the bottleneck chain `16 → 32 → 32 → 16` (8×8
image, batch 1, residual add) after `SetSize(8, 2)` with a 4 KiB L2 (`maC = 16`, so two
channel tiles, and `yStep[2] = 2`, so four row bands per tile). The batch item makes 20
calls, none of them a call of the output primitive (4 of them are the residual copies
of the first tile and the other 16 are the `_input` and `_depthwise` calls of the 8
bands): the stage-2 primitive is run for no tile and no band. -/
theorem cdc_forward_runs_no_output :
    bottleneckCdc.alg.maC = 16 ∧ (bottleneckCdc.param.conv 1).dstC = 32 ∧
    bottleneckCdc.alg.yStep2 = 2 ∧ (bottleneckCdc.param.conv 1).dstH = 8 ∧
    (SynetMergedConvolution16bCdc.Forward 64 bottleneckCdc).map
      (fun items => items.map fun it =>
        (it.calls.length, it.calls.countP ForwardCall.isMemcpy,
          it.calls.countP ForwardCall.isOutput)) = some [(20, 4, 0)] := by
  decide

set_option maxRecDepth 100000 in
/-- C15 (failing input): Cdc `Forward` on the bottleneck chain with residual add
(`W = conv[2].dstW = 8`, `C = conv[2].dstC = 16`, float32 tensors of `8*8*16*4 = 4096`
bytes). In the first channel tile the second row band has `[yBeg1, yEnd1) = [3, 5)`; its
copy is `memcpy(dst + 384, src + 384, 1024)`, the byte range `[384, 1408)`, while rows
`[3, 5)` are the bytes `[4*3*W*C, 4*5*W*C) = [1536, 2560)`: the row offset is added to
the `uint8_t` pointers without the factor `sizeof(float)`. No copy of the item reaches
past byte 1664, so the rows from byte 1664 on are never seeded. -/
theorem cdc_forward_residual_copy_offset :
    bottleneckCdc.param.add = true ∧
    (bottleneckCdc.param.conv 2).dstW = 8 ∧ (bottleneckCdc.param.conv 2).dstC = 16 ∧
    (SynetMergedConvolution16bCdc.Forward 64 bottleneckCdc).map
      (fun items => items.map fun it => it.calls.take 6) =
      some [[
        ForwardCall.input ⟨Region.buf, 0⟩ ⟨Region.buf, 1088⟩ 16 0 3 0 0 0,
        ForwardCall.depthwise ⟨Region.buf, 1088⟩ ⟨Region.buf, 3136⟩ 16 0 2 0 0 0,
        ForwardCall.memcpy ⟨Region.dst, 0⟩ ⟨Region.src, 0⟩ 1536,
        ForwardCall.input ⟨Region.buf, 0⟩ ⟨Region.buf, 1088⟩ 16 3 5 0 0 0,
        ForwardCall.depthwise ⟨Region.buf, 1088⟩ ⟨Region.buf, 3136⟩ 16 2 4 0 0 0,
        ForwardCall.memcpy ⟨Region.dst, 384⟩ ⟨Region.src, 384⟩ 1024]] ∧
    ¬ (384 = 4 * 3 * (bottleneckCdc.param.conv 2).dstW * (bottleneckCdc.param.conv 2).dstC) ∧
    (SynetMergedConvolution16bCdc.Forward 64 bottleneckCdc).map
      (fun items => items.map fun it => it.calls.filter ForwardCall.isMemcpy) =
      some [[
        ForwardCall.memcpy ⟨Region.dst, 0⟩ ⟨Region.src, 0⟩ 1536,
        ForwardCall.memcpy ⟨Region.dst, 384⟩ ⟨Region.src, 384⟩ 1024,
        ForwardCall.memcpy ⟨Region.dst, 640⟩ ⟨Region.src, 640⟩ 1024,
        ForwardCall.memcpy ⟨Region.dst, 896⟩ ⟨Region.src, 896⟩ 512]] := by
  decide

set_option maxRecDepth 100000 in
/-- C16 (failing input): the four `Forward` functions on chains with a batch of two
images whose source item has `8*8*16 = 1024` elements (`8*8*32 = 2048` for the Dc chain).
In every engine the second item starts at byte offset `_sizeS` of `src` and `_sizeD` of
`dst` (1024 and 1024 for the untiled engine and Cdc, 1024 and 2048 for Cd, 2048 and 1024
for Dc): the element counts are added to the `uint8_t` pointers as they are, not
multiplied by the element size (4 for float32, 2 for bfloat16). -/
theorem forward_batch_stride_in_elements :
    (bottleneckBatchCdc.param.conv 0).batch = 2 ∧
    (bottleneckBatchCdc.sizeS, bottleneckBatchCdc.sizeD) = (1024, 1024) ∧
    (SynetMergedConvolution16bCdc.Forward 64 bottleneckBatchCdc).map
      (fun items => items.map fun it => (it.src, it.dst)) = some [(0, 0), (1024, 1024)] ∧
    (SynetMergedConvolution16b.Forward 64
        (SynetMergedConvolution16b.create bottleneckBatchDescriptor)).map
      (fun items => items.map fun it => (it.src, it.dst)) = some [(0, 0), (1024, 1024)] ∧
    (bottleneckBatchCd.sizeS, bottleneckBatchCd.sizeD) = (1024, 2048) ∧
    (SynetMergedConvolution16bCd.Forward 64 bottleneckBatchCd).map
      (fun items => items.map fun it => (it.src, it.dst)) = some [(0, 0), (1024, 2048)] ∧
    (depthwiseHeadDc.sizeS, depthwiseHeadDc.sizeD) = (2048, 1024) ∧
    (SynetMergedConvolution16bDc.Forward depthwiseHeadDc).map
      (fun items => items.map fun it => (it.src, it.dst)) = some [(0, 0), (2048, 1024)] ∧
    ¬ (1024 = 1 * (bottleneckBatchCdc.sizeS * 4)) ∧
    ¬ (1024 = 1 * (bottleneckBatchCdc.sizeS * 2)) := by
  decide

/-! ## Bias and activation parameters: lemmas and theorems -/

theorem Fill_length (dst : List Nat) (n : Nat) (g : Nat → Nat) (h : n ≤ dst.length) :
    (Fill dst n g).length = dst.length := by
  simp only [Fill, List.length_append, List.length_map, List.length_range, List.length_drop]
  omega

theorem Fill_get_lt (dst : List Nat) (n : Nat) (g : Nat → Nat) (i : Nat) (h : i < n) :
    (Fill dst n g)[i]? = some (g i) := by
  unfold Fill
  rw [List.getElem?_append_left (by simpa using h), getElem?_map_range _ _ _ h]

theorem Fill_get_ge (dst : List Nat) (n : Nat) (g : Nat → Nat) (i : Nat) (h : n ≤ i) :
    (Fill dst n g)[i]? = dst[i]? := by
  unfold Fill
  rw [List.getElem?_append_right (by simpa using h), List.getElem?_drop]
  simp only [List.length_map, List.length_range]
  congr 1
  omega

theorem le_AlignHiAny (n m : Nat) (h : 0 < m) : n ≤ AlignHiAny n m :=
  le_DivHi_mul n m h

theorem getElem?_replicate_zero (N i : Nat) (h : i < N) :
    (List.replicate N 0)[i]? = some 0 := by
  rw [List.getElem?_replicate, if_pos h]

/-- C17: bias packing. For every stage and every `miC >= 0`, `SetBias` produces an array
of length `AlignHiAny(dstC, max(1, 2*miC))` whose first `dstC` entries are the supplied
bias (0 when no bias is supplied) and whose remaining entries are 0. -/
theorem setbias_layout (a : AlgParam) (src : Option (Nat → Nat)) (p : ConvParam) :
    (SetBias a src p).length = AlignHiAny p.dstC (max 1 (2 * a.miC)) ∧
    (∀ i, i < p.dstC →
      (SetBias a src p)[i]? = some (match src with | some f => f i | none => 0)) ∧
    (∀ i, p.dstC ≤ i → i < AlignHiAny p.dstC (max 1 (2 * a.miC)) →
      (SetBias a src p)[i]? = some 0) := by
  rw [Nat.mul_comm 2 a.miC]
  have hle : p.dstC ≤ AlignHiAny p.dstC (max 1 (a.miC * 2)) :=
    le_AlignHiAny _ _ (by omega)
  cases src with
  | none =>
    refine ⟨by simp [SetBias], fun i hi => ?_, fun i _ hi => ?_⟩
    · exact getElem?_replicate_zero _ _ (by omega)
    · exact getElem?_replicate_zero _ _ hi
  | some f =>
    refine ⟨?_, fun i hi => ?_, fun i hge hi => ?_⟩
    · show (Fill _ _ _).length = _
      rw [Fill_length _ _ _ (by simpa using hle), List.length_replicate]
    · exact Fill_get_lt _ _ _ i hi
    · show (Fill _ _ _)[i]? = _
      rw [Fill_get_ge _ _ _ i hge]
      exact getElem?_replicate_zero _ _ hi

/-- C17 (witness): the bias of the input stage `16 → 32` of the bottleneck chain with
`miC = 8` and with `miC = 0`, supplied and not supplied. -/
theorem setbias_layout_witness :
    SetBias bottleneckCdc.alg (some rampWeights) (stage 16 20 1 1 1 0 8 8 8) =
      (List.range 20).map rampWeights ++ List.replicate 12 0 ∧
    (SetBias bottleneckCdc.alg none (stage 16 20 1 1 1 0 8 8 8)).length = 32 ∧
    (SetBias (SynetMergedConvolution16b.create bottleneckDescriptor).alg (some rampWeights)
      (stage 16 20 1 1 1 0 8 8 8)).length = 20 ∧
    ((SetBias bottleneckCdc.alg (some rampWeights) (stage 16 20 1 1 1 0 8 8 8)).length =
        AlignHiAny (stage 16 20 1 1 1 0 8 8 8).dstC (max 1 (2 * bottleneckCdc.alg.miC)) ∧
      (∀ i, i < (stage 16 20 1 1 1 0 8 8 8).dstC →
        (SetBias bottleneckCdc.alg (some rampWeights) (stage 16 20 1 1 1 0 8 8 8))[i]? =
          some (rampWeights i)) ∧
      (∀ i, (stage 16 20 1 1 1 0 8 8 8).dstC ≤ i →
        i < AlignHiAny (stage 16 20 1 1 1 0 8 8 8).dstC (max 1 (2 * bottleneckCdc.alg.miC)) →
        (SetBias bottleneckCdc.alg (some rampWeights) (stage 16 20 1 1 1 0 8 8 8))[i]? =
          some 0)) :=
  ⟨by decide, by decide, by decide,
    setbias_layout bottleneckCdc.alg (some rampWeights) (stage 16 20 1 1 1 0 8 8 8)⟩

/-- C18: activation-parameter packing. `SetParams(src, p, dst)` yields, for Prelu, an array
of length `AlignHiAny(dstC, max(1, 2*miC))` with `dst[d] = src[d]` for `d < dstC` and 0 in
the padding; for LeakyRelu the same length with `dst[d] = src[0]` for `d < dstC` (and 0 in
the padding); and for every other kind exactly 2 slots: Identity `(-FLT_MAX, FLT_MAX)`,
Relu `(0, FLT_MAX)`, RestrictRange, Hswish and HardSigmoid `(src[0], src[1])`, Elu, Mish
and Swish `(src[0], 0)` and Gelu `(0, 0)`. -/
theorem setparams_layout (a : AlgParam) (src : Nat → Nat) (p : ConvParam) :
    (p.activation = SimdConvolutionActivationType.Prelu →
      (SetParams a src p).length = AlignHiAny p.dstC (max 1 (2 * a.miC)) ∧
      (∀ d, d < p.dstC → (SetParams a src p)[d]? = some (src d)) ∧
      (∀ d, p.dstC ≤ d → d < AlignHiAny p.dstC (max 1 (2 * a.miC)) →
        (SetParams a src p)[d]? = some 0)) ∧
    (p.activation = SimdConvolutionActivationType.LeakyRelu →
      (SetParams a src p).length = AlignHiAny p.dstC (max 1 (2 * a.miC)) ∧
      (∀ d, d < p.dstC → (SetParams a src p)[d]? = some (src 0)) ∧
      (∀ d, p.dstC ≤ d → d < AlignHiAny p.dstC (max 1 (2 * a.miC)) →
        (SetParams a src p)[d]? = some 0)) ∧
    (p.activation = SimdConvolutionActivationType.Identity →
      SetParams a src p = [NegFLT_MAX, FLT_MAX]) ∧
    (p.activation = SimdConvolutionActivationType.Relu →
      SetParams a src p = [0, FLT_MAX]) ∧
    (p.activation = SimdConvolutionActivationType.RestrictRange ∨
        p.activation = SimdConvolutionActivationType.Hswish ∨
        p.activation = SimdConvolutionActivationType.HardSigmoid →
      SetParams a src p = [src 0, src 1]) ∧
    (p.activation = SimdConvolutionActivationType.Elu ∨
        p.activation = SimdConvolutionActivationType.Mish ∨
        p.activation = SimdConvolutionActivationType.Swish →
      SetParams a src p = [src 0, 0]) ∧
    (p.activation = SimdConvolutionActivationType.Gelu →
      SetParams a src p = [0, 0]) := by
  rw [Nat.mul_comm 2 a.miC]
  have hle : p.dstC ≤ AlignHiAny p.dstC (max 1 (a.miC * 2)) :=
    le_AlignHiAny _ _ (by omega)
  refine ⟨fun h => ?_, fun h => ?_, fun h => ?_, fun h => ?_, fun h => ?_, fun h => ?_,
    fun h => ?_⟩
  · have e : SetParams a src p =
        Fill (List.replicate (AlignHiAny p.dstC (max 1 (a.miC * 2))) 0) p.dstC src := by
      simp [SetParams, h]
    rw [e]
    refine ⟨?_, fun d hd => Fill_get_lt _ _ _ d hd, fun d hge hd => ?_⟩
    · rw [Fill_length _ _ _ (by simpa using hle), List.length_replicate]
    · rw [Fill_get_ge _ _ _ d hge]
      exact getElem?_replicate_zero _ _ hd
  · have e : SetParams a src p =
        Fill (List.replicate (AlignHiAny p.dstC (max 1 (a.miC * 2))) 0) p.dstC
          (fun _ => src 0) := by
      simp [SetParams, h]
    rw [e]
    refine ⟨?_, fun d hd => Fill_get_lt _ _ _ d hd, fun d hge hd => ?_⟩
    · rw [Fill_length _ _ _ (by simpa using hle), List.length_replicate]
    · rw [Fill_get_ge _ _ _ d hge]
      exact getElem?_replicate_zero _ _ hd
  · simp [SetParams, h, List.replicate]
  · simp [SetParams, h, List.replicate]
  · rcases h with h | h | h <;> simp [SetParams, h, List.replicate]
  · rcases h with h | h | h <;> simp [SetParams, h, List.replicate]
  · simp [SetParams, h, List.replicate]

/-- C18 (witness): the parameters of a stage with 20 destination channels and `miC = 8`
for the Prelu, LeakyRelu, Identity and Elu kinds. -/
theorem setparams_layout_witness :
    SetParams bottleneckCdc.alg rampWeights
        { stage 16 20 1 1 1 0 8 8 8 with activation := SimdConvolutionActivationType.Prelu } =
      (List.range 20).map rampWeights ++ List.replicate 12 0 ∧
    SetParams bottleneckCdc.alg rampWeights
        { stage 16 20 1 1 1 0 8 8 8 with
          activation := SimdConvolutionActivationType.LeakyRelu } =
      List.replicate 20 (rampWeights 0) ++ List.replicate 12 0 ∧
    SetParams bottleneckCdc.alg rampWeights (stage 16 20 1 1 1 0 8 8 8) =
      [NegFLT_MAX, FLT_MAX] ∧
    SetParams bottleneckCdc.alg rampWeights
        { stage 16 20 1 1 1 0 8 8 8 with activation := SimdConvolutionActivationType.Elu } =
      [rampWeights 0, 0] ∧
    SetParams bottleneckCdc.alg rampWeights
        { stage 16 20 1 1 1 0 8 8 8 with activation := SimdConvolutionActivationType.Elu } =
      [rampWeights 0, 0] :=
  ⟨by decide, by decide, by decide, by decide,
    (setparams_layout bottleneckCdc.alg rampWeights
      { stage 16 20 1 1 1 0 8 8 8 with
        activation := SimdConvolutionActivationType.Elu }).2.2.2.2.2.1 (Or.inl rfl)⟩

/-! ## Conversion to bfloat16 and the NchwGemm predicate: theorems -/

/-- The round-to-nearest-even quotient is unique. -/
theorem RoundsNearestEven_unique (w q q' : Nat) (h : RoundsNearestEven w q)
    (h' : RoundsNearestEven w q') : q = q' := by
  unfold RoundsNearestEven at h h'
  omega

/-- The conversion of a 32-bit pattern is its rounding to bfloat16. -/
theorem Float32ToBFloat16_rounds (w : Nat) (hw : w < 4294967296) :
    RoundsToBFloat16 w (Float32ToBFloat16 w) := by
  unfold RoundsToBFloat16 Float32ToBFloat16
  simp only [Nat.mod_eq_of_lt hw]
  unfold IsNaN32 IsNaN16 RoundsNearestEven
  split_ifs <;> omega

/-- The patterns of `edgeWeights` have 32 bits. -/
theorem edgeWeights_lt (j : Nat) : edgeWeights j < 4294967296 := by
  unfold edgeWeights
  split <;> decide

/-- The value written by a round of the innermost loop of the dense packers is 0 or the
conversion of an in-range weight. -/
theorem dense_write_value (cvt : Nat → Nat) (src : Nat → Nat) (p : ConvParam)
    (c dF f i x : Nat)
    (h : (if dF + f < p.dstC ∧ c + i < p.srcC then
        cvt (src (PsOffset (c * p.dstC + dF) (decide (c < p.srcC)) f + i * p.dstC))
      else 0) = x) :
    x = 0 ∨ ∃ sc dc, sc < p.srcC ∧ dc < p.dstC ∧ x = cvt (src (sc * p.dstC + dc)) := by
  split at h
  · rename_i hin
    right
    refine ⟨c + i, dF + f, hin.2, hin.1, ?_⟩
    have hc : c < p.srcC := by omega
    rw [← h]
    simp only [PsOffset, hc, decide_True, if_true]
    congr 2
    ring
  · exact Or.inl h.symm

/-- Every cell of `_weightI` is 0, the conversion of an in-range weight or, in the untiled
mode, the conversion of the weight with the same index. -/
theorem mem_SetInputWeight (cvt : Nat → Nat) (a : AlgParam) (src : Nat → Nat)
    (p : ConvParam) (x : Nat) (h : x ∈ SetInputWeight cvt a src p) :
    x = 0 ∨ (∃ sc dc, sc < p.srcC ∧ dc < p.dstC ∧ x = cvt (src (sc * p.dstC + dc))) ∨
      (a.miC = 0 ∧ ∃ j, j < p.kernelY * p.kernelX * p.srcC * p.dstC ∧ x = cvt (src j)) := by
  unfold SetInputWeight at h
  split at h
  · simp only [List.mem_flatMap, List.mem_map, List.mem_range] at h
    obtain ⟨d, _, c, _, f, _, i, _, hx⟩ := h
    rcases dense_write_value cvt src p c (d * (a.miC * 2)) f i x hx with h0 | h1
    · exact Or.inl h0
    · exact Or.inr (Or.inl h1)
  · rename_i hm
    simp only [List.mem_map, List.mem_range] at h
    obtain ⟨j, hj, rfl⟩ := h
    exact Or.inr (Or.inr ⟨by omega, j, hj, rfl⟩)

/-- Every cell of `_weightO` is 0, the conversion of an in-range weight or, in the untiled
mode, the conversion of the weight with the same index. -/
theorem mem_SetOutputWeight (cvt : Nat → Nat) (a : AlgParam) (src : Nat → Nat)
    (p : ConvParam) (x : Nat) (h : x ∈ SetOutputWeight cvt a src p) :
    x = 0 ∨ (∃ sc dc, sc < p.srcC ∧ dc < p.dstC ∧ x = cvt (src (sc * p.dstC + dc))) ∨
      (a.miC = 0 ∧ ∃ j, j < p.kernelY * p.kernelX * p.srcC * p.dstC ∧ x = cvt (src j)) := by
  unfold SetOutputWeight at h
  split at h
  · simp only [List.mem_flatMap, List.mem_map, List.mem_range] at h
    obtain ⟨cB, _, d, _, c, _, f, _, i, _, hx⟩ := h
    have hx' : (if d * (a.miC * 2) + f < p.dstC ∧ c * 2 + i < p.srcC then
        cvt (src (PsOffset (c * 2 * p.dstC + d * (a.miC * 2)) (decide (c * 2 < p.srcC)) f +
          i * p.dstC))
      else 0) = x := hx
    rcases dense_write_value cvt src p (c * 2) (d * (a.miC * 2)) f i x hx' with h0 | h1
    · exact Or.inl h0
    · exact Or.inr (Or.inl h1)
  · rename_i hm
    simp only [List.mem_map, List.mem_range] at h
    obtain ⟨j, hj, rfl⟩ := h
    exact Or.inr (Or.inr ⟨by omega, j, hj, rfl⟩)

/-- C19: rounding of the packed weights. For an array of float32 weights (32-bit
patterns), the 16-bit value that `SetInputWeight` and `SetOutputWeight` store for a
weight with bit pattern `w` (through `Float32ToBFloat16`) is the IEEE
round-to-nearest-even rounding of `w` to its upper 16 bits: a 16-bit pattern `x` with
`|w - x*2^16| <= 2^15` that is even when `w` is a tie, the only such number, for every
`w` that is not a NaN, and a NaN for a NaN. Every cell of the two buffers is 0 or the
rounding of an in-range weight (of the weight with the cell's index in the untiled mode);
in tiled mode (`miC > 0`, `miK` an even power of two, `maC > 0`) the cell at the placement
of every in-range weight `(sc, dc)` holds the rounding of `src[sc*dstC + dc]`, and in the
untiled mode (`miC == 0`) cell `j` holds the rounding of `src[j]`. -/
theorem packed_weight_rounding (a : AlgParam) (src : Nat → Nat) (p : ConvParam)
    (hsrc : ∀ j, src j < 4294967296) :
    (∀ x, x ∈ SetInputWeight Float32ToBFloat16 a src p ∨
        x ∈ SetOutputWeight Float32ToBFloat16 a src p →
      x = 0 ∨
      (∃ sc dc, sc < p.srcC ∧ dc < p.dstC ∧
        RoundsToBFloat16 (src (sc * p.dstC + dc)) x) ∨
      (a.miC = 0 ∧ ∃ j, j < p.kernelY * p.kernelX * p.srcC * p.dstC ∧
        RoundsToBFloat16 (src j) x)) ∧
    (∀ k, 0 < a.miC → 1 ≤ k → a.miK = 2 ^ k → 0 < a.maC →
      ∀ sc dc, sc < p.srcC → dc < p.dstC →
        ∃ x, RoundsToBFloat16 (src (sc * p.dstC + dc)) x ∧
          (∀ q, RoundsNearestEven (src (sc * p.dstC + dc)) q →
            ¬ IsNaN32 (src (sc * p.dstC + dc)) → q = x) ∧
          (SetInputWeight Float32ToBFloat16 a src p)[InputWeightPlace a p sc dc]? =
            some x ∧
          (SetOutputWeight Float32ToBFloat16 a src p)[OutputWeightPlace a p sc dc]? =
            some x) ∧
    (a.miC = 0 → ∀ j, j < p.kernelY * p.kernelX * p.srcC * p.dstC →
      ∃ x, RoundsToBFloat16 (src j) x ∧
        (∀ q, RoundsNearestEven (src j) q → ¬ IsNaN32 (src j) → q = x) ∧
        (SetInputWeight Float32ToBFloat16 a src p)[j]? = some x ∧
        (SetOutputWeight Float32ToBFloat16 a src p)[j]? = some x) := by
  have huniq : ∀ w, w < 4294967296 → ∀ q, RoundsNearestEven w q → ¬ IsNaN32 w →
      q = Float32ToBFloat16 w := by
    intro w hw q hq hn
    exact RoundsNearestEven_unique w q _ hq ((Float32ToBFloat16_rounds w hw).2.1 hn).1
  refine ⟨?_, ?_, ?_⟩
  · intro x hx
    have hmem : x = 0 ∨
        (∃ sc dc, sc < p.srcC ∧ dc < p.dstC ∧
          x = Float32ToBFloat16 (src (sc * p.dstC + dc))) ∨
        (a.miC = 0 ∧ ∃ j, j < p.kernelY * p.kernelX * p.srcC * p.dstC ∧
          x = Float32ToBFloat16 (src j)) := by
      rcases hx with h | h
      · exact mem_SetInputWeight _ a src p x h
      · exact mem_SetOutputWeight _ a src p x h
    rcases hmem with h0 | ⟨sc, dc, hsc, hdc, rfl⟩ | ⟨hm, j, hj, rfl⟩
    · exact Or.inl h0
    · exact Or.inr (Or.inl ⟨sc, dc, hsc, hdc, Float32ToBFloat16_rounds _ (hsrc _)⟩)
    · exact Or.inr (Or.inr ⟨hm, j, hj, Float32ToBFloat16_rounds _ (hsrc _)⟩)
  · intro k hmiC hk hmiK hmaC sc dc hsc hdc
    have heven : AlignHi p.srcC a.miK % 2 = 0 := by
      rw [hmiK]
      exact AlignHi_pow2_even _ _ hk
    have hle : p.srcC ≤ AlignHi p.srcC a.miK := by
      rw [hmiK]
      exact AlignHi_pow2_ge _ _
    have hP : ∀ sc, sc < p.srcC → sc / 2 < AlignHi p.srcC a.miK / 2 :=
      fun sc hsc => half_lt_of_even sc _ _ hsc hle heven
    obtain ⟨i1, _, _⟩ := dense_layout_round_trip a p (InputWeightIndex a p)
      (AlignHi p.srcC a.miK / 2) (fun cvt src => SetInputWeight cvt a src p) hmiC hP
      (fun cvt src c d f i hc hd hf hi =>
        SetInputWeight_get cvt a src p hmiC heven c d f i hc hd hf hi)
    obtain ⟨o1, _, _⟩ := dense_layout_round_trip a p (OutputWeightIndex a p)
      (AlignHi p.srcC a.miK / 2) (fun cvt src => SetOutputWeight cvt a src p) hmiC hP
      (fun cvt src c d f i hc hd hf hi =>
        SetOutputWeight_get cvt a src p hmiC hmaC c d f i
          (by rwa [DivHi_two_of_even _ heven]) hd hf hi)
    exact ⟨_, Float32ToBFloat16_rounds _ (hsrc _), huniq _ (hsrc _),
      i1 Float32ToBFloat16 src sc dc hsc hdc, o1 Float32ToBFloat16 src sc dc hsc hdc⟩
  · intro hm j hj
    refine ⟨_, Float32ToBFloat16_rounds _ (hsrc j), huniq _ (hsrc j), ?_, ?_⟩
    · unfold SetInputWeight
      rw [if_neg (by omega)]
      exact getElem?_map_range _ _ j hj
    · unfold SetOutputWeight
      rw [if_neg (by omega)]
      exact getElem?_map_range _ _ j hj

set_option maxRecDepth 100000 in
/-- C19 (witness): the stage `3 → 21` of `raggedDescriptor` with the tiling parameters
`raggedAlg` (`miC = 8`, `miK = 2`, `maC = 16`) and the weights `edgeWeights`: the two
ties are stored as the even neighbours `0x3F80` and `0x3F82`, the largest finite float as
plus infinity `0x7F80`, minus infinity and minus zero as themselves, and the two NaNs as
the NaNs `0x7FC0` and `0xFFFF`. Weight `(0, 5)` is the NaN `0x7F800001`, and its cell in
both buffers holds the NaN `0x7FC0`; weight `(1, 4)` has index 25 and is the tie
`0x3F818000`, and its cell holds `0x3F82`. -/
theorem packed_weight_rounding_witness :
    (∀ j, edgeWeights j < 4294967296) ∧
    0 < raggedAlg.miC ∧ 1 ≤ 1 ∧ raggedAlg.miK = 2 ^ 1 ∧ 0 < raggedAlg.maC ∧
    (List.range 8).map (fun j => Float32ToBFloat16 (edgeWeights j)) =
      [0x3F80, 0x3F82, 0x3F80, 0x7F80, 0xFF80, 0x7FC0, 0xFFFF, 0x8000] ∧
    IsNaN32 (edgeWeights (0 * (raggedDescriptor.conv 0).dstC + 5)) ∧
    (SetInputWeight Float32ToBFloat16 raggedAlg edgeWeights (raggedDescriptor.conv 0))[
      InputWeightPlace raggedAlg (raggedDescriptor.conv 0) 0 5]? = some 0x7FC0 ∧
    (SetOutputWeight Float32ToBFloat16 raggedAlg edgeWeights (raggedDescriptor.conv 0))[
      OutputWeightPlace raggedAlg (raggedDescriptor.conv 0) 0 5]? = some 0x7FC0 ∧
    edgeWeights (1 * (raggedDescriptor.conv 0).dstC + 4) = 0x3F818000 ∧
    (SetInputWeight Float32ToBFloat16 raggedAlg edgeWeights (raggedDescriptor.conv 0))[
      InputWeightPlace raggedAlg (raggedDescriptor.conv 0) 1 4]? = some 0x3F82 ∧
    (SetOutputWeight Float32ToBFloat16 raggedAlg edgeWeights (raggedDescriptor.conv 0))[
      OutputWeightPlace raggedAlg (raggedDescriptor.conv 0) 1 4]? = some 0x3F82 ∧
    (∀ sc dc, sc < (raggedDescriptor.conv 0).srcC → dc < (raggedDescriptor.conv 0).dstC →
      ∃ x, RoundsToBFloat16 (edgeWeights (sc * (raggedDescriptor.conv 0).dstC + dc)) x ∧
        (∀ q, RoundsNearestEven (edgeWeights (sc * (raggedDescriptor.conv 0).dstC + dc)) q →
          ¬ IsNaN32 (edgeWeights (sc * (raggedDescriptor.conv 0).dstC + dc)) → q = x) ∧
        (SetInputWeight Float32ToBFloat16 raggedAlg edgeWeights (raggedDescriptor.conv 0))[
          InputWeightPlace raggedAlg (raggedDescriptor.conv 0) sc dc]? = some x ∧
        (SetOutputWeight Float32ToBFloat16 raggedAlg edgeWeights (raggedDescriptor.conv 0))[
          OutputWeightPlace raggedAlg (raggedDescriptor.conv 0) sc dc]? = some x) :=
  ⟨edgeWeights_lt, by decide, by decide, by decide, by decide, by decide, by decide,
    by decide, by decide, by decide, by decide, by decide,
    (packed_weight_rounding raggedAlg edgeWeights (raggedDescriptor.conv 0)
      edgeWeights_lt).2.1 1 (by decide) (by decide) (by decide) (by decide)⟩

/-- C20: for every single-convolution descriptor `p`,
`SynetConvolution16bNchwGemm::Preferable(p)` is true exactly when `p.group == 1` and the
layout is not transposed (`p.trans == 0`). -/
theorem nchwgemm_preferable_iff (p : ConvParam) :
    SynetConvolution16bNchwGemm.Preferable p = true ↔ p.group = 1 ∧ p.trans = 0 := by
  simp only [SynetConvolution16bNchwGemm.Preferable, Bool.and_eq_true, beq_iff_eq]
  exact And.comm

/-! ## Loop traces of Forward: lemmas -/

theorem RowBands_done (a : AlgParam) (H s1 s0 fuel y2 y1 y0 : Nat) (h : H ≤ y2) :
    RowBands a H s1 s0 fuel y2 y1 y0 = some [] := by
  cases fuel <;> simp [RowBands, Nat.not_lt.mpr h]

theorem RowBands_step (a : AlgParam) (H s1 s0 fuel y2 y1 y0 : Nat) (h : y2 < H) :
    RowBands a H s1 s0 (fuel + 1) y2 y1 y0 =
      (RowBands a H s1 s0 fuel (RestrictRange (y2 + a.yStep2) a.yStart2 H)
        (RestrictRange (y1 + a.yStep1) a.yStart1 s1)
        (RestrictRange (y0 + a.yStep0) a.yStart0 s0)).map
        (fun rest => { yBeg2 := y2, yEnd2 := RestrictRange (y2 + a.yStep2) a.yStart2 H,
                       yBeg1 := y1, yEnd1 := RestrictRange (y1 + a.yStep1) a.yStart1 s1,
                       yBeg0 := y0, yEnd0 := RestrictRange (y0 + a.yStep0) a.yStart0 s0 } ::
          rest) := by
  rw [RowBands, if_pos h]

/-- The calls of the row loop are the calls of its body on the recorded rounds. -/
theorem RowLoop_eq_bands (a : AlgParam) (H s1 s0 : Nat)
    (band : Nat → Nat → Nat → Nat → Nat → Nat → List ForwardCall) :
    ∀ fuel y2 y1 y0, RowLoop a H s1 s0 band fuel y2 y1 y0 =
      (RowBands a H s1 s0 fuel y2 y1 y0).map (fun bs =>
        bs.flatMap fun b => band b.yBeg2 b.yEnd2 b.yBeg1 b.yEnd1 b.yBeg0 b.yEnd0) := by
  intro fuel
  induction fuel with
  | zero =>
    intro y2 y1 y0
    unfold RowLoop RowBands
    split <;> rfl
  | succ n ih =>
    intro y2 y1 y0
    unfold RowLoop RowBands
    by_cases h : y2 < H
    · simp only [if_pos h, ih]
      cases RowBands a H s1 s0 n (RestrictRange (y2 + a.yStep2) a.yStart2 H)
        (RestrictRange (y1 + a.yStep1) a.yStart1 s1)
        (RestrictRange (y0 + a.yStep0) a.yStart0 s0) with
      | none => rfl
      | some rest => simp
    · simp only [if_neg h]
      rfl

/-- An invariant of the loop variables that every round preserves holds at every round,
and with it what the invariant gives for the round. `j` counts the rounds. -/
theorem RowBands_invariant (a : AlgParam) (H s1 s0 : Nat)
    (Inv : Nat → Nat → Nat → Nat → Prop) (Q : Nat → RowBand → Prop)
    (hstep : ∀ j y2 y1 y0, Inv j y2 y1 y0 → y2 < H →
      Q j { yBeg2 := y2, yEnd2 := RestrictRange (y2 + a.yStep2) a.yStart2 H,
            yBeg1 := y1, yEnd1 := RestrictRange (y1 + a.yStep1) a.yStart1 s1,
            yBeg0 := y0, yEnd0 := RestrictRange (y0 + a.yStep0) a.yStart0 s0 } ∧
      Inv (j + 1) (RestrictRange (y2 + a.yStep2) a.yStart2 H)
        (RestrictRange (y1 + a.yStep1) a.yStart1 s1)
        (RestrictRange (y0 + a.yStep0) a.yStart0 s0)) :
    ∀ fuel j y2 y1 y0 bs, Inv j y2 y1 y0 → RowBands a H s1 s0 fuel y2 y1 y0 = some bs →
      ∀ i b, bs[i]? = some b → Q (j + i) b := by
  intro fuel
  induction fuel with
  | zero =>
    intro j y2 y1 y0 bs _ hbs i b hb
    unfold RowBands at hbs
    split at hbs
    · cases hbs
    · cases hbs
      simp at hb
  | succ n ih =>
    intro j y2 y1 y0 bs hinv hbs i b hb
    by_cases h : y2 < H
    · rw [RowBands_step a H s1 s0 n y2 y1 y0 h] at hbs
      obtain ⟨hq, hinv'⟩ := hstep j y2 y1 y0 hinv h
      cases hrest : RowBands a H s1 s0 n (RestrictRange (y2 + a.yStep2) a.yStart2 H)
        (RestrictRange (y1 + a.yStep1) a.yStart1 s1)
        (RestrictRange (y0 + a.yStep0) a.yStart0 s0) with
      | none => rw [hrest] at hbs; cases hbs
      | some rest =>
        rw [hrest] at hbs
        simp only [Option.map_some'] at hbs
        cases hbs
        cases i with
        | zero =>
          simp only [List.getElem?_cons_zero, Option.some.injEq] at hb
          subst hb
          exact hq
        | succ i =>
          simp only [List.getElem?_cons_succ] at hb
          have := ih (j + 1) _ _ _ rest hinv' hrest i b hb
          rwa [Nat.add_assoc, Nat.add_comm 1 i] at this
    · rw [RowBands_done a H s1 s0 (n + 1) y2 y1 y0 (Nat.le_of_not_lt h)] at hbs
      cases hbs
      simp at hb

/-- Every round starts where the round before it ended, and the first round starts at the
initial values of the loop variables. -/
theorem RowBands_consecutive (a : AlgParam) (H s1 s0 : Nat) :
    ∀ fuel y2 y1 y0 bs, RowBands a H s1 s0 fuel y2 y1 y0 = some bs →
      (∀ b, bs[0]? = some b → b.yBeg2 = y2 ∧ b.yBeg1 = y1 ∧ b.yBeg0 = y0) ∧
      ∀ i b b', bs[i]? = some b → bs[i + 1]? = some b' →
        b'.yBeg2 = b.yEnd2 ∧ b'.yBeg1 = b.yEnd1 ∧ b'.yBeg0 = b.yEnd0 := by
  intro fuel
  induction fuel with
  | zero =>
    intro y2 y1 y0 bs hbs
    unfold RowBands at hbs
    split at hbs
    · cases hbs
    · cases hbs
      simp
  | succ n ih =>
    intro y2 y1 y0 bs hbs
    by_cases h : y2 < H
    · rw [RowBands_step a H s1 s0 n y2 y1 y0 h] at hbs
      cases hrest : RowBands a H s1 s0 n (RestrictRange (y2 + a.yStep2) a.yStart2 H)
        (RestrictRange (y1 + a.yStep1) a.yStart1 s1)
        (RestrictRange (y0 + a.yStep0) a.yStart0 s0) with
      | none => rw [hrest] at hbs; cases hbs
      | some rest =>
        rw [hrest] at hbs
        simp only [Option.map_some'] at hbs
        cases hbs
        obtain ⟨hfirst, hnext⟩ := ih _ _ _ rest hrest
        refine ⟨?_, ?_⟩
        · intro b hb
          simp only [List.getElem?_cons_zero, Option.some.injEq] at hb
          subst hb
          exact ⟨rfl, rfl, rfl⟩
        · intro i b b' hb hb'
          simp only [List.getElem?_cons_succ] at hb'
          cases i with
          | zero =>
            simp only [List.getElem?_cons_zero, Option.some.injEq] at hb
            subst hb
            exact hfirst b' hb'
          | succ i =>
            simp only [List.getElem?_cons_succ] at hb
            exact hnext i b b' hb hb'
    · rw [RowBands_done a H s1 s0 (n + 1) y2 y1 y0 (Nat.le_of_not_lt h)] at hbs
      cases hbs
      simp

/-- With a positive step the row loop ends: `H` rounds are enough from row 0, and the
number of rounds is `ceil(H / yStep[2])` when `yStart[2] == yStep[2] <= H`. -/
theorem RowBands_length (a : AlgParam) (H s1 s0 : Nat) (hy : 1 ≤ a.yStep2)
    (hst : a.yStart2 = a.yStep2) (hH : a.yStep2 ≤ H) :
    ∀ fuel j y2 y1 y0, y2 = min H (j * a.yStep2) → H ≤ fuel + y2 →
      ∃ bs, RowBands a H s1 s0 fuel y2 y1 y0 = some bs ∧
        bs.length = DivHi H a.yStep2 - j := by
  intro fuel
  induction fuel with
  | zero =>
    intro j y2 y1 y0 h2 hf
    refine ⟨[], RowBands_done a H s1 s0 0 y2 y1 y0 (by omega), ?_⟩
    have : ¬ j < DivHi H a.yStep2 := by
      rw [lt_DivHi_iff _ _ _ hy]
      omega
    simp only [List.length_nil]
    omega
  | succ n ih =>
    intro j y2 y1 y0 h2 hf
    by_cases h : y2 < H
    · have hj : j * a.yStep2 < H := by omega
      have hjd : j < DivHi H a.yStep2 := (lt_DivHi_iff _ _ _ hy).mpr hj
      have hnext : RestrictRange (y2 + a.yStep2) a.yStart2 H = min H ((j + 1) * a.yStep2) := by
        unfold RestrictRange
        rw [Nat.add_mul, Nat.one_mul, hst]
        omega
      rw [RowBands_step a H s1 s0 n y2 y1 y0 h]
      obtain ⟨rest, hrest, hlen⟩ := ih (j + 1) _ (RestrictRange (y1 + a.yStep1) a.yStart1 s1)
        (RestrictRange (y0 + a.yStep0) a.yStart0 s0) hnext (by
          rw [hnext, Nat.add_mul, Nat.one_mul]
          omega)
      rw [hrest]
      refine ⟨_, rfl, ?_⟩
      simp only [List.length_cons, hlen]
      omega
    · refine ⟨[], RowBands_done a H s1 s0 (n + 1) y2 y1 y0 (by omega), ?_⟩
      have : ¬ j < DivHi H a.yStep2 := by
        rw [lt_DivHi_iff _ _ _ hy]
        omega
      simp only [List.length_nil]
      omega

/-- After Cdc `SetSize` on a descriptor with `conv[1].dstH >= 1` the row-window fields
are those of the loop body for the final step, and `bufH[2] = Pow2Hi(yStep[2])`. -/
theorem Cdc_SetSize_RowWindow (miC miK L2 L3 : Nat) (s : SynetMergedConvolution16b)
    (hH : 1 ≤ (s.param.conv 1).dstH) :
    RowWindow (SynetMergedConvolution16bCdc.SetSize miC miK L2 L3 s).alg
        (s.param.conv 0) (s.param.conv 1) ∧
      (SynetMergedConvolution16bCdc.SetSize miC miK L2 L3 s).alg.bufH2 =
        Pow2Hi (SynetMergedConvolution16bCdc.SetSize miC miK L2 L3 s).alg.yStep2 ∧
      (SynetMergedConvolution16bCdc.SetSize miC miK L2 L3 s).param = s.param := by
  obtain ⟨y, hy1, hyn, heq, _⟩ := RowSearch_spec SynetMergedConvolution16bCdc.SetSizeRow
    (fun t => decide (SynetMergedConvolution16bCdc.Footprint t ≤ L2)) Cdc_SetSizeRow_idem
    ((SynetMergedConvolution16bCdc.SetSizeHead miC miK L3 s).param.conv 1).dstH
    (SynetMergedConvolution16bCdc.SetSizeHead miC miK L3 s) hH
  have hyn' : y ≤ (s.param.conv 1).dstH := hyn
  unfold SynetMergedConvolution16bCdc.SetSize RowWindow
  simp only [heq]
  refine ⟨⟨?_, ?_, rfl, rfl, rfl, rfl, rfl, rfl⟩, rfl, rfl⟩
  · show 1 ≤ max 1 y
    omega
  · show max 1 y ≤ (s.param.conv 1).dstH
    omega

/-- After Cd `SetSize` on a descriptor with `conv[1].dstH >= 1` the row-window fields are
those of the loop body for the final step, and `bufH[2]` is 0. -/
theorem Cd_SetSize_RowWindow (miC miK L2 L3 : Nat) (s : SynetMergedConvolution16b)
    (hH : 1 ≤ (s.param.conv 1).dstH) :
    RowWindow (SynetMergedConvolution16bCd.SetSize miC miK L2 L3 s).alg
        (s.param.conv 0) (s.param.conv 1) ∧
      (SynetMergedConvolution16bCd.SetSize miC miK L2 L3 s).alg.bufH2 = 0 ∧
      (SynetMergedConvolution16bCd.SetSize miC miK L2 L3 s).param = s.param := by
  obtain ⟨y, hy1, hyn, heq, _⟩ := RowSearch_spec SynetMergedConvolution16bCd.SetSizeRow
    (fun t => decide (SynetMergedConvolution16bCd.Footprint t ≤ L2)) Cd_SetSizeRow_idem
    ((SynetMergedConvolution16bCd.SetSizeHead miC miK L3 s).param.conv 1).dstH
    (SynetMergedConvolution16bCd.SetSizeHead miC miK L3 s) hH
  have hyn' : y ≤ (s.param.conv 1).dstH := hyn
  unfold SynetMergedConvolution16bCd.SetSize RowWindow
  simp only [heq]
  refine ⟨⟨?_, ?_, rfl, rfl, rfl, rfl, rfl, rfl⟩, rfl, rfl⟩
  · show 1 ≤ max 1 y
    omega
  · show max 1 y ≤ (s.param.conv 1).dstH
    omega

/-- The rounds of the row loop for a row window: the loop ends after
`ceil(dstH / yStep[2])` rounds, round `i` handles the output rows
`[i*yStep[2], min(dstH, (i+1)*yStep[2]))`, and the rows of positions 1 and 0 advance
inside `[0, conv[1].srcH]` and `[0, conv[0].srcH]`. -/
theorem RowWindow_partition (a : AlgParam) (c0 c1 : ConvParam) (hw : RowWindow a c0 c1) :
    ∃ bs, RowBands a c1.dstH c1.srcH c0.srcH c1.dstH 0 0 0 = some bs ∧
      bs.length = DivHi c1.dstH a.yStep2 ∧
      ∀ i b, bs[i]? = some b →
        b.yBeg2 = i * a.yStep2 ∧ b.yEnd2 = min c1.dstH ((i + 1) * a.yStep2) ∧
        b.yBeg2 < b.yEnd2 ∧ b.yEnd2 ≤ c1.dstH ∧ b.yEnd2 - b.yBeg2 ≤ a.yStep2 ∧
        b.yBeg1 ≤ b.yEnd1 ∧ b.yEnd1 ≤ c1.srcH ∧ b.yBeg0 ≤ b.yEnd0 ∧ b.yEnd0 ≤ c0.srcH := by
  obtain ⟨hy, hH, hst, _, hs1, _, _, hs0⟩ := hw
  have h1 : a.yStart1 ≤ c1.srcH := by rw [hs1]; exact Nat.min_le_right _ _
  have h0 : a.yStart0 ≤ c0.srcH := by rw [hs0]; exact Nat.min_le_right _ _
  obtain ⟨bs, hbs, hlen⟩ := RowBands_length a c1.dstH c1.srcH c0.srcH hy hst hH c1.dstH 0 0 0 0
    (by simp) (by omega)
  refine ⟨bs, hbs, by simpa using hlen, ?_⟩
  intro i b hb
  have key := RowBands_invariant a c1.dstH c1.srcH c0.srcH
    (fun j y2 y1 y0 => y2 = min c1.dstH (j * a.yStep2) ∧ y1 ≤ c1.srcH ∧ y0 ≤ c0.srcH)
    (fun j b => b.yBeg2 = j * a.yStep2 ∧ b.yEnd2 = min c1.dstH ((j + 1) * a.yStep2) ∧
        b.yBeg2 < b.yEnd2 ∧ b.yEnd2 ≤ c1.dstH ∧ b.yEnd2 - b.yBeg2 ≤ a.yStep2 ∧
        b.yBeg1 ≤ b.yEnd1 ∧ b.yEnd1 ≤ c1.srcH ∧ b.yBeg0 ≤ b.yEnd0 ∧ b.yEnd0 ≤ c0.srcH)
    (by
      intro j y2 y1 y0 ⟨e2, e1, e0⟩ hlt
      simp only [RestrictRange, hst, Nat.add_mul, Nat.one_mul]
      omega)
    c1.dstH 0 0 0 0 bs ⟨by simp, by omega, by omega⟩ hbs i b hb
  simpa using key

/-- A multiple of the stride splits off one window step. -/
theorem rows_needed_step (m y s : Nat) (hm : 1 ≤ m) :
    (m + y - 1) * s = (m - 1) * s + y * s := by
  obtain ⟨n, rfl⟩ : ∃ n, m = n + 1 := ⟨m - 1, by omega⟩
  have : n + 1 + y - 1 = n + y := by omega
  rw [this, Nat.add_sub_cancel, Nat.add_mul]

/-- Receptive-field coverage for a row window: when `padY <= kernelY`, at every round the
rows of position 1 reach the last input row needed for the output rows below `yEnd2`, or
the end of the image. -/
theorem RowWindow_coverage (a : AlgParam) (c0 c1 : ConvParam) (hw : RowWindow a c0 c1)
    (hpad : c1.padY ≤ c1.kernelY) (bs : List RowBand)
    (hbs : RowBands a c1.dstH c1.srcH c0.srcH c1.dstH 0 0 0 = some bs) :
    ∀ (i : Nat) (b : RowBand), bs[i]? = some b →
      min c1.srcH ((b.yEnd2 - 1) * c1.strideY + c1.kernelY - c1.padY) ≤ b.yEnd1 := by
  obtain ⟨hy, hH, hst, hp1, hs1, _, _, _⟩ := hw
  have hsub : SizeSub ((a.yStep2 - 1) * c1.strideY + c1.kernelY) c1.padY =
      (a.yStep2 - 1) * c1.strideY + c1.kernelY - c1.padY := by
    unfold SizeSub
    rw [if_pos (by omega)]
  rw [hst, hsub] at hs1
  intro i b hb
  have key := RowBands_invariant a c1.dstH c1.srcH c0.srcH
    (fun j y2 y1 _ => y2 = min c1.dstH (j * a.yStep2) ∧
      (1 ≤ j → min c1.srcH ((j * a.yStep2 - 1) * c1.strideY + c1.kernelY - c1.padY) ≤ y1))
    (fun _ b => min c1.srcH ((b.yEnd2 - 1) * c1.strideY + c1.kernelY - c1.padY) ≤ b.yEnd1)
    (by
      intro j y2 y1 y0 ⟨e2, e1⟩ hlt
      have hnext : RestrictRange (y2 + a.yStep2) a.yStart2 c1.dstH =
          min c1.dstH ((j + 1) * a.yStep2) := by
        simp only [RestrictRange, hst, Nat.add_mul, Nat.one_mul]
        omega
      have hcov : min c1.srcH (((j + 1) * a.yStep2 - 1) * c1.strideY + c1.kernelY -
          c1.padY) ≤ RestrictRange (y1 + a.yStep1) a.yStart1 c1.srcH := by
        simp only [RestrictRange, hp1]
        rcases Nat.eq_zero_or_pos j with hj | hj
        · subst hj
          simp only [Nat.zero_add, Nat.one_mul]
          omega
        · have hjy : 1 ≤ j * a.yStep2 := Nat.mul_pos hj hy
          have hsplit := rows_needed_step (j * a.yStep2) a.yStep2 c1.strideY hjy
          have := e1 hj
          rw [Nat.add_mul, Nat.one_mul, hsplit]
          omega
      refine ⟨?_, hnext, fun _ => hcov⟩
      show min c1.srcH ((RestrictRange (y2 + a.yStep2) a.yStart2 c1.dstH - 1) * c1.strideY +
        c1.kernelY - c1.padY) ≤ RestrictRange (y1 + a.yStep1) a.yStart1 c1.srcH
      have hmono : (RestrictRange (y2 + a.yStep2) a.yStart2 c1.dstH - 1) * c1.strideY ≤
          ((j + 1) * a.yStep2 - 1) * c1.strideY := by
        apply Nat.mul_le_mul_right
        rw [hnext]
        omega
      omega)
    c1.dstH 0 0 0 0 bs ⟨by simp, by omega⟩ hbs i b hb
  exact key

/-- Height of the rows of position 1 for a row window: when `strideY <= kernelY`, every
round hands at most `bufH[1]` rows to the stage that fills `buf1`. -/
theorem RowWindow_band_height (a : AlgParam) (c0 c1 : ConvParam) (hw : RowWindow a c0 c1)
    (hstride : c1.strideY ≤ c1.kernelY) (bs : List RowBand)
    (hbs : RowBands a c1.dstH c1.srcH c0.srcH c1.dstH 0 0 0 = some bs) :
    ∀ (i : Nat) (b : RowBand), bs[i]? = some b →
      b.yBeg1 ≤ b.yEnd1 ∧ b.yEnd1 - b.yBeg1 ≤ a.bufH1 := by
  obtain ⟨hy, hH, hst, hp1, hs1, hb1, _, _⟩ := hw
  have h1 : a.yStart1 ≤ c1.srcH := by rw [hs1]; exact Nat.min_le_right _ _
  have hbuf := Pow2Hi_ge (max ((a.yStep2 - 1) * c1.strideY + c1.kernelY) a.yStart1)
  rw [← hb1] at hbuf
  have hsplit : a.yStep2 * c1.strideY = (a.yStep2 - 1) * c1.strideY + c1.strideY := by
    obtain ⟨n, hn⟩ : ∃ n, a.yStep2 = n + 1 := ⟨a.yStep2 - 1, by omega⟩
    rw [hn, Nat.add_sub_cancel, Nat.add_mul, Nat.one_mul]
  intro i b hb
  have key := RowBands_invariant a c1.dstH c1.srcH c0.srcH
    (fun j _ y1 _ => (j = 0 → y1 = 0) ∧ (1 ≤ j → a.yStart1 ≤ y1 ∧ y1 ≤ c1.srcH))
    (fun _ b => b.yBeg1 ≤ b.yEnd1 ∧ b.yEnd1 - b.yBeg1 ≤ a.bufH1)
    (by
      intro j y2 y1 y0 ⟨e0, e1⟩ _
      simp only [RestrictRange, hp1]
      rcases Nat.eq_zero_or_pos j with hj | hj
      · have := e0 hj
        omega
      · have := e1 hj
        omega)
    c1.dstH 0 0 0 0 bs ⟨fun _ => rfl, fun h => by omega⟩ hbs i b hb
  exact key

/-- The rounds of the row loop for a row window, with the calls of `RowLoop`, the number
of rounds, the rows of each round, and how the rounds follow each other. -/
theorem RowWindow_rounds (a : AlgParam) (c0 c1 : ConvParam) (hw : RowWindow a c0 c1) :
    ∃ bs : List RowBand,
      RowBands a c1.dstH c1.srcH c0.srcH c1.dstH 0 0 0 = some bs ∧
      (∀ band, RowLoop a c1.dstH c1.srcH c0.srcH band c1.dstH 0 0 0 =
        some (bs.flatMap fun b => band b.yBeg2 b.yEnd2 b.yBeg1 b.yEnd1 b.yBeg0 b.yEnd0)) ∧
      bs.length = DivHi c1.dstH a.yStep2 ∧
      (∀ (i : Nat) (b : RowBand), bs[i]? = some b →
        b.yBeg2 = i * a.yStep2 ∧ b.yEnd2 = min c1.dstH ((i + 1) * a.yStep2) ∧
        b.yBeg2 < b.yEnd2 ∧ b.yEnd2 ≤ c1.dstH ∧ b.yEnd2 - b.yBeg2 ≤ a.yStep2 ∧
        b.yBeg1 ≤ b.yEnd1 ∧ b.yEnd1 ≤ c1.srcH ∧ b.yBeg0 ≤ b.yEnd0 ∧ b.yEnd0 ≤ c0.srcH) ∧
      (∀ b : RowBand, bs[0]? = some b → b.yBeg2 = 0 ∧ b.yBeg1 = 0 ∧ b.yBeg0 = 0) ∧
      (∀ (i : Nat) (b b' : RowBand), bs[i]? = some b → bs[i + 1]? = some b' →
        b'.yBeg2 = b.yEnd2 ∧ b'.yBeg1 = b.yEnd1 ∧ b'.yBeg0 = b.yEnd0) ∧
      (∀ b : RowBand, bs[bs.length - 1]? = some b → b.yEnd2 = c1.dstH) := by
  obtain ⟨bs, hbs, hlen, hall⟩ := RowWindow_partition a c0 c1 hw
  obtain ⟨hfirst, hnext⟩ := RowBands_consecutive a c1.dstH c1.srcH c0.srcH c1.dstH 0 0 0 bs hbs
  refine ⟨bs, hbs, ?_, hlen, hall, hfirst, hnext, ?_⟩
  · intro band
    rw [RowLoop_eq_bands, hbs]
    rfl
  · intro b hb
    have hlt : bs.length - 1 < bs.length := by
      obtain ⟨h, _⟩ := List.getElem?_eq_some.mp hb
      exact h
    have h2 := (hall _ b hb).2.1
    have hcov := le_DivHi_mul c1.dstH a.yStep2 hw.1
    rw [h2, Nat.sub_add_cancel (by omega), hlen]
    exact Nat.min_eq_left hcov

/-- C21 (as amended): row-band partition and termination. After Cdc or Cd `SetSize` on a
descriptor with `conv[1].dstH >= 1`, the row loop of `Forward` ends (in each channel
tile the calls are those of the body on the rounds `bs`), it runs exactly
`ceil(dstH / yStep[2])` rounds, round `i` handles the rows
`[i*yStep[2], min(dstH, (i+1)*yStep[2]))`, which are non-empty, at most `yStep[2]` high,
consecutive from 0 and end at `conv[1].dstH`; `yBeg1` and `yBeg0` start at 0, each round
starts where the previous one ended, and they never decrease nor pass `conv[1].srcH` and
`conv[0].srcH`. For Cdc `yStep[2] <= bufH[2]`; for Cd `bufH[2]` is 0. -/
theorem row_bands_partition (miC miK L2 L3 : Nat) (s r : SynetMergedConvolution16b)
    (hH : 1 ≤ (s.param.conv 1).dstH)
    (hr : r = SynetMergedConvolution16bCdc.SetSize miC miK L2 L3 s ∨
      r = SynetMergedConvolution16bCd.SetSize miC miK L2 L3 s) :
    r.param = s.param ∧ 1 ≤ r.alg.yStep2 ∧
    (r = SynetMergedConvolution16bCdc.SetSize miC miK L2 L3 s → r.alg.yStep2 ≤ r.alg.bufH2) ∧
    (r = SynetMergedConvolution16bCd.SetSize miC miK L2 L3 s → r.alg.bufH2 = 0) ∧
    ∃ bs : List RowBand,
      RowBands r.alg (r.param.conv 1).dstH (r.param.conv 1).srcH (r.param.conv 0).srcH
        (r.param.conv 1).dstH 0 0 0 = some bs ∧
      (∀ band, RowLoop r.alg (r.param.conv 1).dstH (r.param.conv 1).srcH
          (r.param.conv 0).srcH band (r.param.conv 1).dstH 0 0 0 =
        some (bs.flatMap fun b => band b.yBeg2 b.yEnd2 b.yBeg1 b.yEnd1 b.yBeg0 b.yEnd0)) ∧
      bs.length = DivHi (r.param.conv 1).dstH r.alg.yStep2 ∧
      (∀ (i : Nat) (b : RowBand), bs[i]? = some b →
        b.yBeg2 = i * r.alg.yStep2 ∧
        b.yEnd2 = min (r.param.conv 1).dstH ((i + 1) * r.alg.yStep2) ∧
        b.yBeg2 < b.yEnd2 ∧ b.yEnd2 ≤ (r.param.conv 1).dstH ∧
        b.yEnd2 - b.yBeg2 ≤ r.alg.yStep2 ∧
        b.yBeg1 ≤ b.yEnd1 ∧ b.yEnd1 ≤ (r.param.conv 1).srcH ∧
        b.yBeg0 ≤ b.yEnd0 ∧ b.yEnd0 ≤ (r.param.conv 0).srcH) ∧
      (∀ b : RowBand, bs[0]? = some b → b.yBeg2 = 0 ∧ b.yBeg1 = 0 ∧ b.yBeg0 = 0) ∧
      (∀ (i : Nat) (b b' : RowBand), bs[i]? = some b → bs[i + 1]? = some b' →
        b'.yBeg2 = b.yEnd2 ∧ b'.yBeg1 = b.yEnd1 ∧ b'.yBeg0 = b.yEnd0) ∧
      (∀ b : RowBand, bs[bs.length - 1]? = some b → b.yEnd2 = (r.param.conv 1).dstH) := by
  have hw : RowWindow r.alg (s.param.conv 0) (s.param.conv 1) ∧ r.param = s.param := by
    rcases hr with h | h
    · rw [h]
      exact ⟨(Cdc_SetSize_RowWindow miC miK L2 L3 s hH).1,
        (Cdc_SetSize_RowWindow miC miK L2 L3 s hH).2.2⟩
    · rw [h]
      exact ⟨(Cd_SetSize_RowWindow miC miK L2 L3 s hH).1,
        (Cd_SetSize_RowWindow miC miK L2 L3 s hH).2.2⟩
  refine ⟨hw.2, hw.1.1, ?_, ?_, ?_⟩
  · intro h
    rw [h, (Cdc_SetSize_RowWindow miC miK L2 L3 s hH).2.1]
    exact Pow2Hi_ge _
  · intro h
    rw [h]
    exact (Cd_SetSize_RowWindow miC miK L2 L3 s hH).2.1
  · rw [hw.2]
    exact RowWindow_rounds r.alg (s.param.conv 0) (s.param.conv 1) hw.1

/-- C21 (witness): the Cdc engine of the bottleneck chain `16 → 32 → 32 → 16` (8×8
image) after `SetSize(8, 2)` with a 4 KiB L2 and a 1 MiB L3, whose row window is 2 rows:
four rounds. -/
theorem row_bands_partition_witness :
    1 ≤ ((SynetMergedConvolution16b.create bottleneckDescriptor).param.conv 1).dstH ∧
    (bottleneckCdc = SynetMergedConvolution16bCdc.SetSize 8 2 4096 1048576
        (SynetMergedConvolution16b.create bottleneckDescriptor) ∨
      bottleneckCdc = SynetMergedConvolution16bCd.SetSize 8 2 4096 1048576
        (SynetMergedConvolution16b.create bottleneckDescriptor)) ∧
    (bottleneckCdc.param = (SynetMergedConvolution16b.create bottleneckDescriptor).param ∧
    1 ≤ bottleneckCdc.alg.yStep2 ∧
    (bottleneckCdc = SynetMergedConvolution16bCdc.SetSize 8 2 4096 1048576
        (SynetMergedConvolution16b.create bottleneckDescriptor) →
      bottleneckCdc.alg.yStep2 ≤ bottleneckCdc.alg.bufH2) ∧
    (bottleneckCdc = SynetMergedConvolution16bCd.SetSize 8 2 4096 1048576
        (SynetMergedConvolution16b.create bottleneckDescriptor) →
      bottleneckCdc.alg.bufH2 = 0) ∧
    ∃ bs : List RowBand,
      RowBands bottleneckCdc.alg (bottleneckCdc.param.conv 1).dstH
        (bottleneckCdc.param.conv 1).srcH (bottleneckCdc.param.conv 0).srcH
        (bottleneckCdc.param.conv 1).dstH 0 0 0 = some bs ∧
      (∀ band, RowLoop bottleneckCdc.alg (bottleneckCdc.param.conv 1).dstH
          (bottleneckCdc.param.conv 1).srcH (bottleneckCdc.param.conv 0).srcH band
          (bottleneckCdc.param.conv 1).dstH 0 0 0 =
        some (bs.flatMap fun b => band b.yBeg2 b.yEnd2 b.yBeg1 b.yEnd1 b.yBeg0 b.yEnd0)) ∧
      bs.length = DivHi (bottleneckCdc.param.conv 1).dstH bottleneckCdc.alg.yStep2 ∧
      (∀ (i : Nat) (b : RowBand), bs[i]? = some b →
        b.yBeg2 = i * bottleneckCdc.alg.yStep2 ∧
        b.yEnd2 = min (bottleneckCdc.param.conv 1).dstH ((i + 1) * bottleneckCdc.alg.yStep2) ∧
        b.yBeg2 < b.yEnd2 ∧ b.yEnd2 ≤ (bottleneckCdc.param.conv 1).dstH ∧
        b.yEnd2 - b.yBeg2 ≤ bottleneckCdc.alg.yStep2 ∧
        b.yBeg1 ≤ b.yEnd1 ∧ b.yEnd1 ≤ (bottleneckCdc.param.conv 1).srcH ∧
        b.yBeg0 ≤ b.yEnd0 ∧ b.yEnd0 ≤ (bottleneckCdc.param.conv 0).srcH) ∧
      (∀ b : RowBand, bs[0]? = some b → b.yBeg2 = 0 ∧ b.yBeg1 = 0 ∧ b.yBeg0 = 0) ∧
      (∀ (i : Nat) (b b' : RowBand), bs[i]? = some b → bs[i + 1]? = some b' →
        b'.yBeg2 = b.yEnd2 ∧ b'.yBeg1 = b.yEnd1 ∧ b'.yBeg0 = b.yEnd0) ∧
      (∀ b : RowBand, bs[bs.length - 1]? = some b →
        b.yEnd2 = (bottleneckCdc.param.conv 1).dstH)) :=
  ⟨by decide, Or.inl rfl,
    row_bands_partition 8 2 4096 1048576 (SynetMergedConvolution16b.create bottleneckDescriptor)
      bottleneckCdc (by decide) (Or.inl rfl)⟩

/-- C21 (counterexample): the Cd engine of the first two stages of the bottleneck chain
(batch of two 8×8 images) after `SetSize(8, 2)` with a 4 KiB L2 and a 1 MiB L3 has
`conv[1].dstH = 8`, a row step `yStep[2] = 1` and `bufH[2] = 0`: the bound
`yStep[2] <= bufH[2]` does not hold for Cd. -/
theorem cd_row_step_exceeds_bufH2 :
    bottleneckBatchCd = SynetMergedConvolution16bCd.SetSize 8 2 4096 1048576
      (SynetMergedConvolution16b.create { bottleneckBatchDescriptor with count := 2 }) ∧
    (bottleneckBatchCd.param.conv 1).dstH = 8 ∧
    bottleneckBatchCd.alg.yStep2 = 1 ∧ bottleneckBatchCd.alg.bufH2 = 0 ∧
    ¬ bottleneckBatchCd.alg.yStep2 ≤ bottleneckBatchCd.alg.bufH2 := by
  refine ⟨rfl, ?_, ?_, ?_, ?_⟩ <;> decide

/-- C22: receptive-field coverage of Cdc. For a descriptor whose depthwise stage has
`padY <= kernelY` and at least one output row (as the output-size formula gives), after
`SetSize` the row loop of `Forward` ends and at every round
`yEnd1 >= min(conv[1].srcH, (yEnd2 - 1)*strideY + kernelY - padY)`: every input row
`dy*strideY + ky - padY` of the depthwise stage with `dy < yEnd2`, `ky < kernelY` that is
inside the image is below `yEnd1`. -/
theorem cdc_receptive_field_coverage (miC miK L2 L3 : Nat) (s : SynetMergedConvolution16b)
    (hH : 1 ≤ (s.param.conv 1).dstH)
    (hpad : (s.param.conv 1).padY ≤ (s.param.conv 1).kernelY) :
    ∃ bs : List RowBand,
      RowBands (SynetMergedConvolution16bCdc.SetSize miC miK L2 L3 s).alg
        (s.param.conv 1).dstH (s.param.conv 1).srcH (s.param.conv 0).srcH
        (s.param.conv 1).dstH 0 0 0 = some bs ∧
      (∀ band, RowLoop (SynetMergedConvolution16bCdc.SetSize miC miK L2 L3 s).alg
          (s.param.conv 1).dstH (s.param.conv 1).srcH (s.param.conv 0).srcH band
          (s.param.conv 1).dstH 0 0 0 =
        some (bs.flatMap fun b => band b.yBeg2 b.yEnd2 b.yBeg1 b.yEnd1 b.yBeg0 b.yEnd0)) ∧
      1 ≤ bs.length ∧
      ∀ (i : Nat) (b : RowBand), bs[i]? = some b →
        min (s.param.conv 1).srcH ((b.yEnd2 - 1) * (s.param.conv 1).strideY +
          (s.param.conv 1).kernelY - (s.param.conv 1).padY) ≤ b.yEnd1 ∧
        ∀ dy ky, dy < b.yEnd2 → ky < (s.param.conv 1).kernelY →
          (s.param.conv 1).padY ≤ dy * (s.param.conv 1).strideY + ky →
          dy * (s.param.conv 1).strideY + ky - (s.param.conv 1).padY <
            (s.param.conv 1).srcH →
          dy * (s.param.conv 1).strideY + ky - (s.param.conv 1).padY < b.yEnd1 := by
  obtain ⟨hw, _, _⟩ := Cdc_SetSize_RowWindow miC miK L2 L3 s hH
  obtain ⟨bs, hbs, hlen, _⟩ := RowWindow_partition _ _ _ hw
  have hpos : 0 < DivHi (s.param.conv 1).dstH
      (SynetMergedConvolution16bCdc.SetSize miC miK L2 L3 s).alg.yStep2 :=
    (lt_DivHi_iff _ _ _ hw.1).mpr (by omega)
  refine ⟨bs, hbs, fun band => by rw [RowLoop_eq_bands, hbs]; rfl, by omega, ?_⟩
  intro i b hb
  have hcov := RowWindow_coverage _ _ _ hw hpad bs hbs i b hb
  refine ⟨hcov, ?_⟩
  intro dy ky hdy hky hp hin
  have hmono : dy * (s.param.conv 1).strideY ≤ (b.yEnd2 - 1) * (s.param.conv 1).strideY :=
    Nat.mul_le_mul_right _ (by omega)
  omega

/-- C22 (witness): the Cdc engine of the bottleneck chain `16 → 32 → 32 → 16` (8×8 image,
depthwise 3×3 with stride 1 and pad 1) after `SetSize(8, 2)` with a 4 KiB L2 and a 1 MiB
L3. -/
theorem cdc_receptive_field_coverage_witness :
    1 ≤ ((SynetMergedConvolution16b.create bottleneckDescriptor).param.conv 1).dstH ∧
    ((SynetMergedConvolution16b.create bottleneckDescriptor).param.conv 1).padY ≤
      ((SynetMergedConvolution16b.create bottleneckDescriptor).param.conv 1).kernelY ∧
    ∃ bs : List RowBand,
      RowBands (SynetMergedConvolution16bCdc.SetSize 8 2 4096 1048576
          (SynetMergedConvolution16b.create bottleneckDescriptor)).alg
        ((SynetMergedConvolution16b.create bottleneckDescriptor).param.conv 1).dstH
        ((SynetMergedConvolution16b.create bottleneckDescriptor).param.conv 1).srcH
        ((SynetMergedConvolution16b.create bottleneckDescriptor).param.conv 0).srcH
        ((SynetMergedConvolution16b.create bottleneckDescriptor).param.conv 1).dstH 0 0 0 =
          some bs ∧
      (∀ band, RowLoop (SynetMergedConvolution16bCdc.SetSize 8 2 4096 1048576
            (SynetMergedConvolution16b.create bottleneckDescriptor)).alg
          ((SynetMergedConvolution16b.create bottleneckDescriptor).param.conv 1).dstH
          ((SynetMergedConvolution16b.create bottleneckDescriptor).param.conv 1).srcH
          ((SynetMergedConvolution16b.create bottleneckDescriptor).param.conv 0).srcH band
          ((SynetMergedConvolution16b.create bottleneckDescriptor).param.conv 1).dstH 0 0 0 =
        some (bs.flatMap fun b => band b.yBeg2 b.yEnd2 b.yBeg1 b.yEnd1 b.yBeg0 b.yEnd0)) ∧
      1 ≤ bs.length ∧
      ∀ (i : Nat) (b : RowBand), bs[i]? = some b →
        min ((SynetMergedConvolution16b.create bottleneckDescriptor).param.conv 1).srcH
          ((b.yEnd2 - 1) *
            ((SynetMergedConvolution16b.create bottleneckDescriptor).param.conv 1).strideY +
          ((SynetMergedConvolution16b.create bottleneckDescriptor).param.conv 1).kernelY -
          ((SynetMergedConvolution16b.create bottleneckDescriptor).param.conv 1).padY) ≤
            b.yEnd1 ∧
        ∀ dy ky, dy < b.yEnd2 →
          ky < ((SynetMergedConvolution16b.create bottleneckDescriptor).param.conv 1).kernelY →
          ((SynetMergedConvolution16b.create bottleneckDescriptor).param.conv 1).padY ≤
            dy * ((SynetMergedConvolution16b.create bottleneckDescriptor).param.conv 1).strideY +
              ky →
          dy * ((SynetMergedConvolution16b.create bottleneckDescriptor).param.conv 1).strideY +
              ky - ((SynetMergedConvolution16b.create bottleneckDescriptor).param.conv 1).padY <
            ((SynetMergedConvolution16b.create bottleneckDescriptor).param.conv 1).srcH →
          dy * ((SynetMergedConvolution16b.create bottleneckDescriptor).param.conv 1).strideY +
              ky - ((SynetMergedConvolution16b.create bottleneckDescriptor).param.conv 1).padY <
            b.yEnd1 :=
  ⟨by decide, by decide,
    cdc_receptive_field_coverage 8 2 4096 1048576
      (SynetMergedConvolution16b.create bottleneckDescriptor) (by decide) (by decide)⟩

/-- Cdc `SetSize` leaves the descriptor as it is. -/
theorem Cdc_SetSize_param (miC miK L2 L3 : Nat) (s : SynetMergedConvolution16b) :
    (SynetMergedConvolution16bCdc.SetSize miC miK L2 L3 s).param = s.param := by
  unfold SynetMergedConvolution16bCdc.SetSize
  rcases RowSearch_cases SynetMergedConvolution16bCdc.SetSizeRow
    (fun t => decide (SynetMergedConvolution16bCdc.Footprint t ≤ L2)) Cdc_SetSizeRow_idem
    ((SynetMergedConvolution16bCdc.SetSizeHead miC miK L3 s).param.conv 1).dstH
    (SynetMergedConvolution16bCdc.SetSizeHead miC miK L3 s) with h | ⟨y, h⟩ <;>
  · simp only [h]
    rfl

/-- Cd `SetSize` leaves the descriptor as it is. -/
theorem Cd_SetSize_param (miC miK L2 L3 : Nat) (s : SynetMergedConvolution16b) :
    (SynetMergedConvolution16bCd.SetSize miC miK L2 L3 s).param = s.param := by
  unfold SynetMergedConvolution16bCd.SetSize
  rcases RowSearch_cases SynetMergedConvolution16bCd.SetSizeRow
    (fun t => decide (SynetMergedConvolution16bCd.Footprint t ≤ L2)) Cd_SetSizeRow_idem
    ((SynetMergedConvolution16bCd.SetSizeHead miC miK L3 s).param.conv 1).dstH
    (SynetMergedConvolution16bCd.SetSizeHead miC miK L3 s) with h | ⟨y, h⟩ <;>
  · simp only [h]
    rfl

/-- C23 (as amended): row-buffer height at the intermediate position. After Cdc or Cd
`SetSize`, for every descriptor whose depthwise stage has `strideY <= kernelY` (any
`padY`), the row loop of `Forward` ends (its calls are those of the body on the rounds
`bs`) and at every round the rows `[yBeg1, yEnd1)` produced into `buf1` satisfy
`yEnd1 - yBeg1 <= bufH[1]`. -/
theorem row_buffer_height_suffices (miC miK L2 L3 : Nat) (s r : SynetMergedConvolution16b)
    (hstride : (s.param.conv 1).strideY ≤ (s.param.conv 1).kernelY)
    (hr : r = SynetMergedConvolution16bCdc.SetSize miC miK L2 L3 s ∨
      r = SynetMergedConvolution16bCd.SetSize miC miK L2 L3 s) :
    r.param = s.param ∧
    ∃ bs : List RowBand,
      RowBands r.alg (r.param.conv 1).dstH (r.param.conv 1).srcH (r.param.conv 0).srcH
        (r.param.conv 1).dstH 0 0 0 = some bs ∧
      (∀ band, RowLoop r.alg (r.param.conv 1).dstH (r.param.conv 1).srcH
          (r.param.conv 0).srcH band (r.param.conv 1).dstH 0 0 0 =
        some (bs.flatMap fun b => band b.yBeg2 b.yEnd2 b.yBeg1 b.yEnd1 b.yBeg0 b.yEnd0)) ∧
      (1 ≤ (s.param.conv 1).dstH → 1 ≤ bs.length) ∧
      ∀ (i : Nat) (b : RowBand), bs[i]? = some b →
        b.yBeg1 ≤ b.yEnd1 ∧ b.yEnd1 - b.yBeg1 ≤ r.alg.bufH1 := by
  have hp : r.param = s.param := by
    rcases hr with h | h
    · rw [h]; exact Cdc_SetSize_param miC miK L2 L3 s
    · rw [h]; exact Cd_SetSize_param miC miK L2 L3 s
  refine ⟨hp, ?_⟩
  rw [hp]
  rcases Nat.eq_zero_or_pos (s.param.conv 1).dstH with h0 | hH
  · have hbs : RowBands r.alg (s.param.conv 1).dstH (s.param.conv 1).srcH
        (s.param.conv 0).srcH (s.param.conv 1).dstH 0 0 0 = some [] :=
      RowBands_done _ _ _ _ _ _ _ _ (by omega)
    refine ⟨[], hbs, fun band => by rw [RowLoop_eq_bands, hbs]; rfl, fun h => by omega, ?_⟩
    intro i b hb
    simp at hb
  · have hw : RowWindow r.alg (s.param.conv 0) (s.param.conv 1) := by
      rcases hr with h | h
      · rw [h]; exact (Cdc_SetSize_RowWindow miC miK L2 L3 s hH).1
      · rw [h]; exact (Cd_SetSize_RowWindow miC miK L2 L3 s hH).1
    obtain ⟨bs, hbs, hlen, _⟩ := RowWindow_partition _ _ _ hw
    have hpos : 0 < DivHi (s.param.conv 1).dstH r.alg.yStep2 :=
      (lt_DivHi_iff _ _ _ hw.1).mpr (by omega)
    exact ⟨bs, hbs, fun band => by rw [RowLoop_eq_bands, hbs]; rfl, fun _ => by omega,
      RowWindow_band_height _ _ _ hw hstride bs hbs⟩

/-- C23 (witness): the Cd engine of the first two stages of the bottleneck chain (batch
of two 8×8 images, depthwise 3×3 with stride 1) after `SetSize(8, 2)` with a 4 KiB L2 and
a 1 MiB L3. -/
theorem row_buffer_height_suffices_witness :
    ((SynetMergedConvolution16b.create
      { bottleneckBatchDescriptor with count := 2 }).param.conv 1).strideY ≤
      ((SynetMergedConvolution16b.create
        { bottleneckBatchDescriptor with count := 2 }).param.conv 1).kernelY ∧
    (bottleneckBatchCd.param = (SynetMergedConvolution16b.create
      { bottleneckBatchDescriptor with count := 2 }).param ∧
    ∃ bs : List RowBand,
      RowBands bottleneckBatchCd.alg (bottleneckBatchCd.param.conv 1).dstH
        (bottleneckBatchCd.param.conv 1).srcH (bottleneckBatchCd.param.conv 0).srcH
        (bottleneckBatchCd.param.conv 1).dstH 0 0 0 = some bs ∧
      (∀ band, RowLoop bottleneckBatchCd.alg (bottleneckBatchCd.param.conv 1).dstH
          (bottleneckBatchCd.param.conv 1).srcH (bottleneckBatchCd.param.conv 0).srcH band
          (bottleneckBatchCd.param.conv 1).dstH 0 0 0 =
        some (bs.flatMap fun b => band b.yBeg2 b.yEnd2 b.yBeg1 b.yEnd1 b.yBeg0 b.yEnd0)) ∧
      (1 ≤ ((SynetMergedConvolution16b.create
        { bottleneckBatchDescriptor with count := 2 }).param.conv 1).dstH → 1 ≤ bs.length) ∧
      ∀ (i : Nat) (b : RowBand), bs[i]? = some b →
        b.yBeg1 ≤ b.yEnd1 ∧ b.yEnd1 - b.yBeg1 ≤ bottleneckBatchCd.alg.bufH1) :=
  ⟨by decide,
    row_buffer_height_suffices 8 2 4096 1048576
      (SynetMergedConvolution16b.create { bottleneckBatchDescriptor with count := 2 })
      bottleneckBatchCd (by decide) (Or.inr rfl)⟩

/-- C23 (counterexample): the chain `16 → 32 → 32 → 16` whose depthwise stage is 1×1 with
stride 2 and no padding on 2 input rows (`padY = 0 <= kernelY = 1`, one output row).
After `SetSize(8, 2)` with a 4 KiB L2 and a 1 MiB L3, for Cdc and for Cd, `bufH[1]` is 1
and the only round of the row loop has `yBeg1 = 0`, `yEnd1 = 2`: two rows are produced
into a buffer of one row. -/
theorem row_band_exceeds_bufH1 :
    (subsampleDescriptor.conv 1).padY ≤ (subsampleDescriptor.conv 1).kernelY ∧
    (subsampleDescriptor.conv 1).dstH = 1 ∧
    (SynetMergedConvolution16bCdc.SetSize 8 2 4096 1048576
      (SynetMergedConvolution16b.create subsampleDescriptor)).alg.bufH1 = 1 ∧
    RowBands (SynetMergedConvolution16bCdc.SetSize 8 2 4096 1048576
        (SynetMergedConvolution16b.create subsampleDescriptor)).alg
      (subsampleDescriptor.conv 1).dstH (subsampleDescriptor.conv 1).srcH
      (subsampleDescriptor.conv 0).srcH (subsampleDescriptor.conv 1).dstH 0 0 0 =
        some [{ yBeg2 := 0, yEnd2 := 1, yBeg1 := 0, yEnd1 := 2, yBeg0 := 0, yEnd0 := 2 }] ∧
    (SynetMergedConvolution16bCd.SetSize 8 2 4096 1048576
      (SynetMergedConvolution16b.create { subsampleDescriptor with count := 2 })).alg.bufH1 =
        1 ∧
    RowBands (SynetMergedConvolution16bCd.SetSize 8 2 4096 1048576
        (SynetMergedConvolution16b.create { subsampleDescriptor with count := 2 })).alg
      (subsampleDescriptor.conv 1).dstH (subsampleDescriptor.conv 1).srcH
      (subsampleDescriptor.conv 0).srcH (subsampleDescriptor.conv 1).dstH 0 0 0 =
        some [{ yBeg2 := 0, yEnd2 := 1, yBeg1 := 0, yEnd1 := 2, yBeg0 := 0, yEnd0 := 2 }] ∧
    ¬ 2 - 0 ≤ 1 := by
  refine ⟨?_, ?_, ?_, ?_, ?_, ?_, ?_⟩ <;> decide

/-! ## Channel tiles: lemmas and theorems -/

theorem ChannelTiles_eq (C maC : Nat) :
    ChannelTiles C maC =
      (List.range (DivHi C maC)).map fun i => (i * maC, min maC (C - i * maC)) := by
  unfold ChannelTiles StepRange
  rw [List.map_map]
  apply List.map_congr_left
  intro i _
  simp only [Function.comp, Prod.mk.injEq, true_and]
  omega

/-- The widths of the first `n` rounds of the channel-tile loop add up to the channels
below the start of round `n`. -/
theorem tile_width_sum (C maC : Nat) :
    ∀ n, ((List.range n).map fun i => min maC (C - i * maC)).sum = min C (n * maC) := by
  intro n
  induction n with
  | zero => simp
  | succ n ih =>
    rw [List.range_succ, List.map_append, List.sum_append, ih, Nat.add_mul, Nat.one_mul]
    simp only [List.map_cons, List.map_nil, List.sum_cons, List.sum_nil, Nat.add_zero]
    omega

/-- C24: channel-tile partition. In the channel-tile loop of the Cdc, Cd and Dc `Forward`
functions with `a.maC > 0` and `C` the tiled channel count, the rounds are the tiles
`(c, maC_actual)` with starts `0, maC, 2*maC, ...` below `C` and widths
`min(maC, C - c) >= 1`; every tile but the last has the full width, every channel below
`C` lies in exactly one tile (the tiles are disjoint and cover `[0, C)`), the widths add
up to `C`, and, `C` being the channel count of a convolution stage (`C >= 1`), exactly one
tile satisfies `c + maC_actual == C`: the last one. A loop over no channel makes no
round. -/
theorem channel_tile_partition (C maC : Nat) (hmaC : 0 < maC) :
    (∀ tile, ChannelLoop C maC tile =
      SeqCalls ((ChannelTiles C maC).map fun t => tile t.1 t.2)) ∧
    (ChannelTiles C maC).length = DivHi C maC ∧
    (∀ i, i < DivHi C maC →
      (ChannelTiles C maC)[i]? = some (i * maC, min maC (C - i * maC)) ∧
      i * maC < C ∧ 1 ≤ min maC (C - i * maC) ∧
      (i + 1 < DivHi C maC → min maC (C - i * maC) = maC) ∧
      (i * maC + min maC (C - i * maC) = C ↔ i + 1 = DivHi C maC)) ∧
    (∀ x, x < C → ∃ i, i < DivHi C maC ∧
      i * maC ≤ x ∧ x < i * maC + min maC (C - i * maC) ∧
      ∀ i', i' < DivHi C maC → i' * maC ≤ x → x < i' * maC + min maC (C - i' * maC) →
        i' = i) ∧
    ((ChannelTiles C maC).map Prod.snd).sum = C ∧
    (1 ≤ C → 1 ≤ DivHi C maC) ∧
    (1 ≤ C → ∃ i, i < DivHi C maC ∧
      (ChannelTiles C maC)[i]? = some (i * maC, min maC (C - i * maC)) ∧
      i * maC + min maC (C - i * maC) = C ∧
      ∀ i', i' < DivHi C maC → i' * maC + min maC (C - i' * maC) = C → i' = i) ∧
    (C = 0 → ChannelTiles C maC = []) := by
  have hnext : ∀ i, i + 1 < DivHi C maC ↔ i * maC + maC < C := by
    intro i
    rw [lt_DivHi_iff _ _ _ hmaC, Nat.add_mul, Nat.one_mul]
  have hlast : ∀ i, i < DivHi C maC →
      (i * maC + min maC (C - i * maC) = C ↔ i + 1 = DivHi C maC) := by
    intro i hi
    have hlt : i * maC < C := (lt_DivHi_iff i C maC hmaC).mp hi
    constructor
    · intro h
      have : ¬ i + 1 < DivHi C maC := fun h' => by
        have := (hnext i).mp h'
        omega
      omega
    · intro h
      have : ¬ i * maC + maC < C := fun h' => by
        have := (hnext i).mpr h'
        omega
      omega
  have hget : ∀ i, i < DivHi C maC →
      (ChannelTiles C maC)[i]? = some (i * maC, min maC (C - i * maC)) := by
    intro i hi
    rw [ChannelTiles_eq]
    exact getElem?_map_range _ _ i hi
  have hpos : 1 ≤ C → 1 ≤ DivHi C maC := fun hC =>
    (lt_DivHi_iff 0 C maC hmaC).mpr (by omega)
  refine ⟨?_, ?_, ?_, ?_, ?_, hpos, ?_, ?_⟩
  · intro tile
    unfold ChannelLoop ChannelTiles
    rw [if_neg (by omega), List.map_map]
    rfl
  · rw [ChannelTiles_eq, List.length_map, List.length_range]
  · intro i hi
    have hlt : i * maC < C := (lt_DivHi_iff i C maC hmaC).mp hi
    refine ⟨hget i hi, hlt, by omega, ?_, hlast i hi⟩
    intro h
    have := (hnext i).mp h
    omega
  · intro x hx
    have h1 : x / maC * maC ≤ x := Nat.div_mul_le_self x maC
    have h2 : x < x / maC * maC + maC := Nat.lt_div_mul_add hmaC
    refine ⟨x / maC, (lt_DivHi_iff _ _ _ hmaC).mpr (by omega), h1, by omega, ?_⟩
    intro i' _ hlo hhi
    have hhi' : x < (i' + 1) * maC := by
      rw [Nat.add_mul, Nat.one_mul]
      omega
    exact (Nat.div_eq_of_lt_le hlo hhi').symm
  · rw [ChannelTiles_eq, List.map_map]
    have h := tile_width_sum C maC (DivHi C maC)
    have hcov := le_DivHi_mul C maC hmaC
    rw [Nat.min_eq_left hcov] at h
    exact h
  · intro hC
    have hD := hpos hC
    have hi : DivHi C maC - 1 < DivHi C maC := by omega
    refine ⟨DivHi C maC - 1, hi, hget _ hi, (hlast _ hi).mpr (by omega), ?_⟩
    intro i' hi' h
    have := (hlast i' hi').mp h
    omega
  · intro hC
    subst hC
    rw [ChannelTiles_eq]
    have : DivHi 0 maC = 0 := by
      unfold DivHi
      exact Nat.div_eq_of_lt (by omega)
    rw [this]
    rfl

/-- C24 (witness): 40 channels in tiles of 16; the tiles are `(0, 16)`, `(16, 16)` and
`(32, 8)`, and `c + maC_actual == 40` holds for the third one only. -/
theorem channel_tile_partition_witness :
    0 < 16 ∧ ChannelTiles 40 16 = [(0, 16), (16, 16), (32, 8)] ∧
    ((∀ tile, ChannelLoop 40 16 tile =
      SeqCalls ((ChannelTiles 40 16).map fun t => tile t.1 t.2)) ∧
    (ChannelTiles 40 16).length = DivHi 40 16 ∧
    (∀ i, i < DivHi 40 16 →
      (ChannelTiles 40 16)[i]? = some (i * 16, min 16 (40 - i * 16)) ∧
      i * 16 < 40 ∧ 1 ≤ min 16 (40 - i * 16) ∧
      (i + 1 < DivHi 40 16 → min 16 (40 - i * 16) = 16) ∧
      (i * 16 + min 16 (40 - i * 16) = 40 ↔ i + 1 = DivHi 40 16)) ∧
    (∀ x, x < 40 → ∃ i, i < DivHi 40 16 ∧
      i * 16 ≤ x ∧ x < i * 16 + min 16 (40 - i * 16) ∧
      ∀ i', i' < DivHi 40 16 → i' * 16 ≤ x → x < i' * 16 + min 16 (40 - i' * 16) →
        i' = i) ∧
    ((ChannelTiles 40 16).map Prod.snd).sum = 40 ∧
    (1 ≤ 40 → 1 ≤ DivHi 40 16) ∧
    (1 ≤ 40 → ∃ i, i < DivHi 40 16 ∧
      (ChannelTiles 40 16)[i]? = some (i * 16, min 16 (40 - i * 16)) ∧
      i * 16 + min 16 (40 - i * 16) = 40 ∧
      ∀ i', i' < DivHi 40 16 → i' * 16 + min 16 (40 - i' * 16) = 40 → i' = i) ∧
    (40 = 0 → ChannelTiles 40 16 = [])) :=
  ⟨by decide, by decide, channel_tile_partition 40 16 (by decide)⟩

/-! ## Strides of the packed weights: lemmas and theorems -/

/-- The tile sizes and the weight strides stored by Cdc `SetSize`. -/
theorem Cdc_SetSize_strides (miC miK L2 L3 : Nat) (s : SynetMergedConvolution16b) :
    (SynetMergedConvolution16bCdc.SetSize miC miK L2 L3 s).alg.miC = miC ∧
    (SynetMergedConvolution16bCdc.SetSize miC miK L2 L3 s).alg.miK = miK ∧
    (SynetMergedConvolution16bCdc.SetSize miC miK L2 L3 s).alg.dw0 =
      AlignHi (s.param.conv 0).srcC miK ∧
    (SynetMergedConvolution16bCdc.SetSize miC miK L2 L3 s).alg.dw1 =
      (s.param.conv 1).kernelY * (s.param.conv 1).kernelX ∧
    (SynetMergedConvolution16bCdc.SetSize miC miK L2 L3 s).alg.dw2 =
      AlignHi (s.param.conv 2).dstC (2 * miC) ∧
    (SynetMergedConvolution16bCdc.SetSize miC miK L2 L3 s).alg.maC =
      AlignHi (AlignHi ((s.param.conv 0).srcC / (WeightSize miC miK s.param 3 / (L3 / 2) + 1))
        (2 * miC)) miK := by
  unfold SynetMergedConvolution16bCdc.SetSize
  rcases RowSearch_cases SynetMergedConvolution16bCdc.SetSizeRow
    (fun t => decide (SynetMergedConvolution16bCdc.Footprint t ≤ L2)) Cdc_SetSizeRow_idem
    ((SynetMergedConvolution16bCdc.SetSizeHead miC miK L3 s).param.conv 1).dstH
    (SynetMergedConvolution16bCdc.SetSizeHead miC miK L3 s) with h | ⟨y, h⟩ <;>
  · simp only [h]
    exact ⟨rfl, rfl, rfl, rfl, rfl, rfl⟩

/-- Index of a cell of the destination tile that starts at channel `F * d`, counted from
the start of the tile. -/
theorem input_tile_base (F h d q f m : Nat) (hF : 0 < F) :
    F * d * (2 * h) + (q * F + f) * 2 + m =
      ((F * d / F * (2 * h / 2) + q) * F + f) * 2 + m := by
  rw [Nat.mul_div_cancel_left _ hF, Nat.mul_div_cancel_left _ (by decide : 0 < 2)]
  ring

/-- The macro block of a pair that lies `q < M` pairs after a block start. -/
theorem block_start (M j q : Nat) (hq : q < M) : (M * j + q) / M * M = M * j := by
  have hM : 0 < M := by omega
  rw [Nat.mul_add_div hM, Nat.div_eq_of_lt hq, Nat.add_zero, Nat.mul_comm]

/-- C25: packer/`Forward` stride consistency of Cdc. With `miC = 2^i` and `miK = 2^k` powers
of two (`k >= 1`: the depth of a micro-kernel is even), after `SetSize` and weight
packing, for every channel-tile start `c` of `Forward` (a multiple of `a.maC` below the
channel count): `c` is a multiple of the tile widths `2*miC` and `miC`; the cells of the
destination-channel tile of `_weightI` that starts at channel `c` are stored from index
`c*dw[0]` on in the order `[pair][lane][member]`; the cells of the channel tile of
`_weightD` that starts at `c` are stored from index `c*dw[1]` on in the order `[k][lane]`;
and the cells of the source-channel macro block of `_weightO` that starts at channel `c`
are stored from index `c*dw[2]` on in the order `[tile][pair][lane][member]`. The channel
count is that of the dimension the tile runs over in each buffer, `conv[0].dstC`,
`conv[1].dstC` and `conv[2].srcC`: one number, `conv[1].dstC`, in a descriptor whose
stages are chained. The macro blocks of `_weightO` have `DivHi(maC, 2)` pairs, so that
`_weightO` is packed for `maC > 0` only. -/
theorem cdc_weight_strides (i k L2 L3 : Nat) (s : SynetMergedConvolution16b) (a : AlgParam)
    (cvt : Nat → Nat) (srcI srcD srcO : Nat → Nat) (c : Nat) (hk : 1 ≤ k)
    (ha : a = (SynetMergedConvolution16bCdc.SetSize (2 ^ i) (2 ^ k) L2 L3 s).alg)
    (hc : a.maC ∣ c) :
    a.miC = 2 ^ i ∧ a.miK = 2 ^ k ∧ a.miC * 2 ∣ c ∧ a.miC ∣ c ∧
    (c < (s.param.conv 0).dstC → ∀ q f m, q < AlignHi (s.param.conv 0).srcC a.miK / 2 →
      f < a.miC * 2 → m < 2 →
      (SetInputWeight cvt a srcI (s.param.conv 0))[
          c * a.dw0 + (q * (a.miC * 2) + f) * 2 + m]? =
        some (if c + f < (s.param.conv 0).dstC ∧ 2 * q + m < (s.param.conv 0).srcC then
          cvt (srcI ((2 * q + m) * (s.param.conv 0).dstC + c + f)) else 0)) ∧
    (c < (s.param.conv 1).dstC → ∀ kk l,
      kk < (s.param.conv 1).kernelY * (s.param.conv 1).kernelX → l < a.miC →
      (SetDepthwiseWeight a srcD (s.param.conv 1))[c * a.dw1 + kk * a.miC + l]? =
        some (if c + l < (s.param.conv 1).dstC then
          srcD (kk * (s.param.conv 1).dstC + c + l) else 0)) ∧
    (c < (s.param.conv 2).srcC → 0 < a.maC → ∀ q d f m,
      q < min (DivHi (AlignHi (s.param.conv 2).srcC a.miK) 2) (c / 2 + DivHi a.maC 2) - c / 2 →
      d < DivHi (s.param.conv 2).dstC (a.miC * 2) → f < a.miC * 2 → m < 2 →
      (SetOutputWeight cvt a srcO (s.param.conv 2))[
          c * a.dw2 + ((d * (min (DivHi (AlignHi (s.param.conv 2).srcC a.miK) 2)
            (c / 2 + DivHi a.maC 2) - c / 2) + q) * (a.miC * 2) + f) * 2 + m]? =
        some (if d * (a.miC * 2) + f < (s.param.conv 2).dstC ∧
            c + 2 * q + m < (s.param.conv 2).srcC then
          cvt (srcO ((c + 2 * q + m) * (s.param.conv 2).dstC + d * (a.miC * 2) + f))
          else 0)) := by
  obtain ⟨hmiC, hmiK, hdw0, hdw1, hdw2, hmaC⟩ := Cdc_SetSize_strides (2 ^ i) (2 ^ k) L2 L3 s
  rw [← ha] at hmiC hmiK hdw0 hdw1 hdw2 hmaC
  have hpos : 0 < a.miC := by rw [hmiC]; exact Nat.two_pow_pos _
  have hF2 : a.miC * 2 = 2 ^ (i + 1) := by rw [hmiC, Nat.pow_succ]
  have hFm : a.miC * 2 ∣ a.maC := by
    rw [hmaC, hF2, Nat.mul_comm 2 (2 ^ i), ← Nat.pow_succ]
    exact (AlignHi_AlignHi_pow2_dvd _ _ _).1
  have hFc : a.miC * 2 ∣ c := Nat.dvd_trans hFm hc
  have hmc : a.miC ∣ c := Nat.dvd_trans (Nat.dvd_mul_right _ _) hFc
  have heven0 : AlignHi (s.param.conv 0).srcC a.miK % 2 = 0 := by
    rw [hmiK]; exact AlignHi_pow2_even _ _ hk
  refine ⟨hmiC, hmiK, hFc, hmc, ?_, ?_, ?_⟩
  · intro hlt q f m hq hf hm
    obtain ⟨d, hd⟩ := hFc
    obtain ⟨h, hh⟩ : ∃ h, AlignHi (s.param.conv 0).srcC a.miK = 2 * h :=
      ⟨_, (Nat.mul_div_cancel' (Nat.dvd_of_mod_eq_zero heven0)).symm⟩
    have hdlt : c / (a.miC * 2) < DivHi (s.param.conv 0).dstC (a.miC * 2) := by
      rw [lt_DivHi_iff _ _ _ (by omega), Nat.div_mul_cancel ⟨d, hd⟩]
      exact hlt
    have hget := SetInputWeight_get cvt a srcI (s.param.conv 0) hpos heven0 q
      (c / (a.miC * 2)) f m hq hdlt hf hm
    have hidx : c * a.dw0 + (q * (a.miC * 2) + f) * 2 + m =
        InputWeightIndex a (s.param.conv 0) q (c / (a.miC * 2)) f m := by
      unfold InputWeightIndex
      rw [hdw0, ← hmiK, hh, hd]
      exact input_tile_base (a.miC * 2) h d q f m (by omega)
    rw [hidx, hget]
    unfold DenseCell
    have hcd : c / (a.miC * 2) * (a.miC * 2) = c := Nat.div_mul_cancel ⟨d, hd⟩
    rw [hcd, Nat.add_assoc ((2 * q + m) * (s.param.conv 0).dstC) c f]
  · intro hlt kk l hkk hl
    obtain ⟨t, ht⟩ := hmc
    have hct : c / a.miC = t := by rw [ht]; exact Nat.mul_div_cancel_left _ hpos
    have htlt : t < DivHi (s.param.conv 1).dstC a.miC := by
      rw [lt_DivHi_iff _ _ _ hpos, Nat.mul_comm, ← ht]
      exact hlt
    have hget := SetDepthwiseWeight_get a srcD (s.param.conv 1) hpos t kk l htlt hkk hl
    have hidx : c * a.dw1 + kk * a.miC + l =
        (t * ((s.param.conv 1).kernelY * (s.param.conv 1).kernelX) + kk) * a.miC + l := by
      rw [hdw1, ht]
      ring
    have htc : t * a.miC = c := by rw [ht, Nat.mul_comm]
    rw [hidx, hget, htc, Nat.add_assoc (kk * (s.param.conv 1).dstC) c l]
  · intro hlt hmaCpos q d f m hq hd hf hm
    obtain ⟨t, ht⟩ := hc
    obtain ⟨u, hu⟩ := hFm
    have hM : DivHi a.maC 2 = a.miC * u := by
      unfold DivHi
      rw [hu]
      have : a.miC * 2 * u = 2 * (a.miC * u) := by ring
      omega
    have hc2 : c / 2 = a.miC * u * t := by
      rw [ht, hu]
      have : a.miC * 2 * u * t = 2 * (a.miC * u * t) := by ring
      omega
    have hcc : c = 2 * (c / 2) := by
      rw [hc2, ht, hu]
      ring
    have hMpos : 0 < DivHi a.maC 2 := DivHi_two_pos _ hmaCpos
    have hqM : q < DivHi a.maC 2 := by omega
    have hpair : c / 2 + q < DivHi (AlignHi (s.param.conv 2).srcC a.miK) 2 := by omega
    have hget := SetOutputWeight_get cvt a srcO (s.param.conv 2) hpos hmaCpos (c / 2 + q) d f m
      hpair hd hf hm
    have hblock : (c / 2 + q) / DivHi a.maC 2 * DivHi a.maC 2 = c / 2 := by
      have h1 : c / 2 = DivHi a.maC 2 * t := by rw [hc2, hM]
      rw [h1]
      exact block_start _ _ _ hqM
    have hD : a.dw2 = DivHi (s.param.conv 2).dstC (a.miC * 2) * (a.miC * 2) := by
      rw [hdw2, Nat.mul_comm 2 (2 ^ i), ← hmiC, hF2, AlignHi_pow2]
      rfl
    have hidx : c * a.dw2 + ((d * (min (DivHi (AlignHi (s.param.conv 2).srcC a.miK) 2)
          (c / 2 + DivHi a.maC 2) - c / 2) + q) * (a.miC * 2) + f) * 2 + m =
        OutputWeightIndex a (s.param.conv 2) (c / 2 + q) d f m := by
      have hbase : c * (DivHi (s.param.conv 2).dstC (a.miC * 2) * (a.miC * 2)) =
          c / 2 * (DivHi (s.param.conv 2).dstC (a.miC * 2) * (a.miC * 2) * 2) := by
        have h2 : 2 * (c / 2) * (DivHi (s.param.conv 2).dstC (a.miC * 2) * (a.miC * 2)) =
            c / 2 * (DivHi (s.param.conv 2).dstC (a.miC * 2) * (a.miC * 2) * 2) := by ring
        rw [← hcc] at h2
        exact h2
      unfold OutputWeightIndex
      simp only [hblock, Nat.add_sub_cancel_left]
      rw [hD, hbase]
    rw [hidx, hget]
    unfold DenseCell
    have e1 : 2 * (c / 2 + q) + m = c + 2 * q + m := by omega
    rw [e1, Nat.add_assoc ((c + 2 * q + m) * (s.param.conv 2).dstC)]

/-- C25 (witness): the second channel tile (`c = 16`) of the Cdc engine of the bottleneck
chain `16 → 32 → 32 → 16` after `SetSize(8, 2)` with a 4 KiB L2 and a 1 MiB L3
(`a.maC = 16`), with the ramp weights packed by the three packers. -/
theorem cdc_weight_strides_witness :
    1 ≤ 1 ∧
    bottleneckCdc.alg = (SynetMergedConvolution16bCdc.SetSize (2 ^ 3) (2 ^ 1) 4096 1048576
      (SynetMergedConvolution16b.create bottleneckDescriptor)).alg ∧
    bottleneckCdc.alg.maC ∣ 16 ∧
    (bottleneckCdc.alg.miC = 2 ^ 3 ∧ bottleneckCdc.alg.miK = 2 ^ 1 ∧
    bottleneckCdc.alg.miC * 2 ∣ 16 ∧ bottleneckCdc.alg.miC ∣ 16 ∧
    (16 < ((SynetMergedConvolution16b.create bottleneckDescriptor).param.conv 0).dstC →
      ∀ q f m,
      q < AlignHi ((SynetMergedConvolution16b.create bottleneckDescriptor).param.conv 0).srcC
        bottleneckCdc.alg.miK / 2 →
      f < bottleneckCdc.alg.miC * 2 → m < 2 →
      (SetInputWeight UpperHalf bottleneckCdc.alg rampWeights
          ((SynetMergedConvolution16b.create bottleneckDescriptor).param.conv 0))[
          16 * bottleneckCdc.alg.dw0 + (q * (bottleneckCdc.alg.miC * 2) + f) * 2 + m]? =
        some (if 16 + f <
              ((SynetMergedConvolution16b.create bottleneckDescriptor).param.conv 0).dstC ∧
            2 * q + m <
              ((SynetMergedConvolution16b.create bottleneckDescriptor).param.conv 0).srcC then
          UpperHalf (rampWeights ((2 * q + m) *
            ((SynetMergedConvolution16b.create bottleneckDescriptor).param.conv 0).dstC +
              16 + f)) else 0)) ∧
    (16 < ((SynetMergedConvolution16b.create bottleneckDescriptor).param.conv 1).dstC →
      ∀ kk l,
      kk < ((SynetMergedConvolution16b.create bottleneckDescriptor).param.conv 1).kernelY *
        ((SynetMergedConvolution16b.create bottleneckDescriptor).param.conv 1).kernelX →
      l < bottleneckCdc.alg.miC →
      (SetDepthwiseWeight bottleneckCdc.alg rampWeights
          ((SynetMergedConvolution16b.create bottleneckDescriptor).param.conv 1))[
          16 * bottleneckCdc.alg.dw1 + kk * bottleneckCdc.alg.miC + l]? =
        some (if 16 + l <
            ((SynetMergedConvolution16b.create bottleneckDescriptor).param.conv 1).dstC then
          rampWeights (kk *
            ((SynetMergedConvolution16b.create bottleneckDescriptor).param.conv 1).dstC +
              16 + l) else 0)) ∧
    (16 < ((SynetMergedConvolution16b.create bottleneckDescriptor).param.conv 2).srcC →
      0 < bottleneckCdc.alg.maC → ∀ q d f m,
      q < min (DivHi (AlignHi
          ((SynetMergedConvolution16b.create bottleneckDescriptor).param.conv 2).srcC
          bottleneckCdc.alg.miK) 2) (16 / 2 + DivHi bottleneckCdc.alg.maC 2) - 16 / 2 →
      d < DivHi ((SynetMergedConvolution16b.create bottleneckDescriptor).param.conv 2).dstC
        (bottleneckCdc.alg.miC * 2) →
      f < bottleneckCdc.alg.miC * 2 → m < 2 →
      (SetOutputWeight UpperHalf bottleneckCdc.alg rampWeights
          ((SynetMergedConvolution16b.create bottleneckDescriptor).param.conv 2))[
          16 * bottleneckCdc.alg.dw2 + ((d * (min (DivHi (AlignHi
            ((SynetMergedConvolution16b.create bottleneckDescriptor).param.conv 2).srcC
            bottleneckCdc.alg.miK) 2) (16 / 2 + DivHi bottleneckCdc.alg.maC 2) - 16 / 2) + q) *
              (bottleneckCdc.alg.miC * 2) + f) * 2 + m]? =
        some (if d * (bottleneckCdc.alg.miC * 2) + f <
              ((SynetMergedConvolution16b.create bottleneckDescriptor).param.conv 2).dstC ∧
            16 + 2 * q + m <
              ((SynetMergedConvolution16b.create bottleneckDescriptor).param.conv 2).srcC then
          UpperHalf (rampWeights ((16 + 2 * q + m) *
            ((SynetMergedConvolution16b.create bottleneckDescriptor).param.conv 2).dstC +
              d * (bottleneckCdc.alg.miC * 2) + f))
          else 0))) :=
  ⟨by decide, by decide, by decide,
    cdc_weight_strides 3 1 4096 1048576 (SynetMergedConvolution16b.create bottleneckDescriptor)
      bottleneckCdc.alg UpperHalf rampWeights rampWeights rampWeights 16 (by decide)
      (by decide) (by decide)⟩

/-! ## The macro-channel tile: lemmas and theorems -/

theorem Cd_SetSize_maC_eq (miC miK L2 L3 : Nat) (s : SynetMergedConvolution16b) :
    (SynetMergedConvolution16bCd.SetSize miC miK L2 L3 s).alg.maC =
      AlignHiAny ((s.param.conv 0).dstC / (WeightSize miC miK s.param 2 / (L3 / 2) + 1))
        (2 * miC) := by
  rw [Cd_SetSize_maC]
  rfl

theorem Dc_SetSize_maC_eq (miC miK L2 L3 : Nat) (s : SynetMergedConvolution16b) :
    (SynetMergedConvolution16bDc.SetSize miC miK L2 L3 s).alg.maC =
      AlignHi (AlignHi ((s.param.conv 0).srcC / (WeightSize miC miK s.param 2 / (L3 / 2) + 1))
        (2 * miC)) miK := by
  rw [Dc_SetSize_maC]
  rfl

/-- Rounding a quotient up to a multiple of `m`: at least `m` for a positive quotient,
and 0 for the quotient 0. -/
theorem roundUp_pos (q m : Nat) (hm : 0 < m) :
    (1 ≤ q → m ≤ (q + m - 1) / m * m) ∧ (q = 0 → (q + m - 1) / m * m = 0) := by
  constructor
  · intro hq
    have h1 : 1 ≤ (q + m - 1) / m := (Nat.le_div_iff_mul_le hm).mpr (by omega)
    calc m = 1 * m := (Nat.one_mul m).symm
      _ ≤ (q + m - 1) / m * m := Nat.mul_le_mul_right m h1
  · intro hq
    subst hq
    rw [Nat.div_eq_of_lt (by omega), Nat.zero_mul]

/-- The double alignment of Cdc and Dc `SetSize` for tile sizes that are powers of two. -/
theorem AlignHi_AlignHi_pos (q i k : Nat) :
    (1 ≤ q → 2 * 2 ^ i ≤ AlignHi (AlignHi q (2 * 2 ^ i)) (2 ^ k)) ∧
    (q = 0 → AlignHi (AlignHi q (2 * 2 ^ i)) (2 ^ k) = 0) := by
  have h2 : 2 * 2 ^ i = 2 ^ (i + 1) := by rw [Nat.pow_succ, Nat.mul_comm]
  rw [h2]
  constructor
  · intro hq
    have h1 := (roundUp_pos q (2 ^ (i + 1)) (Nat.two_pow_pos _)).1 hq
    rw [← AlignHi_pow2] at h1
    exact Nat.le_trans h1 (AlignHi_pow2_ge _ _)
  · intro hq
    have h1 := (roundUp_pos q (2 ^ (i + 1)) (Nat.two_pow_pos _)).2 hq
    rw [← AlignHi_pow2] at h1
    rw [h1]
    have h3 := (roundUp_pos 0 (2 ^ k) (Nat.two_pow_pos _)).2 rfl
    rw [← AlignHi_pow2] at h3
    exact h3

/-- C26 (failing input): the bottleneck chain `16 → 32 → 32 → 16` with `miC = 8`,
`miK = 2` and a 1 MiB L3. The weight footprint is 3200 bytes, below `L3/2`, and the split
factor `count` is 1, but Cdc `SetSize` divides `conv[0].srcC = 16` and gets `a.maC = 16`,
below the tiled channel count `conv[1].dstC = 32`: the channel-tile loop of `Forward`
runs twice for the batch item (tiles `(0, 16)` and `(16, 16)`; the first `_input` calls
of the two tiles use the weight offsets 0 and 256). Cd `SetSize` on the first two stages
divides `conv[0].dstC` and gets `a.maC = 32`. -/
theorem cdc_single_split_two_tiles :
    WeightSize 8 2 bottleneckDescriptor 3 = 3200 ∧
    WeightSize 8 2 bottleneckDescriptor 3 < 1048576 / 2 ∧
    WeightSize 8 2 bottleneckDescriptor 3 / (1048576 / 2) + 1 = 1 ∧
    bottleneckCdc = SynetMergedConvolution16bCdc.SetSize 8 2 4096 1048576
      (SynetMergedConvolution16b.create bottleneckDescriptor) ∧
    bottleneckCdc.alg.maC = 16 ∧ (bottleneckCdc.param.conv 1).dstC = 32 ∧
    ¬ (bottleneckCdc.param.conv 1).dstC ≤ bottleneckCdc.alg.maC ∧
    ChannelTiles (bottleneckCdc.param.conv 1).dstC bottleneckCdc.alg.maC =
      [(0, 16), (16, 16)] ∧
    (SynetMergedConvolution16bCdc.Forward 64 bottleneckCdc).map (fun items =>
      items.map fun item => item.calls.filterMap fun call =>
        match call with
        | ForwardCall.input _ _ maC 0 _ weight _ _ => some (maC, weight)
        | _ => none) = some [[(16, 0), (16, 256)]] ∧
    (SynetMergedConvolution16bCd.SetSize 8 2 4096 1048576 (SynetMergedConvolution16b.create
      { bottleneckDescriptor with count := 2 })).alg.maC = 32 := by
  refine ⟨?_, ?_, ?_, rfl, ?_, ?_, ?_, ?_, ?_, ?_⟩ <;> decide

/-- C27 (as amended): positive macro-channel tile. For `miC = 2^i`, `miK = 2^k` and each
of the Cdc, Cd and Dc engines, with `q` the quotient that `SetSize` rounds up (the
divided channel count over the split factor `count`): when `q >= 1`,
`maC >= 2*miC > 0`, the channel-tile loop of `Forward` (`c += maC`) makes its rounds and
ends, and the step `DivHi(maC, 2)` of the macro-block loop of `SetOutputWeight` is
positive; when `q == 0`, `maC` is 0 and the channel-tile loop over `C > 0` channels does
not end. -/
theorem setsize_maC_positive (i k L2 L3 q : Nat) (s r : SynetMergedConvolution16b)
    (hr : (r = SynetMergedConvolution16bCdc.SetSize (2 ^ i) (2 ^ k) L2 L3 s ∧
        q = (s.param.conv 0).srcC / (WeightSize (2 ^ i) (2 ^ k) s.param 3 / (L3 / 2) + 1)) ∨
      (r = SynetMergedConvolution16bCd.SetSize (2 ^ i) (2 ^ k) L2 L3 s ∧
        q = (s.param.conv 0).dstC / (WeightSize (2 ^ i) (2 ^ k) s.param 2 / (L3 / 2) + 1)) ∨
      (r = SynetMergedConvolution16bDc.SetSize (2 ^ i) (2 ^ k) L2 L3 s ∧
        q = (s.param.conv 0).srcC / (WeightSize (2 ^ i) (2 ^ k) s.param 2 / (L3 / 2) + 1))) :
    (1 ≤ q → 2 * 2 ^ i ≤ r.alg.maC ∧ 0 < 2 * 2 ^ i ∧ 0 < r.alg.maC ∧
      0 < DivHi r.alg.maC 2 ∧
      ∀ C tile, ChannelLoop C r.alg.maC tile =
        SeqCalls ((ChannelTiles C r.alg.maC).map fun t => tile t.1 t.2)) ∧
    (q = 0 → r.alg.maC = 0 ∧ ∀ C tile, 0 < C → ChannelLoop C r.alg.maC tile = none) := by
  have hpos : 0 < 2 * 2 ^ i := Nat.mul_pos (by decide) (Nat.two_pow_pos _)
  have hmaC : (1 ≤ q → 2 * 2 ^ i ≤ r.alg.maC) ∧ (q = 0 → r.alg.maC = 0) := by
    rcases hr with ⟨h, hq⟩ | ⟨h, hq⟩ | ⟨h, hq⟩
    · rw [h, (Cdc_SetSize_strides (2 ^ i) (2 ^ k) L2 L3 s).2.2.2.2.2, ← hq]
      exact AlignHi_AlignHi_pos q i k
    · rw [h, Cd_SetSize_maC_eq, ← hq]
      exact roundUp_pos q (2 * 2 ^ i) hpos
    · rw [h, Dc_SetSize_maC_eq, ← hq]
      exact AlignHi_AlignHi_pos q i k
  refine ⟨fun hq => ?_, fun hq => ?_⟩
  · have h1 := hmaC.1 hq
    have h2 : 0 < r.alg.maC := by omega
    refine ⟨h1, hpos, h2, DivHi_two_pos _ h2, ?_⟩
    intro C tile
    unfold ChannelLoop ChannelTiles
    rw [if_neg (by omega), List.map_map]
    rfl
  · have h1 := hmaC.2 hq
    refine ⟨h1, ?_⟩
    intro C tile hC
    unfold ChannelLoop
    rw [if_pos ⟨h1, hC⟩]

/-- C27 (witness): the Cdc engine of the bottleneck chain `16 → 32 → 32 → 16` after
`SetSize(8, 2)` with a 4 KiB L2 and a 1 MiB L3: `count = 1`, the quotient is 16. -/
theorem setsize_maC_positive_witness :
    ((bottleneckCdc = SynetMergedConvolution16bCdc.SetSize (2 ^ 3) (2 ^ 1) 4096 1048576
          (SynetMergedConvolution16b.create bottleneckDescriptor) ∧
        16 = ((SynetMergedConvolution16b.create bottleneckDescriptor).param.conv 0).srcC /
          (WeightSize (2 ^ 3) (2 ^ 1)
            (SynetMergedConvolution16b.create bottleneckDescriptor).param 3 /
              (1048576 / 2) + 1)) ∨
      (bottleneckCdc = SynetMergedConvolution16bCd.SetSize (2 ^ 3) (2 ^ 1) 4096 1048576
          (SynetMergedConvolution16b.create bottleneckDescriptor) ∧
        16 = ((SynetMergedConvolution16b.create bottleneckDescriptor).param.conv 0).dstC /
          (WeightSize (2 ^ 3) (2 ^ 1)
            (SynetMergedConvolution16b.create bottleneckDescriptor).param 2 /
              (1048576 / 2) + 1)) ∨
      (bottleneckCdc = SynetMergedConvolution16bDc.SetSize (2 ^ 3) (2 ^ 1) 4096 1048576
          (SynetMergedConvolution16b.create bottleneckDescriptor) ∧
        16 = ((SynetMergedConvolution16b.create bottleneckDescriptor).param.conv 0).srcC /
          (WeightSize (2 ^ 3) (2 ^ 1)
            (SynetMergedConvolution16b.create bottleneckDescriptor).param 2 /
              (1048576 / 2) + 1))) ∧
    1 ≤ 16 ∧
    (2 * 2 ^ 3 ≤ bottleneckCdc.alg.maC ∧ 0 < 2 * 2 ^ 3 ∧ 0 < bottleneckCdc.alg.maC ∧
      0 < DivHi bottleneckCdc.alg.maC 2 ∧
      ∀ C tile, ChannelLoop C bottleneckCdc.alg.maC tile =
        SeqCalls ((ChannelTiles C bottleneckCdc.alg.maC).map fun t => tile t.1 t.2)) :=
  ⟨Or.inl ⟨by decide, by decide⟩, by decide,
    (setsize_maC_positive 3 1 4096 1048576 16
      (SynetMergedConvolution16b.create bottleneckDescriptor) bottleneckCdc
      (Or.inl ⟨by decide, by decide⟩)).1 (by decide)⟩

/-- C27 (counterexample): `miC = 8`, `miK = 2`, channel counts 16 and 32, and `L3 = 2`.
The split factor `count = size / 1 + 1` exceeds the channel count, the quotient is 0 and
`SetSize` of Cdc, Cd and Dc stores `a.maC = 0`; `Forward` of the Cd engine then does not
leave its channel-tile loop. -/
theorem setsize_maC_zero :
    2 ≤ 2 ∧
    1 ≤ (bottleneckDescriptor.conv 0).srcC ∧ 1 ≤ (bottleneckDescriptor.conv 0).dstC ∧
    1 ≤ (bottleneckDescriptor.conv 1).dstC ∧ 1 ≤ (bottleneckDescriptor.conv 2).dstC ∧
    (SynetMergedConvolution16bCdc.SetSize 8 2 4096 2
      (SynetMergedConvolution16b.create bottleneckDescriptor)).alg.maC = 0 ∧
    (SynetMergedConvolution16bCd.SetSize 8 2 4096 2
      (SynetMergedConvolution16b.create { bottleneckDescriptor with count := 2 })).alg.maC =
        0 ∧
    (SynetMergedConvolution16bDc.SetSize 8 2 4096 2
      (SynetMergedConvolution16b.create depthwiseHeadDescriptor)).alg.maC = 0 ∧
    SynetMergedConvolution16bCd.Forward 64 (SynetMergedConvolution16bCd.SetSize 8 2 4096 2
      (SynetMergedConvolution16b.create { bottleneckDescriptor with count := 2 })) = none := by
  refine ⟨?_, ?_, ?_, ?_, ?_, ?_, ?_, ?_, ?_⟩ <;> decide

/-! ## NchwGemm schedule and the factory: lemmas and theorems -/

theorem AlignLo_le (x align : Nat) : AlignLo x align ≤ x := by
  unfold AlignLo
  split <;> omega

theorem AlignLo_pow2 (n k : Nat) : AlignLo n (2 ^ k) = n / 2 ^ k * 2 ^ k := by
  have hpos : 0 < 2 ^ k := Nat.two_pow_pos _
  unfold AlignLo
  rw [if_neg (by omega), Nat.and_pow_two_sub_one_eq_mod]
  have h := Nat.div_add_mod n (2 ^ k)
  rw [Nat.mul_comm] at h
  omega

/-- A clamp of a multiple of `m` between two multiples of `m` is a multiple of `m`. -/
theorem RestrictRange_dvd (m value lo hi : Nat) (hv : m ∣ value) (hlo : m ∣ lo)
    (hhi : m ∣ hi) : m ∣ RestrictRange value lo hi := by
  unfold RestrictRange
  rcases Nat.le_total lo (min hi value) with h | h
  · rw [Nat.max_eq_right h]
    rcases Nat.le_total hi value with h' | h'
    · rw [Nat.min_eq_left h']; exact hhi
    · rw [Nat.min_eq_right h']; exact hv
  · rw [Nat.max_eq_left h]; exact hlo

/-- The final clamp of `macroD`: `if (a.sumBuf == 0 && a.macroD > p.dstC) a.macroD =
p.dstC;`. -/
theorem clamp_to_dstC (sumBuf dstC pre : Nat) :
    (if sumBuf = 0 ∧ dstC < pre then dstC else pre) ≤ pre ∧
    (1 ≤ dstC → 1 ≤ pre → 1 ≤ (if sumBuf = 0 ∧ dstC < pre then dstC else pre)) ∧
    ((if sumBuf = 0 ∧ dstC < pre then dstC else pre) = pre ∨
      (sumBuf = 0 ∧ (if sumBuf = 0 ∧ dstC < pre then dstC else pre) = dstC)) := by
  by_cases h : sumBuf = 0 ∧ dstC < pre
  · rw [if_pos h]
    exact ⟨by omega, fun h1 _ => h1, Or.inr ⟨h.1, rfl⟩⟩
  · rw [if_neg h]
    exact ⟨Nat.le_refl _, fun _ h2 => h2, Or.inl rfl⟩

/-- C28: NchwGemm schedule ranges. For a descriptor with `srcC`, `kernelY`, `kernelX`,
`dstH`, `dstW`, `dstC >= 1`, `microK = 2^k` and `microD >= 1`, after `SetAlgParam`:
`microK <= macroK <= bufK` and `macroK` is a multiple of `microK`; `1 <= macroH <= dstH`;
`1 <= macroD <= bufD`, and `macroD` is a multiple of `microD` unless `sumBuf == 0` and it
was clamped to `dstC`. -/
theorem nchwgemm_schedule_ranges (F microD microN k L1 L2 L3 : Nat)
    (s : SynetConvolution16bNchwGemm)
    (hsrcC : 1 ≤ s.param.srcC) (hkernelY : 1 ≤ s.param.kernelY)
    (hkernelX : 1 ≤ s.param.kernelX) (hdstH : 1 ≤ s.param.dstH) (_hdstW : 1 ≤ s.param.dstW)
    (hdstC : 1 ≤ s.param.dstC) (hmicroD : 1 ≤ microD) :
    (SynetConvolution16bNchwGemm.SetAlgParam F microD microN (2 ^ k) L1 L2 L3 s).alg.microK =
      2 ^ k ∧
    (SynetConvolution16bNchwGemm.SetAlgParam F microD microN (2 ^ k) L1 L2 L3 s).alg.microD =
      microD ∧
    (SynetConvolution16bNchwGemm.SetAlgParam F microD microN (2 ^ k) L1 L2 L3 s).alg.bufK =
      AlignHi (s.param.srcC * s.param.kernelY * s.param.kernelX) (2 ^ k) ∧
    (SynetConvolution16bNchwGemm.SetAlgParam F microD microN (2 ^ k) L1 L2 L3 s).alg.bufD =
      AlignHiAny s.param.dstC microD ∧
    2 ^ k ≤ (SynetConvolution16bNchwGemm.SetAlgParam F microD microN (2 ^ k) L1 L2 L3
      s).alg.macroK ∧
    (SynetConvolution16bNchwGemm.SetAlgParam F microD microN (2 ^ k) L1 L2 L3 s).alg.macroK ≤
      (SynetConvolution16bNchwGemm.SetAlgParam F microD microN (2 ^ k) L1 L2 L3 s).alg.bufK ∧
    2 ^ k ∣ (SynetConvolution16bNchwGemm.SetAlgParam F microD microN (2 ^ k) L1 L2 L3
      s).alg.macroK ∧
    1 ≤ (SynetConvolution16bNchwGemm.SetAlgParam F microD microN (2 ^ k) L1 L2 L3
      s).alg.macroH ∧
    (SynetConvolution16bNchwGemm.SetAlgParam F microD microN (2 ^ k) L1 L2 L3 s).alg.macroH ≤
      s.param.dstH ∧
    1 ≤ (SynetConvolution16bNchwGemm.SetAlgParam F microD microN (2 ^ k) L1 L2 L3
      s).alg.macroD ∧
    (SynetConvolution16bNchwGemm.SetAlgParam F microD microN (2 ^ k) L1 L2 L3 s).alg.macroD ≤
      (SynetConvolution16bNchwGemm.SetAlgParam F microD microN (2 ^ k) L1 L2 L3 s).alg.bufD ∧
    (microD ∣ (SynetConvolution16bNchwGemm.SetAlgParam F microD microN (2 ^ k) L1 L2 L3
        s).alg.macroD ∨
      ((SynetConvolution16bNchwGemm.SetAlgParam F microD microN (2 ^ k) L1 L2 L3
          s).alg.sumBuf = 0 ∧
        (SynetConvolution16bNchwGemm.SetAlgParam F microD microN (2 ^ k) L1 L2 L3
          s).alg.macroD = s.param.dstC)) := by
  have hK : 1 ≤ s.param.srcC * s.param.kernelY * s.param.kernelX :=
    Nat.mul_pos (Nat.mul_pos hsrcC hkernelY) hkernelX
  have hpos : 0 < 2 ^ k := Nat.two_pow_pos _
  have hbufK : 2 ^ k ≤ AlignHi (s.param.srcC * s.param.kernelY * s.param.kernelX) (2 ^ k) := by
    rw [AlignHi_pow2]
    exact (roundUp_pos _ _ hpos).1 hK
  have hbufD : microD ≤ AlignHiAny s.param.dstC microD :=
    (roundUp_pos _ _ hmicroD).1 hdstC
  have hdvdK : 2 ^ k ∣ RestrictRange (AlignLo (L1 / microD / 2) (2 ^ k)) (2 ^ k)
      (AlignHi (s.param.srcC * s.param.kernelY * s.param.kernelX) (2 ^ k)) :=
    RestrictRange_dvd _ _ _ _ (by rw [AlignLo_pow2]; exact Nat.dvd_mul_left _ _)
      (Nat.dvd_refl _) (AlignHi_pow2_dvd _ _)
  refine ⟨rfl, rfl, rfl, rfl, ?_, ?_, hdvdK, ?_, ?_, ?_, ?_, ?_⟩
  · show 2 ^ k ≤ RestrictRange _ _ _
    unfold RestrictRange
    omega
  · show RestrictRange _ _ _ ≤ AlignHi _ _
    unfold RestrictRange
    omega
  · show 1 ≤ RestrictRange _ _ _
    unfold RestrictRange
    omega
  · show RestrictRange _ _ _ ≤ s.param.dstH
    unfold RestrictRange
    omega
  · show 1 ≤ (if (_ : Nat) = 0 ∧ s.param.dstC < RestrictRange _ _ _ then s.param.dstC
      else RestrictRange _ _ _)
    exact (clamp_to_dstC _ _ _).2.1 hdstC (by unfold RestrictRange; omega)
  · show (if (_ : Nat) = 0 ∧ s.param.dstC < RestrictRange _ _ _ then s.param.dstC
      else RestrictRange _ _ _) ≤ AlignHiAny _ _
    exact Nat.le_trans (clamp_to_dstC _ _ _).1 (by unfold RestrictRange; omega)
  · show microD ∣ (if (_ : Nat) = 0 ∧ s.param.dstC < RestrictRange _ _ _ then s.param.dstC
      else RestrictRange _ _ _) ∨ ((_ : Nat) = 0 ∧
        (if (_ : Nat) = 0 ∧ s.param.dstC < RestrictRange _ _ _ then s.param.dstC
          else RestrictRange _ _ _) = s.param.dstC)
    rcases (clamp_to_dstC (if (s.dst16b && decide (RestrictRange (AlignLo (L1 / microD / 2)
        (2 ^ k)) (2 ^ k) (AlignHi (s.param.srcC * s.param.kernelY * s.param.kernelX)
          (2 ^ k)) < s.param.srcC * s.param.kernelY * s.param.kernelX)) ||
        decide (2 < 2 ^ k) then 1 else 0) s.param.dstC
      (RestrictRange (AlignLoAny (L3 / RestrictRange (AlignLo (L1 / microD / 2) (2 ^ k))
        (2 ^ k) (AlignHi (s.param.srcC * s.param.kernelY * s.param.kernelX) (2 ^ k)) / 2)
          microD) microD (AlignHiAny s.param.dstC microD))).2.2 with h | h
    · left
      rw [h]
      exact RestrictRange_dvd _ _ _ _ (Nat.dvd_mul_left _ _) (Nat.dvd_refl _)
        (Nat.dvd_mul_left _ _)
    · right
      exact h

/-- C28 (witness): the dense 3×3 convolution `64 → 128` on a 16×16 image with
`microD = 32`, `microK = 4`, a 32 KiB L1, a 256 KiB L2 and a 2 MiB L3. -/
theorem nchwgemm_schedule_ranges_witness :
    1 ≤ (SynetConvolution16bNchwGemm.create gemmDescriptor).param.srcC ∧
    1 ≤ (SynetConvolution16bNchwGemm.create gemmDescriptor).param.kernelY ∧
    1 ≤ (SynetConvolution16bNchwGemm.create gemmDescriptor).param.kernelX ∧
    1 ≤ (SynetConvolution16bNchwGemm.create gemmDescriptor).param.dstH ∧
    1 ≤ (SynetConvolution16bNchwGemm.create gemmDescriptor).param.dstW ∧
    1 ≤ (SynetConvolution16bNchwGemm.create gemmDescriptor).param.dstC ∧
    1 ≤ 32 ∧
    (gemmSchedule.alg.microK = 2 ^ 2 ∧ gemmSchedule.alg.microD = 32 ∧
    gemmSchedule.alg.bufK = AlignHi
      ((SynetConvolution16bNchwGemm.create gemmDescriptor).param.srcC *
        (SynetConvolution16bNchwGemm.create gemmDescriptor).param.kernelY *
        (SynetConvolution16bNchwGemm.create gemmDescriptor).param.kernelX) (2 ^ 2) ∧
    gemmSchedule.alg.bufD =
      AlignHiAny (SynetConvolution16bNchwGemm.create gemmDescriptor).param.dstC 32 ∧
    2 ^ 2 ≤ gemmSchedule.alg.macroK ∧ gemmSchedule.alg.macroK ≤ gemmSchedule.alg.bufK ∧
    2 ^ 2 ∣ gemmSchedule.alg.macroK ∧
    1 ≤ gemmSchedule.alg.macroH ∧
    gemmSchedule.alg.macroH ≤ (SynetConvolution16bNchwGemm.create gemmDescriptor).param.dstH ∧
    1 ≤ gemmSchedule.alg.macroD ∧ gemmSchedule.alg.macroD ≤ gemmSchedule.alg.bufD ∧
    (32 ∣ gemmSchedule.alg.macroD ∨
      (gemmSchedule.alg.sumBuf = 0 ∧
        gemmSchedule.alg.macroD =
          (SynetConvolution16bNchwGemm.create gemmDescriptor).param.dstC))) :=
  ⟨by decide, by decide, by decide, by decide, by decide, by decide, by decide,
    nchwgemm_schedule_ranges 16 32 12 2 32768 262144 2097152
      (SynetConvolution16bNchwGemm.create gemmDescriptor) (by decide) (by decide) (by decide)
      (by decide) (by decide) (by decide) (by decide)⟩

/-- A size that does not exceed half of the quotient `L / a` fits twice, `a` times,
in `L`. -/
theorem half_quotient_budget (L a m : Nat) (h : m ≤ L / a / 2) : 2 * m * a ≤ L := by
  have h1 : m * 2 ≤ L / a := (Nat.le_div_iff_mul_le (by decide : 0 < 2)).mp h
  calc 2 * m * a = m * 2 * a := by rw [Nat.mul_comm 2 m]
    _ ≤ L / a * a := Nat.mul_le_mul_right a h1
    _ ≤ L := Nat.div_mul_le_self L a

/-- The same for a quotient by two divisors. -/
theorem half_quotient_budget2 (L a b m : Nat) (h : m ≤ L / a / b / 2) :
    2 * m * a * b ≤ L := by
  have h1 : 2 * m * b ≤ L / a := half_quotient_budget (L / a) b m h
  calc 2 * m * a * b = 2 * m * b * a := by ring
    _ ≤ L / a * a := Nat.mul_le_mul_right a h1
    _ ≤ L := Nat.div_mul_le_self L a

/-- The budget of `macroK`: above `microK` it is at most the rounded-down half quotient
of L1 by `microD`. -/
theorem macroK_budget (L1 microD microK bufK : Nat) :
    microK < RestrictRange (AlignLo (L1 / microD / 2) microK) microK bufK →
      2 * RestrictRange (AlignLo (L1 / microD / 2) microK) microK bufK * microD ≤ L1 := by
  intro h
  have hle := AlignLo_le (L1 / microD / 2) microK
  refine half_quotient_budget L1 microD _ ?_
  unfold RestrictRange at h ⊢
  omega

/-- The budget of `macroH`: above 1 it is at most the half quotient of L2 by `macroK` and
`dstW`. -/
theorem macroH_budget (L2 macroK dstW dstH : Nat) :
    1 < RestrictRange (L2 / macroK / dstW / 2) 1 dstH →
      2 * RestrictRange (L2 / macroK / dstW / 2) 1 dstH * macroK * dstW ≤ L2 := by
  intro h
  refine half_quotient_budget2 L2 macroK dstW _ ?_
  unfold RestrictRange at h ⊢
  omega

/-- The budget of `macroD`: above `microD` it is at most the rounded-down half quotient
of L3 by `macroK`, also after the clamp to `dstC`. -/
theorem macroD_budget (L3 macroK microD bufD sumBuf dstC : Nat) :
    microD < (if sumBuf = 0 ∧
        dstC < RestrictRange (AlignLoAny (L3 / macroK / 2) microD) microD bufD then dstC
      else RestrictRange (AlignLoAny (L3 / macroK / 2) microD) microD bufD) →
      2 * (if sumBuf = 0 ∧
        dstC < RestrictRange (AlignLoAny (L3 / macroK / 2) microD) microD bufD then dstC
      else RestrictRange (AlignLoAny (L3 / macroK / 2) microD) microD bufD) * macroK ≤ L3 := by
  intro h
  have hc := (clamp_to_dstC sumBuf dstC
    (RestrictRange (AlignLoAny (L3 / macroK / 2) microD) microD bufD)).1
  have hlo : AlignLoAny (L3 / macroK / 2) microD ≤ L3 / macroK / 2 :=
    Nat.div_mul_le_self _ _
  have hpre := Nat.lt_of_lt_of_le h hc
  refine half_quotient_budget L3 macroK _ (Nat.le_trans hc ?_)
  unfold RestrictRange at hpre ⊢
  omega

/-- C29: NchwGemm cache budgets. After `SetAlgParam`, a macro size that is above its
minimum respects its cache level: `macroK > microK` implies `2*macroK*microD <= L1`,
`macroH > 1` implies `2*macroH*macroK*dstW <= L2`, and `macroD > microD` implies
`2*macroD*macroK <= L3`. -/
theorem nchwgemm_cache_budgets (F microD microN microK L1 L2 L3 : Nat)
    (s : SynetConvolution16bNchwGemm) :
    ((SynetConvolution16bNchwGemm.SetAlgParam F microD microN microK L1 L2 L3 s).alg.microK <
        (SynetConvolution16bNchwGemm.SetAlgParam F microD microN microK L1 L2 L3
          s).alg.macroK →
      2 * (SynetConvolution16bNchwGemm.SetAlgParam F microD microN microK L1 L2 L3
          s).alg.macroK *
        (SynetConvolution16bNchwGemm.SetAlgParam F microD microN microK L1 L2 L3
          s).alg.microD ≤ L1) ∧
    (1 < (SynetConvolution16bNchwGemm.SetAlgParam F microD microN microK L1 L2 L3
        s).alg.macroH →
      2 * (SynetConvolution16bNchwGemm.SetAlgParam F microD microN microK L1 L2 L3
          s).alg.macroH *
        (SynetConvolution16bNchwGemm.SetAlgParam F microD microN microK L1 L2 L3
          s).alg.macroK * s.param.dstW ≤ L2) ∧
    ((SynetConvolution16bNchwGemm.SetAlgParam F microD microN microK L1 L2 L3 s).alg.microD <
        (SynetConvolution16bNchwGemm.SetAlgParam F microD microN microK L1 L2 L3
          s).alg.macroD →
      2 * (SynetConvolution16bNchwGemm.SetAlgParam F microD microN microK L1 L2 L3
          s).alg.macroD *
        (SynetConvolution16bNchwGemm.SetAlgParam F microD microN microK L1 L2 L3
          s).alg.macroK ≤ L3) := by
  exact ⟨macroK_budget _ _ _ _, macroH_budget _ _ _ _, macroD_budget _ _ _ _ _ _⟩

/-- C29 (witness): for the dense 3×3 convolution `64 → 128` on a 16×16 image with
`microD = 32`, `microK = 4`, a 32 KiB L1, a 256 KiB L2 and a 2 MiB L3 the three macro
sizes are above their minimums (`macroK = 512`, `macroH = 16`, `macroD = 128`) and within
their budgets. -/
theorem nchwgemm_cache_budgets_witness :
    gemmSchedule.alg.macroK = 512 ∧ gemmSchedule.alg.macroH = 16 ∧
    gemmSchedule.alg.macroD = 128 ∧
    gemmSchedule.alg.microK < gemmSchedule.alg.macroK ∧
    2 * gemmSchedule.alg.macroK * gemmSchedule.alg.microD ≤ 32768 ∧
    1 < gemmSchedule.alg.macroH ∧
    2 * gemmSchedule.alg.macroH * gemmSchedule.alg.macroK *
      (SynetConvolution16bNchwGemm.create gemmDescriptor).param.dstW ≤ 262144 ∧
    gemmSchedule.alg.microD < gemmSchedule.alg.macroD ∧
    2 * gemmSchedule.alg.macroD * gemmSchedule.alg.macroK ≤ 2097152 :=
  ⟨by decide, by decide, by decide, by decide,
    (nchwgemm_cache_budgets 16 32 12 (2 ^ 2) 32768 262144 2097152
      (SynetConvolution16bNchwGemm.create gemmDescriptor)).1 (by decide),
    by decide,
    (nchwgemm_cache_budgets 16 32 12 (2 ^ 2) 32768 262144 2097152
      (SynetConvolution16bNchwGemm.create gemmDescriptor)).2.1 (by decide),
    by decide,
    (nchwgemm_cache_budgets 16 32 12 (2 ^ 2) 32768 262144 2097152
      (SynetConvolution16bNchwGemm.create gemmDescriptor)).2.2 (by decide)⟩

/-- C30: for every batch, stage array, count and compatibility flag, whatever the
constructor of `MergConvParam` builds and whatever `Valid` answers,
`Base::SynetMergedConvolution16bInit` returns the null pointer: no engine is
constructed. -/
theorem init_returns_null
    (ctor : Nat → List ConvParam → Nat → Bool → Nat → MergConvParam)
    (Valid : MergConvParam → Bool) (batch : Nat) (convs : List ConvParam)
    (count compatibility : Nat) :
    SynetMergedConvolution16bInit ctor Valid batch convs count compatibility = none := by
  unfold SynetMergedConvolution16bInit
  exact ite_self none

/-! ## Effect of Forward on the destination: lemmas and theorems -/

/-- The row loop of Dc `Forward` makes no call. -/
theorem Dc_RowLoop_nil (a : AlgParam) (H dstH0 srcH0 : Nat) :
    ∀ fuel y2 y1 calls,
      SynetMergedConvolution16bDc.RowLoop a H dstH0 srcH0 fuel y2 y1 = some calls →
        calls = [] := by
  intro fuel
  induction fuel with
  | zero =>
    intro y2 y1 calls h
    unfold SynetMergedConvolution16bDc.RowLoop at h
    split at h
    · cases h
    · cases h; rfl
  | succ n ih =>
    intro y2 y1 calls h
    unfold SynetMergedConvolution16bDc.RowLoop at h
    split at h
    · exact ih _ _ _ h
    · cases h; rfl

theorem SeqCalls_cons_some (x : List ForwardCall) (rest : List (Option (List ForwardCall)))
    (y : List ForwardCall) (h : SeqCalls rest = some y) :
    SeqCalls (some x :: rest) = some (x ++ y) := by
  show (match some x, SeqCalls rest with
    | some x, some y => some (x ++ y)
    | _, _ => none) = some (x ++ y)
  rw [h]

theorem SeqCalls_cons_none_left (rest : List (Option (List ForwardCall))) :
    SeqCalls (none :: rest) = none := rfl

theorem SeqCalls_cons_none_right (r : Option (List ForwardCall))
    (rest : List (Option (List ForwardCall))) (h : SeqCalls rest = none) :
    SeqCalls (r :: rest) = none := by
  show (match r, SeqCalls rest with
    | some x, some y => some (x ++ y)
    | _, _ => none) = none
  rw [h]
  cases r <;> rfl

/-- Rounds that make no call give no call. -/
theorem SeqCalls_nil :
    ∀ (l : List (Option (List ForwardCall))) (calls : List ForwardCall),
      (∀ r ∈ l, ∀ x, r = some x → x = []) → SeqCalls l = some calls → calls = [] := by
  intro l
  induction l with
  | nil =>
    intro calls _ h
    have h' : some ([] : List ForwardCall) = some calls := h
    cases h'
    rfl
  | cons r rest ih =>
    intro calls hall h
    cases r with
    | none => rw [SeqCalls_cons_none_left] at h; cases h
    | some x =>
      cases hs : SeqCalls rest with
      | none => rw [SeqCalls_cons_none_right _ _ hs] at h; cases h
      | some y =>
        rw [SeqCalls_cons_some x rest y hs] at h
        simp only [Option.some.injEq] at h
        have hx : x = [] := hall (some x) (List.mem_cons_self _ _) x rfl
        have hy : y = [] := ih y (fun r' hr' => hall r' (List.mem_cons_of_mem _ hr')) hs
        rw [← h, hx, hy]
        rfl

/-- Every item of the batch loop holds the calls its round returned. -/
theorem BatchLoop_calls (item : Nat → Nat → Option (List ForwardCall)) (sizeS sizeD : Nat) :
    ∀ n src dst items, BatchLoop item sizeS sizeD n src dst = some items →
      items.length = n ∧ ∀ it ∈ items, ∃ src' dst', item src' dst' = some it.calls := by
  intro n
  induction n with
  | zero =>
    intro src dst items h
    unfold BatchLoop at h
    cases h
    simp
  | succ n ih =>
    intro src dst items h
    unfold BatchLoop at h
    cases hi : item src dst with
    | none => rw [hi] at h; simp at h
    | some calls =>
      cases hb : BatchLoop item sizeS sizeD n (src + sizeS) (dst + sizeD) with
      | none => rw [hi, hb] at h; simp at h
      | some rest =>
        rw [hi, hb] at h
        simp only [Option.some.injEq] at h
        obtain ⟨hlen, hall⟩ := ih _ _ rest hb
        subst h
        refine ⟨by simp [hlen], ?_⟩
        intro it hit
        rcases List.mem_cons.mp hit with rfl | hmem
        · exact ⟨src, dst, hi⟩
        · exact hall it hmem

/-- A batch loop whose rounds all return does return. -/
theorem BatchLoop_some (item : Nat → Nat → Option (List ForwardCall)) (sizeS sizeD : Nat)
    (hitem : ∀ src dst, ∃ calls, item src dst = some calls) :
    ∀ n src dst, ∃ items, BatchLoop item sizeS sizeD n src dst = some items := by
  intro n
  induction n with
  | zero => intro src dst; exact ⟨[], rfl⟩
  | succ n ih =>
    intro src dst
    obtain ⟨calls, hc⟩ := hitem src dst
    obtain ⟨rest, hr⟩ := ih (src + sizeS) (dst + sizeD)
    unfold BatchLoop
    rw [hc, hr]
    exact ⟨_, rfl⟩

/-- Items without calls leave the destination as it is. -/
theorem DstAfter_nil {μ : Type} (exec : ForwardCall → μ → μ) (dst : μ) :
    ∀ items : List ForwardItem, (∀ it ∈ items, it.calls = []) → DstAfter exec items dst = dst := by
  intro items
  induction items with
  | nil => intro _; rfl
  | cons it rest ih =>
    intro h
    unfold DstAfter
    rw [List.foldl_cons, h it (List.mem_cons_self _ _)]
    exact ih (fun it' h' => h it' (List.mem_cons_of_mem _ h'))

/-- Dc `Forward` makes no call in any batch item. -/
theorem Dc_Forward_no_call (s : SynetMergedConvolution16b) (items : List ForwardItem)
    (h : SynetMergedConvolution16bDc.Forward s = some items) :
    items.length = (s.param.conv 0).batch ∧ ∀ it ∈ items, it.calls = [] := by
  unfold SynetMergedConvolution16bDc.Forward at h
  obtain ⟨hlen, hall⟩ := BatchLoop_calls _ _ _ _ _ _ items h
  refine ⟨hlen, ?_⟩
  intro it hit
  obtain ⟨src', dst', hc⟩ := hall it hit
  unfold ChannelLoop at hc
  split at hc
  · cases hc
  · refine SeqCalls_nil _ _ ?_ hc
    intro r hr x hx
    obtain ⟨c, _, rfl⟩ := List.mem_map.mp hr
    exact Dc_RowLoop_nil _ _ _ _ _ _ _ _ hx

/-- The row loop of Dc `Forward` ends when the step is positive and the loop bound
`c1.dstH` does not exceed the clamp `c0.dstH`. -/
theorem Dc_RowLoop_some (a : AlgParam) (H dstH0 srcH0 : Nat) (hstep : 1 ≤ a.yStep2)
    (hH : H ≤ dstH0) :
    ∀ fuel y2 y1, H ≤ fuel + y2 →
      SynetMergedConvolution16bDc.RowLoop a H dstH0 srcH0 fuel y2 y1 = some [] := by
  intro fuel
  induction fuel with
  | zero =>
    intro y2 y1 h
    unfold SynetMergedConvolution16bDc.RowLoop
    rw [if_neg (by omega)]
  | succ n ih =>
    intro y2 y1 h
    unfold SynetMergedConvolution16bDc.RowLoop
    by_cases hlt : y2 < H
    · rw [if_pos hlt]
      apply ih
      unfold RestrictRange
      omega
    · rw [if_neg hlt]

/-- Dc `Forward` returns when the tile and the row step are positive and the loop bound
`c1.dstH` does not exceed `c0.dstH`. -/
theorem Dc_Forward_returns (s : SynetMergedConvolution16b) (hmaC : 0 < s.alg.maC)
    (hstep : 1 ≤ s.alg.yStep2) (hH : (s.param.conv 1).dstH ≤ (s.param.conv 0).dstH) :
    ∃ items, SynetMergedConvolution16bDc.Forward s = some items := by
  unfold SynetMergedConvolution16bDc.Forward
  apply BatchLoop_some
  intro _ _
  refine ⟨[], ?_⟩
  unfold ChannelLoop
  rw [if_neg (by omega)]
  generalize StepRange (s.param.conv 0).dstC s.alg.maC = l
  simp only [Dc_RowLoop_some s.alg _ _ _ hstep hH _ 0 0 (Nat.le_add_right _ _)]
  induction l with
  | nil => rfl
  | cons c rest ih =>
    rw [List.map_cons, SeqCalls_cons_some [] _ [] ih]
    rfl

/-- NchwGemm `Forward` returns one item per batch image and makes no call. -/
theorem NchwGemm_Forward_no_call (align : Nat) (convert : Bool)
    (g : SynetConvolution16bNchwGemm) :
    ∃ items, SynetConvolution16bNchwGemm.Forward align convert g = some items ∧
      items.length = g.param.batch ∧ ∀ it ∈ items, it.calls = [] := by
  obtain ⟨items, h⟩ : ∃ items,
      SynetConvolution16bNchwGemm.Forward align convert g = some items := by
    unfold SynetConvolution16bNchwGemm.Forward
    exact BatchLoop_some _ _ _ (fun _ _ => ⟨_, rfl⟩) _ _ _
  refine ⟨items, h, ?_⟩
  unfold SynetConvolution16bNchwGemm.Forward at h
  obtain ⟨hlen, hall⟩ := BatchLoop_calls _ _ _ _ _ _ items h
  refine ⟨hlen, ?_⟩
  intro it hit
  obtain ⟨src', dst', hc⟩ := hall it hit
  simp only [SynetConvolution16bNchwGemm.ForwardStep, Option.some.injEq] at hc
  exact hc.symm
/-- C31: frame of the destination tensor. Whenever `SynetMergedConvolution16bDc::Forward`
returns, it has made no call in any batch item, so the contents of `dst` are what they
were before the call, whatever the effect `exec` of a call on `dst` would be;
`SynetConvolution16bNchwGemm::Forward` returns for every engine state, with one item per
batch image and no call, and leaves `dst` as it was; and NchwGemm `SetWeight` leaves the
packed weight buffer unchanged. -/
theorem forward_leaves_dst_unchanged {μ : Type} (exec : ForwardCall → μ → μ) (dst : μ)
    (s : SynetMergedConvolution16b) (items : List ForwardItem) (align : Nat) (convert : Bool)
    (g : SynetConvolution16bNchwGemm) (weight : Nat → Nat) (packed : List Nat)
    (h : SynetMergedConvolution16bDc.Forward s = some items) :
    (items.length = (s.param.conv 0).batch ∧ (∀ it ∈ items, it.calls = []) ∧
      DstAfter exec items dst = dst) ∧
    (∃ gitems, SynetConvolution16bNchwGemm.Forward align convert g = some gitems ∧
      gitems.length = g.param.batch ∧ (∀ it ∈ gitems, it.calls = []) ∧
      DstAfter exec gitems dst = dst) ∧
    SynetConvolution16bNchwGemm.SetWeight g weight packed = packed := by
  obtain ⟨hlen, hall⟩ := Dc_Forward_no_call s items h
  obtain ⟨gitems, hg, hglen, hgall⟩ := NchwGemm_Forward_no_call align convert g
  exact ⟨⟨hlen, hall, DstAfter_nil exec dst items hall⟩,
    ⟨gitems, hg, hglen, hgall, DstAfter_nil exec dst gitems hgall⟩, rfl⟩

/-- C31 (witness): the Dc engine of the chain `32 → 32 → 16` (depthwise 3×3, then 1×1)
and the NchwGemm engine of the dense 3×3 convolution `64 → 128`, each with a batch of two
images, for a destination that holds `[1, 2, 3]` and calls that would clear it. -/
theorem forward_leaves_dst_unchanged_witness :
    SynetMergedConvolution16bDc.Forward depthwiseHeadDc =
      some [{ src := 0, dst := 0, calls := [] }, { src := 2048, dst := 1024, calls := [] }] ∧
    (([{ src := 0, dst := 0, calls := [] }, { src := 2048, dst := 1024, calls := [] }] :
        List ForwardItem).length = (depthwiseHeadDc.param.conv 0).batch ∧
      (∀ it ∈ ([{ src := 0, dst := 0, calls := [] },
          { src := 2048, dst := 1024, calls := [] }] : List ForwardItem), it.calls = []) ∧
      DstAfter (fun _ _ => ([] : List Nat))
        [{ src := 0, dst := 0, calls := [] }, { src := 2048, dst := 1024, calls := [] }]
        [1, 2, 3] = [1, 2, 3]) ∧
    (∃ gitems, SynetConvolution16bNchwGemm.Forward 64 false gemmBatchSchedule = some gitems ∧
      gitems.length = gemmBatchSchedule.param.batch ∧ (∀ it ∈ gitems, it.calls = []) ∧
      DstAfter (fun _ _ => ([] : List Nat)) gitems [1, 2, 3] = [1, 2, 3]) ∧
    SynetConvolution16bNchwGemm.SetWeight gemmBatchSchedule rampWeights [7, 8, 9] =
      [7, 8, 9] :=
  ⟨by decide,
    forward_leaves_dst_unchanged (fun _ _ => ([] : List Nat)) [1, 2, 3] depthwiseHeadDc
      [{ src := 0, dst := 0, calls := [] }, { src := 2048, dst := 1024, calls := [] }] 64 false
      gemmBatchSchedule rampWeights [7, 8, 9] (by decide)⟩

/-! ## Reference convolutions: lemmas and theorems -/

/-- The wrapped difference of two values below `2^63` is below a bound below `2^63`
exactly when the true difference lies in `[0, bound)`. -/
theorem WrapSub_lt_iff (r pad bound : Nat) (hr : r < 2 ^ 63) (hpad : pad < 2 ^ 63)
    (hbound : bound < 2 ^ 63) :
    (WrapSub r pad < bound ↔ (0 ≤ (r : Int) - pad ∧ (r : Int) - pad < bound)) ∧
    (WrapSub r pad < bound → WrapSub r pad = r - pad ∧ pad ≤ r) := by
  unfold WrapSub
  have h63 : (2 : Nat) ^ 63 = 9223372036854775808 := by norm_num
  have h64 : (2 : Nat) ^ 64 = 18446744073709551616 := by norm_num
  rw [h63] at hr hpad hbound
  rw [h64]
  refine ⟨?_, ?_⟩ <;> omega

/-- The reads of `DirectBf16`: one per output position, tap that passes both tests, and
source channel. -/
theorem mem_DirectBf16 (p : ConvParam) (e : SrcRead) :
    e ∈ DirectBf16 p ↔
      ∃ dy, dy < p.dstH ∧ ∃ dx, dx < p.dstW ∧ ∃ ky, ky < p.kernelY ∧
        WrapSub (dy * p.strideY + ky) p.padY < p.srcH ∧ ∃ kx, kx < p.kernelX ∧
        WrapSub (dx * p.strideX + kx) p.padX < p.srcW ∧ ∃ sc, sc < p.srcC ∧
        e = { dy := dy, dx := dx, ky := ky, kx := kx, c := sc,
              sy := WrapSub (dy * p.strideY + ky) p.padY,
              sx := WrapSub (dx * p.strideX + kx) p.padX,
              index := (WrapSub (dy * p.strideY + ky) p.padY * p.srcW +
                WrapSub (dx * p.strideX + kx) p.padX) * p.srcC + sc } := by
  unfold DirectBf16
  simp only [List.mem_flatMap, List.mem_range, List.mem_ite_nil_right, List.mem_map]
  constructor
  · rintro ⟨dy, hdy, dx, hdx, ky, hky, hy, kx, hkx, hx, sc, hsc, rfl⟩
    exact ⟨dy, hdy, dx, hdx, ky, hky, hy, kx, hkx, hx, sc, hsc, rfl⟩
  · rintro ⟨dy, hdy, dx, hdx, ky, hky, hy, kx, hkx, hx, sc, hsc, rfl⟩
    exact ⟨dy, hdy, dx, hdx, ky, hky, hy, kx, hkx, hx, sc, hsc, rfl⟩

/-- The reads of `DepthwiseBf16`: one per output position, channel, and tap that passes
both tests. -/
theorem mem_DepthwiseBf16 (p : ConvParam) (e : SrcRead) :
    e ∈ DepthwiseBf16 p ↔
      ∃ dy, dy < p.dstH ∧ ∃ dx, dx < p.dstW ∧ ∃ c, c < p.srcC ∧ ∃ ky, ky < p.kernelY ∧
        WrapSub (dy * p.strideY + ky) p.padY < p.srcH ∧ ∃ kx, kx < p.kernelX ∧
        WrapSub (dx * p.strideX + kx) p.padX < p.srcW ∧
        e = { dy := dy, dx := dx, ky := ky, kx := kx, c := c,
              sy := WrapSub (dy * p.strideY + ky) p.padY,
              sx := WrapSub (dx * p.strideX + kx) p.padX,
              index := (WrapSub (dy * p.strideY + ky) p.padY * p.srcW +
                WrapSub (dx * p.strideX + kx) p.padX) * p.srcC + c } := by
  unfold DepthwiseBf16
  simp only [List.mem_flatMap, List.mem_range, List.mem_ite_nil_right, List.mem_singleton]

/-- An element index inside an `H × W × C` tensor. -/
theorem tensor_index_lt (H W C y x c : Nat) (hy : y < H) (hx : x < W) (hc : c < C) :
    (y * W + x) * C + c < H * W * C := by
  have h1 : y * W + x + 1 ≤ H * W := by
    have : (y + 1) * W ≤ H * W := Nat.mul_le_mul_right W hy
    rw [Nat.add_mul, Nat.one_mul] at this
    omega
  have h2 : (y * W + x + 1) * C ≤ H * W * C := Nat.mul_le_mul_right C h1
  rw [Nat.add_mul, Nat.one_mul] at h2
  omega
/-- A tap is among the reads of `DirectBf16` exactly when both wrapped tests pass. -/
theorem DirectBf16_tap_iff (p : ConvParam) (dy dx ky kx c : Nat) (hdy : dy < p.dstH)
    (hdx : dx < p.dstW) (hky : ky < p.kernelY) (hkx : kx < p.kernelX) (hc : c < p.srcC) :
    (∃ e ∈ DirectBf16 p, e.isTap dy dx ky kx c) ↔
      (WrapSub (dy * p.strideY + ky) p.padY < p.srcH ∧
        WrapSub (dx * p.strideX + kx) p.padX < p.srcW) := by
  constructor
  · rintro ⟨e, he, ht⟩
    obtain ⟨dy', _, dx', _, ky', _, hy, kx', _, hx, sc, _, rfl⟩ := (mem_DirectBf16 p e).mp he
    obtain ⟨h1, h2, h3, h4, _⟩ := ht
    simp only at h1 h2 h3 h4
    subst h1 h2 h3 h4
    exact ⟨hy, hx⟩
  · rintro ⟨hy, hx⟩
    exact ⟨_, (mem_DirectBf16 p _).mpr ⟨dy, hdy, dx, hdx, ky, hky, hy, kx, hkx, hx, c, hc, rfl⟩,
      rfl, rfl, rfl, rfl, rfl⟩

/-- A tap is among the reads of `DepthwiseBf16` exactly when both wrapped tests pass. -/
theorem DepthwiseBf16_tap_iff (p : ConvParam) (dy dx ky kx c : Nat) (hdy : dy < p.dstH)
    (hdx : dx < p.dstW) (hky : ky < p.kernelY) (hkx : kx < p.kernelX) (hc : c < p.srcC) :
    (∃ e ∈ DepthwiseBf16 p, e.isTap dy dx ky kx c) ↔
      (WrapSub (dy * p.strideY + ky) p.padY < p.srcH ∧
        WrapSub (dx * p.strideX + kx) p.padX < p.srcW) := by
  constructor
  · rintro ⟨e, he, ht⟩
    obtain ⟨dy', _, dx', _, c', _, ky', _, hy, kx', _, hx, rfl⟩ :=
      (mem_DepthwiseBf16 p e).mp he
    obtain ⟨h1, h2, h3, h4, _⟩ := ht
    simp only at h1 h2 h3 h4
    subst h1 h2 h3 h4
    exact ⟨hy, hx⟩
  · rintro ⟨hy, hx⟩
    exact ⟨_, (mem_DepthwiseBf16 p _).mpr
      ⟨dy, hdy, dx, hdx, c, hc, ky, hky, hy, kx, hkx, hx, rfl⟩, rfl, rfl, rfl, rfl, rfl⟩

/-- Every read of either reference convolution passed both tests for the tap it belongs
to, and its index is that of the source element `(sy, sx, c)`. -/
theorem reference_read_shape (p : ConvParam) (e : SrcRead)
    (he : e ∈ DirectBf16 p ∨ e ∈ DepthwiseBf16 p) :
    e.dy < p.dstH ∧ e.dx < p.dstW ∧ e.ky < p.kernelY ∧ e.kx < p.kernelX ∧ e.c < p.srcC ∧
    e.sy = WrapSub (e.dy * p.strideY + e.ky) p.padY ∧
    e.sx = WrapSub (e.dx * p.strideX + e.kx) p.padX ∧
    e.sy < p.srcH ∧ e.sx < p.srcW ∧ e.index = (e.sy * p.srcW + e.sx) * p.srcC + e.c := by
  rcases he with he | he
  · obtain ⟨dy, hdy, dx, hdx, ky, hky, hy, kx, hkx, hx, sc, hsc, rfl⟩ :=
      (mem_DirectBf16 p e).mp he
    exact ⟨hdy, hdx, hky, hkx, hsc, rfl, rfl, hy, hx, rfl⟩
  · obtain ⟨dy, hdy, dx, hdx, c, hc, ky, hky, hy, kx, hkx, hx, rfl⟩ :=
      (mem_DepthwiseBf16 p e).mp he
    exact ⟨hdy, hdx, hky, hkx, hc, rfl, rfl, hy, hx, rfl⟩

/-- C32: padding test by unsigned wrap-around. In `DirectBf16` and `DepthwiseBf16`, with
`sy = dy*strideY + ky - padY` and `sx = dx*strideX + kx - padX` computed modulo `2^64`
and `dy*strideY + ky`, `padY`, `srcH` (and `dx*strideX + kx`, `padX`, `srcW`) below
`2^63`, the tap `(dy, ky)`, `(dx, kx)` is accumulated if and only if the integer row
`dy*strideY + ky - padY` lies in `[0, srcH)` and the integer column
`dx*strideX + kx - padX` lies in `[0, srcW)`; for every read, `sy` and `sx` are that row
and that column and the index read is below `srcH*srcW*srcC`. -/
theorem padding_test_wraparound (p : ConvParam)
    (hrow : ∀ dy, dy < p.dstH → ∀ ky, ky < p.kernelY → dy * p.strideY + ky < 2 ^ 63)
    (hcol : ∀ dx, dx < p.dstW → ∀ kx, kx < p.kernelX → dx * p.strideX + kx < 2 ^ 63)
    (hpadY : p.padY < 2 ^ 63) (hpadX : p.padX < 2 ^ 63)
    (hsrcH : p.srcH < 2 ^ 63) (hsrcW : p.srcW < 2 ^ 63) :
    (∀ dy dx ky kx c, dy < p.dstH → dx < p.dstW → ky < p.kernelY → kx < p.kernelX →
      c < p.srcC →
      ((∃ e ∈ DirectBf16 p, e.isTap dy dx ky kx c) ↔
        ((0 ≤ ((dy * p.strideY + ky : Nat) : Int) - p.padY ∧
            ((dy * p.strideY + ky : Nat) : Int) - p.padY < p.srcH) ∧
          (0 ≤ ((dx * p.strideX + kx : Nat) : Int) - p.padX ∧
            ((dx * p.strideX + kx : Nat) : Int) - p.padX < p.srcW))) ∧
      ((∃ e ∈ DepthwiseBf16 p, e.isTap dy dx ky kx c) ↔
        ((0 ≤ ((dy * p.strideY + ky : Nat) : Int) - p.padY ∧
            ((dy * p.strideY + ky : Nat) : Int) - p.padY < p.srcH) ∧
          (0 ≤ ((dx * p.strideX + kx : Nat) : Int) - p.padX ∧
            ((dx * p.strideX + kx : Nat) : Int) - p.padX < p.srcW)))) ∧
    (∀ e, e ∈ DirectBf16 p ∨ e ∈ DepthwiseBf16 p →
      (e.sy : Int) = ((e.dy * p.strideY + e.ky : Nat) : Int) - p.padY ∧
      (e.sx : Int) = ((e.dx * p.strideX + e.kx : Nat) : Int) - p.padX ∧
      e.sy < p.srcH ∧ e.sx < p.srcW ∧ e.c < p.srcC ∧
      e.index = (e.sy * p.srcW + e.sx) * p.srcC + e.c ∧
      e.index < p.srcH * p.srcW * p.srcC) := by
  refine ⟨?_, ?_⟩
  · intro dy dx ky kx c hdy hdx hky hkx hc
    have hy := (WrapSub_lt_iff _ p.padY p.srcH (hrow dy hdy ky hky) hpadY hsrcH).1
    have hx := (WrapSub_lt_iff _ p.padX p.srcW (hcol dx hdx kx hkx) hpadX hsrcW).1
    rw [DirectBf16_tap_iff p dy dx ky kx c hdy hdx hky hkx hc,
      DepthwiseBf16_tap_iff p dy dx ky kx c hdy hdx hky hkx hc, hy, hx]
    exact ⟨Iff.rfl, Iff.rfl⟩
  · intro e he
    obtain ⟨hdy, hdx, hky, hkx, hc, hsy, hsx, hy, hx, hidx⟩ := reference_read_shape p e he
    have hy' := (WrapSub_lt_iff _ p.padY p.srcH (hrow _ hdy _ hky) hpadY hsrcH).2
      (by rw [← hsy]; exact hy)
    have hx' := (WrapSub_lt_iff _ p.padX p.srcW (hcol _ hdx _ hkx) hpadX hsrcW).2
      (by rw [← hsx]; exact hx)
    rw [← hsy] at hy'
    rw [← hsx] at hx'
    refine ⟨by omega, by omega, hy, hx, hc, hidx, ?_⟩
    rw [hidx]
    exact tensor_index_lt _ _ _ _ _ _ hy hx hc

set_option maxRecDepth 100000 in
/-- C32 (witness): the dense 3×3 convolution `2 → 2` with stride 1 and pad 1 on a 3×3
image; the tap `(ky, kx) = (0, 0)` of output position `(0, 0)` falls in the padding (row
`-1`) and is skipped, the tap `(1, 1)` reads element `(0, 0)` of the image. -/
theorem padding_test_wraparound_witness :
    (∀ dy, dy < paddedDescriptor.dstH → ∀ ky, ky < paddedDescriptor.kernelY →
      dy * paddedDescriptor.strideY + ky < 2 ^ 63) ∧
    (∀ dx, dx < paddedDescriptor.dstW → ∀ kx, kx < paddedDescriptor.kernelX →
      dx * paddedDescriptor.strideX + kx < 2 ^ 63) ∧
    paddedDescriptor.padY < 2 ^ 63 ∧ paddedDescriptor.padX < 2 ^ 63 ∧
    paddedDescriptor.srcH < 2 ^ 63 ∧ paddedDescriptor.srcW < 2 ^ 63 ∧
    (¬ ∃ e ∈ DirectBf16 paddedDescriptor, e.isTap 0 0 0 0 0) ∧
    (∃ e ∈ DirectBf16 paddedDescriptor, e.isTap 0 0 1 1 0) ∧
    ((∀ dy dx ky kx c, dy < paddedDescriptor.dstH → dx < paddedDescriptor.dstW →
      ky < paddedDescriptor.kernelY → kx < paddedDescriptor.kernelX →
      c < paddedDescriptor.srcC →
      ((∃ e ∈ DirectBf16 paddedDescriptor, e.isTap dy dx ky kx c) ↔
        ((0 ≤ ((dy * paddedDescriptor.strideY + ky : Nat) : Int) - paddedDescriptor.padY ∧
            ((dy * paddedDescriptor.strideY + ky : Nat) : Int) - paddedDescriptor.padY <
              paddedDescriptor.srcH) ∧
          (0 ≤ ((dx * paddedDescriptor.strideX + kx : Nat) : Int) - paddedDescriptor.padX ∧
            ((dx * paddedDescriptor.strideX + kx : Nat) : Int) - paddedDescriptor.padX <
              paddedDescriptor.srcW))) ∧
      ((∃ e ∈ DepthwiseBf16 paddedDescriptor, e.isTap dy dx ky kx c) ↔
        ((0 ≤ ((dy * paddedDescriptor.strideY + ky : Nat) : Int) - paddedDescriptor.padY ∧
            ((dy * paddedDescriptor.strideY + ky : Nat) : Int) - paddedDescriptor.padY <
              paddedDescriptor.srcH) ∧
          (0 ≤ ((dx * paddedDescriptor.strideX + kx : Nat) : Int) - paddedDescriptor.padX ∧
            ((dx * paddedDescriptor.strideX + kx : Nat) : Int) - paddedDescriptor.padX <
              paddedDescriptor.srcW)))) ∧
    (∀ e, e ∈ DirectBf16 paddedDescriptor ∨ e ∈ DepthwiseBf16 paddedDescriptor →
      (e.sy : Int) = ((e.dy * paddedDescriptor.strideY + e.ky : Nat) : Int) -
        paddedDescriptor.padY ∧
      (e.sx : Int) = ((e.dx * paddedDescriptor.strideX + e.kx : Nat) : Int) -
        paddedDescriptor.padX ∧
      e.sy < paddedDescriptor.srcH ∧ e.sx < paddedDescriptor.srcW ∧
      e.c < paddedDescriptor.srcC ∧
      e.index = (e.sy * paddedDescriptor.srcW + e.sx) * paddedDescriptor.srcC + e.c ∧
      e.index < paddedDescriptor.srcH * paddedDescriptor.srcW * paddedDescriptor.srcC)) :=
  ⟨by decide, by decide, by decide, by decide, by decide, by decide, by decide, by decide,
    padding_test_wraparound paddedDescriptor (by decide) (by decide) (by decide) (by decide)
      (by decide) (by decide)⟩

/-! ## Weight packers: sizes and reads, lemmas and theorems -/

theorem PackedValue_ite (cvt src : Nat → Nat) (c : Prop) [Decidable c] (j : Nat) :
    PackedValue cvt src (if c then some j else none) = if c then cvt (src j) else 0 := by
  split <;> rfl

/-- The cells of `_weightI` are the values of the recorded reads. -/
theorem SetInputWeight_eq_reads (cvt : Nat → Nat) (a : AlgParam) (src : Nat → Nat)
    (p : ConvParam) :
    SetInputWeight cvt a src p = (SetInputWeightReads a p).map (PackedValue cvt src) := by
  unfold SetInputWeight SetInputWeightReads
  split
  · simp only [List.map_flatMap, List.map_map, Function.comp_def, PackedValue_ite]
  · simp only [List.map_map, Function.comp_def, PackedValue]

/-- The cells of `_weightO` are the values of the recorded reads. -/
theorem SetOutputWeight_eq_reads (cvt : Nat → Nat) (a : AlgParam) (src : Nat → Nat)
    (p : ConvParam) :
    SetOutputWeight cvt a src p = (SetOutputWeightReads a p).map (PackedValue cvt src) := by
  unfold SetOutputWeight SetOutputWeightReads
  split
  · simp only [List.map_flatMap, List.map_map, Function.comp_def, PackedValue_ite]
  · simp only [List.map_map, Function.comp_def, PackedValue]

/-- The index read for pair member `(c + i)` and destination channel `d * F + f`. -/
theorem packer_read_lt (srcC dstC base col f i : Nat) (inSrc : Bool)
    (hcol : col + f < dstC) (hrow : base + i < srcC) (hin : inSrc = true) :
    PsOffset (base * dstC + col) inSrc f + i * dstC < srcC * dstC := by
  unfold PsOffset
  rw [hin, if_pos rfl]
  have h1 : (base + i + 1) * dstC ≤ srcC * dstC := Nat.mul_le_mul_right dstC hrow
  rw [Nat.add_mul, Nat.add_mul, Nat.one_mul] at h1
  omega

/-- In tiled mode every read of `SetInputWeight` is below `srcC * dstC`. -/
theorem SetInputWeightReads_lt (a : AlgParam) (p : ConvParam) (hmiC : 0 < a.miC) (j : Nat)
    (h : some j ∈ SetInputWeightReads a p) : j < p.srcC * p.dstC := by
  unfold SetInputWeightReads at h
  rw [if_pos (by omega)] at h
  simp only [List.mem_flatMap, List.mem_range, List.mem_map] at h
  obtain ⟨d, _, c, _, f, _, i, _, heq⟩ := h
  split at heq
  · rename_i hcond
    simp only [Option.some.injEq] at heq
    rw [← heq]
    exact packer_read_lt _ _ _ _ _ _ _ hcond.1 hcond.2 (by simp; omega)
  · cases heq

/-- In tiled mode every read of `SetOutputWeight` is below `srcC * dstC`. -/
theorem SetOutputWeightReads_lt (a : AlgParam) (p : ConvParam) (hmiC : 0 < a.miC) (j : Nat)
    (h : some j ∈ SetOutputWeightReads a p) : j < p.srcC * p.dstC := by
  unfold SetOutputWeightReads at h
  rw [if_pos (by omega)] at h
  simp only [List.mem_flatMap, List.mem_range, List.mem_map] at h
  obtain ⟨cB, _, d, _, c, _, f, _, i, _, heq⟩ := h
  split at heq
  · rename_i hcond
    simp only [Option.some.injEq] at heq
    rw [← heq]
    exact packer_read_lt _ _ _ _ _ _ _ hcond.1 hcond.2 (by simp; omega)
  · cases heq

/-- Length of the buffer written by an outer counted loop whose rounds write `w a * m`
cells. -/
theorem length_flatMap_range_sum {β : Type} (f : Nat → List β) (w : Nat → Nat) (m : Nat) :
    ∀ n, (∀ a, a < n → (f a).length = w a * m) →
      ((List.range n).flatMap f).length = ((List.range n).map w).sum * m := by
  intro n
  induction n with
  | zero => intro _; simp
  | succ n ih =>
    intro h
    rw [List.range_succ, List.flatMap_append, List.length_append, List.flatMap_singleton,
      ih (fun a ha => h a (by omega)), h n (by omega), List.map_append, List.sum_append]
    simp only [List.map_cons, List.map_nil, List.sum_cons, List.sum_nil, Nat.add_zero]
    ring

/-- In tiled mode with a positive macro tile, `SetOutputWeight` writes `C * D * F * 2`
cells, with `C` the number of source-channel pairs. -/
theorem SetOutputWeight_length (cvt : Nat → Nat) (a : AlgParam) (src : Nat → Nat)
    (p : ConvParam) (hmiC : 0 < a.miC) (hmaC : 0 < a.maC) :
    (SetOutputWeight cvt a src p).length =
      DivHi (AlignHi p.srcC a.miK) 2 * DivHi p.dstC (a.miC * 2) * (a.miC * 2) * 2 := by
  have hM := DivHi_two_pos a.maC hmaC
  rw [SetOutputWeight_eq_blocks cvt a src p hmiC]
  rw [length_flatMap_range_sum _
    (fun b => min (DivHi a.maC 2) (DivHi (AlignHi p.srcC a.miK) 2 - b * DivHi a.maC 2))
    (DivHi p.dstC (a.miC * 2) * (a.miC * 2 * 2))]
  · rw [tile_width_sum, Nat.min_eq_left (le_DivHi_mul _ _ hM)]
    ring
  · intro b _
    rw [length_flatMap_range _ (((min (DivHi (AlignHi p.srcC a.miK) 2)
        (b * DivHi a.maC 2 + DivHi a.maC 2) - b * DivHi a.maC 2)) * (a.miC * 2 * 2))]
    · have : min (DivHi (AlignHi p.srcC a.miK) 2) (b * DivHi a.maC 2 + DivHi a.maC 2) -
          b * DivHi a.maC 2 =
          min (DivHi a.maC 2) (DivHi (AlignHi p.srcC a.miK) 2 - b * DivHi a.maC 2) := by
        omega
      rw [this]
      ring
    · intro d _
      rw [length_flatMap_range _ (a.miC * 2 * 2)]
      intro c _
      rw [length_flatMap_range _ 2]
      intro f _
      simp
/-- C33: packer bounds. In tiled mode (`miC > 0`) with `miK = 2^k` even and `maC > 0`,
`SetInputWeight` writes exactly `AlignHi(srcC, miK) * ceil(dstC / F) * F` cells
(`F = 2*miC`), the size it passed to `_weightI.Resize`, and `SetOutputWeight` writes
exactly `2 * ceil(AlignHi(srcC, miK) / 2) * ceil(dstC / F) * F` cells, the size it passed
to `_weightO.Resize`, so that every cell written lies inside its buffer; every cell is the
value of the read recorded for it, and every read of the source weight array is at an
index below `srcC * dstC`. -/
theorem packer_bounds (cvt : Nat → Nat) (a : AlgParam) (src : Nat → Nat) (p : ConvParam)
    (k : Nat) (hmiC : 0 < a.miC) (hk : 1 ≤ k) (hmiK : a.miK = 2 ^ k) (hmaC : 0 < a.maC) :
    (SetInputWeight cvt a src p).length = InputWeightSize a p ∧
    InputWeightSize a p = AlignHi p.srcC a.miK * DivHi p.dstC (2 * a.miC) * (2 * a.miC) ∧
    (SetOutputWeight cvt a src p).length = OutputWeightSize a p ∧
    OutputWeightSize a p =
      2 * DivHi (AlignHi p.srcC a.miK) 2 * DivHi p.dstC (2 * a.miC) * (2 * a.miC) ∧
    SetInputWeight cvt a src p = (SetInputWeightReads a p).map (PackedValue cvt src) ∧
    SetOutputWeight cvt a src p = (SetOutputWeightReads a p).map (PackedValue cvt src) ∧
    (∀ j, some j ∈ SetInputWeightReads a p → j < p.srcC * p.dstC) ∧
    (∀ j, some j ∈ SetOutputWeightReads a p → j < p.srcC * p.dstC) := by
  have heven : AlignHi p.srcC a.miK % 2 = 0 := by
    rw [hmiK]
    exact AlignHi_pow2_even _ _ hk
  have hI : InputWeightSize a p =
      AlignHi p.srcC a.miK * DivHi p.dstC (2 * a.miC) * (2 * a.miC) := by
    unfold InputWeightSize
    rw [if_pos (by omega), Nat.mul_comm a.miC 2]
  have hO : OutputWeightSize a p =
      2 * DivHi (AlignHi p.srcC a.miK) 2 * DivHi p.dstC (2 * a.miC) * (2 * a.miC) := by
    unfold OutputWeightSize
    rw [if_pos (by omega), Nat.mul_comm a.miC 2]
    ring
  refine ⟨?_, hI, ?_, hO, SetInputWeight_eq_reads cvt a src p,
    SetOutputWeight_eq_reads cvt a src p, SetInputWeightReads_lt a p hmiC,
    SetOutputWeightReads_lt a p hmiC⟩
  · rw [hI, SetInputWeight_length cvt a src p hmiC heven, Nat.mul_comm a.miC 2]
    obtain ⟨h, hh⟩ : ∃ h, AlignHi p.srcC a.miK = 2 * h :=
      ⟨_, (Nat.mul_div_cancel' (Nat.dvd_of_mod_eq_zero heven)).symm⟩
    rw [hh, Nat.mul_div_cancel_left _ (by decide : 0 < 2)]
    ring
  · rw [hO, SetOutputWeight_length cvt a src p hmiC hmaC, Nat.mul_comm a.miC 2]
    ring

/-- C33 (witness): the stage `32 → 32` of `squareTailDescriptor` packed by both dense
packers with the tiling parameters `squareTailAlg` (`miC = 8`, `miK = 2`, `maC = 16`). -/
theorem packer_bounds_witness :
    0 < squareTailAlg.miC ∧ 1 ≤ 1 ∧ squareTailAlg.miK = 2 ^ 1 ∧ 0 < squareTailAlg.maC ∧
    ((SetInputWeight UpperHalf squareTailAlg rampWeights
        (squareTailDescriptor.conv 2)).length =
      InputWeightSize squareTailAlg (squareTailDescriptor.conv 2) ∧
    InputWeightSize squareTailAlg (squareTailDescriptor.conv 2) =
      AlignHi (squareTailDescriptor.conv 2).srcC squareTailAlg.miK *
        DivHi (squareTailDescriptor.conv 2).dstC (2 * squareTailAlg.miC) *
        (2 * squareTailAlg.miC) ∧
    (SetOutputWeight UpperHalf squareTailAlg rampWeights
        (squareTailDescriptor.conv 2)).length =
      OutputWeightSize squareTailAlg (squareTailDescriptor.conv 2) ∧
    OutputWeightSize squareTailAlg (squareTailDescriptor.conv 2) =
      2 * DivHi (AlignHi (squareTailDescriptor.conv 2).srcC squareTailAlg.miK) 2 *
        DivHi (squareTailDescriptor.conv 2).dstC (2 * squareTailAlg.miC) *
        (2 * squareTailAlg.miC) ∧
    SetInputWeight UpperHalf squareTailAlg rampWeights (squareTailDescriptor.conv 2) =
      (SetInputWeightReads squareTailAlg (squareTailDescriptor.conv 2)).map
        (PackedValue UpperHalf rampWeights) ∧
    SetOutputWeight UpperHalf squareTailAlg rampWeights (squareTailDescriptor.conv 2) =
      (SetOutputWeightReads squareTailAlg (squareTailDescriptor.conv 2)).map
        (PackedValue UpperHalf rampWeights) ∧
    (∀ j, some j ∈ SetInputWeightReads squareTailAlg (squareTailDescriptor.conv 2) →
      j < (squareTailDescriptor.conv 2).srcC * (squareTailDescriptor.conv 2).dstC) ∧
    (∀ j, some j ∈ SetOutputWeightReads squareTailAlg (squareTailDescriptor.conv 2) →
      j < (squareTailDescriptor.conv 2).srcC * (squareTailDescriptor.conv 2).dstC)) :=
  ⟨by decide, by decide, by decide, by decide,
    packer_bounds UpperHalf squareTailAlg rampWeights (squareTailDescriptor.conv 2) 1
      (by decide) (by decide) (by decide) (by decide)⟩

end Base
end Simd
